import Mathlib

/-!
# Room and turn engine of the Yahtzee session server

A shallow embedding of `server/handlers.go`.

Conventions of the embedding.

* A Go `map[string]V` is an association list; the list order stands for the order in
  which a `range` loop visits the map.  Statements quantify over every list, hence
  over every visiting order.
* A Go `[]int` slice is a reference into `Room.Arrays`, the store of backing arrays:
  a slice literal allocates a fresh array, an indexed assignment writes in place, and
  an event payload that holds a slice holds the reference.
* Go `int` is 64-bit two's complement.  Sums of client supplied scores go through
  `addInt`; index and counter arithmetic is guarded in the source so that it cannot
  leave the range and is written with plain integer operations.
* A handler that would stop with a run-time fault (index out of range, division by
  zero) returns `none`.
* Random sources (`generatePlayerID`, `generateToken`, `mrand.Shuffle`, `mrand.Intn`)
  are arguments of the operations.
* Inbound events are taken after decoding: `player_id`, `held_indices`, `category`
  and `score` are the values the handler obtains from the payload.  The conversion of
  the elements of `held_indices` from JSON numbers is `convertHeld`, with a JSON number
  taken as a rational.
* Wall-clock fields (`LastSeen`, `LastActivity`), locks, logging and the fan-out of
  messages to sockets are not part of the state.
-/

namespace Yahtzee

/-! ## Machine integers -/

/-- The value of a mathematical integer once stored in a Go `int` (64 bits). -/
def wrapInt (x : Int) : Int :=
  (x + 9223372036854775808) % 18446744073709551616 - 9223372036854775808

/-- Go `a + b` on `int`. -/
def addInt (a b : Int) : Int := wrapInt (a + b)

/-- The values a Go `int` can hold. -/
def inInt64 (x : Int) : Prop := -9223372036854775808 ≤ x ∧ x < 9223372036854775808

/-! ## Data model -/

/-- Go `m[k] = v` on a map kept as an association list. -/
def mapSet {β : Type} (m : List (String × β)) (k : String) (v : β) : List (String × β) :=
  if m.any (fun e => e.1 == k) then m.map (fun e => if e.1 == k then (k, v) else e)
  else m ++ [(k, v)]

/-- A player of a room (`type Player struct`). `Conn` is the live connection handle. -/
structure Player where
  ID : String
  Name : String
  Token : String
  Ready : Bool
  Scores : List (String × Int)
  TotalScore : Int
  IsViewer : Bool
  Conn : Option Nat
deriving DecidableEq, Repr

/-- One entry of `players` / `player_list` in the `GAME_STARTED` payload. -/
structure PlayerData where
  player_id : String
  name : String
  ready : Bool
  total_score : Int
deriving DecidableEq, Repr

/-- One entry of `final_scores` in the `GAME_END` payload. -/
structure FinalScore where
  name : String
  base_score : Int
  upper_bonus : Int
  final_score : Int
deriving DecidableEq, Repr

/-- A client message as a key/value map, passed through unchanged by
`PLAYER_READY` and `CHAT_MESSAGE`. -/
abbrev RawEvent := List (String × String)

/-- Payload of a logged event, one constructor per payload shape built in the source.
The `dice` of `rollResult` is the slice `room.CurrentDice`, a reference into
`Room.Arrays`. -/
inductive Payload where
  | passthrough (event : RawEvent)
  | gameStarted (players : List (String × PlayerData)) (player_list : List PlayerData)
      (turn_order : List String) (current_player : String)
  | rollResult (player_id : String) (dice : Nat) (rolls_left : Int)
  | scoreUpdate (player_id : String) (category : String) (score : Int)
  | turnChanged (current_player : String) (rolls_left : Int)
  | gameEnd (final_scores : List (String × FinalScore)) (winner_id : String)
      (winner_name : String) (is_draw : Bool)
deriving DecidableEq, Repr

/-- A logged event (`type GameEvent struct`); `EvType` is the field `Type`. -/
structure GameEvent where
  ID : Int
  EvType : String
  Payload : Payload
deriving DecidableEq, Repr

/-- A game room (`type Room struct`). `CurrentDice` refers to an array of `Arrays`. -/
structure Room where
  Code : String
  Players : List Player
  PlayerOrder : List String
  CurrentPlayerIdx : Int
  CurrentDice : Nat
  RollsLeft : Int
  GameStarted : Bool
  HostID : String
  Events : List GameEvent
  Arrays : List (List Int)
deriving DecidableEq, Repr

/-- The scoring categories (`var Categories`). -/
def Categories : List String :=
  ["ones", "twos", "threes", "fours", "fives", "sixes",
   "three_of_a_kind", "four_of_a_kind", "full_house",
   "small_straight", "large_straight", "yahtzee"]

/-- The six categories summed for the upper bonus in `checkGameEnd`. -/
def upperCategories : List String :=
  ["ones", "twos", "threes", "fours", "fives", "sixes"]

/-- Map lookup `room.Players[id]`. -/
def findPlayer (ps : List Player) (id : String) : Option Player :=
  ps.find? (fun p => p.ID == id)

/-- A write through the pointer stored under key `id`. -/
def modifyPlayer (ps : List Player) (id : String) (f : Player → Player) : List Player :=
  ps.map (fun p => if p.ID == id then f p else p)

/-- Map assignment `room.Players[p.ID] = p`. -/
def setPlayer (ps : List Player) (p : Player) : List Player :=
  if ps.any (fun q => q.ID == p.ID) then ps.map (fun q => if q.ID == p.ID then p else q)
  else ps ++ [p]

/-- Map deletion `delete(room.Players, id)`. -/
def deletePlayer (ps : List Player) (id : String) : List Player :=
  ps.filter (fun p => p.ID != id)

/-- The keys of the roster. -/
def rosterIds (ps : List Player) : List String := ps.map (fun p => p.ID)

/-- The contents of the slice `room.CurrentDice`. -/
def Room.dice (room : Room) : List Int := room.Arrays.getD room.CurrentDice []

/-- The contents of a slice reference held by a payload, read in the given room. -/
def Room.arrayAt (room : Room) (ref : Nat) : List Int := room.Arrays.getD ref []

/-- A slice literal assigned to `room.CurrentDice`: a fresh backing array. -/
def allocDice (d : List Int) (room : Room) : Room :=
  { room with Arrays := room.Arrays ++ [d], CurrentDice := room.Arrays.length }

/-- Slice indexing `order[i]`; `none` is the index-out-of-range fault. -/
def indexOrder (order : List String) (i : Int) : Option String :=
  if 0 ≤ i then order[i.toNat]? else none

/-! ## Event log -/

/-- The method `addEvent`: the new event gets id `len(Events) + 1`. -/
def addEvent (eventType : String) (payload : Payload) (room : Room) : Room :=
  { room with
    Events := room.Events ++
      [{ ID := (room.Events.length : Int) + 1, EvType := eventType, Payload := payload }] }

/-! ## Room creation and joining -/

/-- The default `req.PlayerName = "Player"` of an empty display name. -/
def displayName (playerName : String) : String :=
  if playerName == "" then "Player" else playerName

/-- The handler `CreateRoom`, given the generated room code, player id and token. -/
def CreateRoom (playerName roomCode playerID token : String) : Room :=
  { Code := roomCode
    Players := [{ ID := playerID, Name := displayName playerName, Token := token, Ready := false,
                  Scores := [], TotalScore := 0, IsViewer := false, Conn := none }]
    PlayerOrder := [playerID]
    CurrentPlayerIdx := 0
    CurrentDice := 0
    RollsLeft := 3
    GameStarted := false
    HostID := playerID
    Events := []
    Arrays := [[1, 1, 1, 1, 1]] }

/-- Body of a join request. -/
structure JoinRequest where
  RoomCode : String
  PlayerName : String
  PlayerID : String
  Token : String
deriving DecidableEq, Repr

/-- Body of a successful join response. -/
structure JoinResponse where
  room_code : String
  player_id : String
  token : String
  is_viewer : Bool
  last_event_id : Nat
deriving DecidableEq, Repr

/-- Failures of the join handler. -/
inductive JoinError where
  | RoomNotFound
  | RoomFull
deriving DecidableEq, Repr

/-- The rejoin test of `JoinRoom`: both credentials non-empty, the id is a roster key
and the stored token equals the supplied one. -/
def rejoinMatch (req : JoinRequest) (room : Room) : Option Player :=
  if req.PlayerID != "" && req.Token != "" then
    match findPlayer room.Players req.PlayerID with
    | some existingPlayer => if existingPlayer.Token == req.Token then some existingPlayer else none
    | none => none
  else none

/-- The handler `JoinRoom` on the room found under `req.RoomCode`; `playerID` and
`token` are the values `generatePlayerID` and `generateToken` would return. -/
def JoinRoom (req : JoinRequest) (playerID token : String) (room : Room) :
    Except JoinError (Room × JoinResponse) :=
  let name := displayName req.PlayerName
  match rejoinMatch req room with
  | some _ =>
    let isInOrder := room.PlayerOrder.any (fun pid => pid == req.PlayerID)
    let isViewer := room.GameStarted || !isInOrder
    .ok ({ room with
            Players := modifyPlayer room.Players req.PlayerID
              (fun p => { p with Name := name, IsViewer := isViewer }) },
         { room_code := req.RoomCode, player_id := req.PlayerID, token := req.Token,
           is_viewer := isViewer, last_event_id := room.Events.length })
  | none =>
    if room.GameStarted then
      let player : Player :=
        { ID := playerID, Name := name, Token := token, Ready := false,
          Scores := [], TotalScore := 0, IsViewer := true, Conn := none }
      .ok ({ room with Players := setPlayer room.Players player },
           { room_code := req.RoomCode, player_id := playerID, token := token,
             is_viewer := true, last_event_id := room.Events.length })
    else if room.Players.length ≥ 6 then .error JoinError.RoomFull
    else
      let player : Player :=
        { ID := playerID, Name := name, Token := token, Ready := false,
          Scores := [], TotalScore := 0, IsViewer := false, Conn := none }
      .ok ({ room with
              Players := setPlayer room.Players player,
              PlayerOrder := room.PlayerOrder ++ [playerID] },
           { room_code := req.RoomCode, player_id := playerID, token := token,
             is_viewer := false, last_event_id := room.Events.length })

/-- The connection upgrade of the handler `WebSocket`: on matching credentials the
new connection handle replaces the old one; otherwise the request is refused. -/
def connect (playerID token : String) (conn : Nat) (room : Room) : Option Room :=
  match findPlayer room.Players playerID with
  | some player =>
    if player.Token != token then none
    else some { room with
                Players := modifyPlayer room.Players playerID (fun p => { p with Conn := some conn }) }
  | none => none

/-! ## Turn engine -/

/-- The turn guard `len(room.PlayerOrder) == 0 || room.PlayerOrder[room.CurrentPlayerIdx] != playerID`
shared by the roll, score and end-turn handlers: `some true` rejects. -/
def notTurn (room : Room) (playerID : String) : Option Bool :=
  if room.PlayerOrder.length = 0 then some true
  else
    match indexOrder room.PlayerOrder room.CurrentPlayerIdx with
    | none => none
    | some cur => some (cur != playerID)

/-- The method `handlePlayerReady`. -/
def handlePlayerReady (playerID : String) (ready : Bool) (event : RawEvent) (room : Room) : Room :=
  addEvent "PLAYER_READY" (Payload.passthrough event)
    { room with Players := modifyPlayer room.Players playerID (fun p => { p with Ready := ready }) }

/-- The entry of a player in the `GAME_STARTED` payload. -/
def startData (p : Player) : PlayerData :=
  { player_id := p.ID, name := p.Name, ready := p.Ready, total_score := 0 }

/-- The method `handleGameStart`; `shuffle` is the outcome of `mrand.Shuffle` on the
copied turn sequence. -/
def handleGameStart (shuffle : List String → List String) (playerID : String) (room : Room) : Room :=
  if room.GameStarted then room
  else if room.HostID != playerID then room
  else
    let room1 : Room := allocDice [1, 1, 1, 1, 1] { room with GameStarted := true, RollsLeft := 3 }
    let room2 : Room := { room1 with PlayerOrder := shuffle room1.PlayerOrder, CurrentPlayerIdx := 0 }
    let room3 : Room := { room2 with
      Players := room2.Players.map (fun p => { p with Scores := [], TotalScore := 0 }) }
    let playersData := room3.Players.foldl (fun m p => mapSet m p.ID (startData p)) []
    let playersList := room3.Players.map startData
    let firstPlayer := if room3.PlayerOrder.length > 0 then room3.PlayerOrder.headD "" else ""
    addEvent "GAME_STARTED"
      (Payload.gameStarted playersData playersList room3.PlayerOrder firstPlayer) room3

/-- The roll loop `for i := 0; i < 5; i++` of `handleRequestRoll`, with `n` iterations
left, at position `i`, after `k` calls of `mrand.Intn(6)`; `rnd k` is the outcome of
call `k`.  `none` is an indexed write past the end of the dice array. -/
def rollLoop (held : List Int) (rnd : Nat → Fin 6) : Nat → Nat → Nat → List Int → Option (List Int)
  | 0, _, _, dice => some dice
  | n + 1, i, k, dice =>
    if held.contains (i : Int) then rollLoop held rnd n (i + 1) k dice
    else if i < dice.length then
      rollLoop held rnd n (i + 1) (k + 1) (dice.set i (((rnd k).val : Int) + 1))
    else none

/-- The method `handleRequestRoll`; `held` lists the converted `held_indices`. -/
def handleRequestRoll (playerID : String) (held : List Int) (rnd : Nat → Fin 6) (room : Room) :
    Option Room :=
  match notTurn room playerID with
  | none => none
  | some true => some room
  | some false =>
    if room.RollsLeft ≤ 0 then some room
    else
      match rollLoop held rnd 5 0 0 room.dice with
      | none => none
      | some dice =>
        let room1 : Room := { room with
          Arrays := room.Arrays.set room.CurrentDice dice, RollsLeft := room.RollsLeft - 1 }
        some (addEvent "ROLL_RESULT"
          (Payload.rollResult playerID room1.CurrentDice room1.RollsLeft) room1)

/-- The method `advanceTurn`. `none` is the division by a zero length or the
out-of-range read of the new current player. -/
def advanceTurn (room : Room) : Option Room :=
  if room.PlayerOrder.length = 0 then none
  else
    let idx := Int.tmod (room.CurrentPlayerIdx + 1) room.PlayerOrder.length
    let room1 : Room := allocDice [0, 0, 0, 0, 0] { room with CurrentPlayerIdx := idx, RollsLeft := 3 }
    match indexOrder room1.PlayerOrder room1.CurrentPlayerIdx with
    | none => none
    | some newPlayerID => some (addEvent "TURN_CHANGED" (Payload.turnChanged newPlayerID 3) room1)

/-- The first loop of `checkGameEnd`: no non-viewer has fewer entries than there are
categories. -/
def allFilled (ps : List Player) : Bool :=
  ps.all (fun player => player.IsViewer || !(decide (player.Scores.length < Categories.length)))

/-- The sum `upperTotal` of one player in `checkGameEnd`; a missing key reads as 0. -/
def upperTotal (scores : List (String × Int)) : Int :=
  upperCategories.foldl (fun acc cat => addInt acc ((scores.lookup cat).getD 0)) 0

/-- The bonus of one player in `checkGameEnd`. -/
def upperBonus (scores : List (String × Int)) : Int :=
  if upperTotal scores ≥ 63 then 35 else 0

/-- The value `finalTotal` of one player in `checkGameEnd`. -/
def finalTotal (player : Player) : Int :=
  addInt player.TotalScore (upperBonus player.Scores)

/-- The variables of the second loop of `checkGameEnd`. -/
structure Tally where
  finalScores : List (String × FinalScore)
  highestScore : Int
  winners : List String
deriving DecidableEq, Repr

/-- The entry `finalScores[id]` of one player in `checkGameEnd`. -/
def finalEntry (player : Player) : FinalScore :=
  { name := player.Name, base_score := player.TotalScore,
    upper_bonus := upperBonus player.Scores, final_score := finalTotal player }

/-- One iteration of the second loop of `checkGameEnd`. -/
def tallyStep (t : Tally) (player : Player) : Tally :=
  if player.IsViewer then t
  else
    let fs := mapSet t.finalScores player.ID (finalEntry player)
    if finalTotal player > t.highestScore then
      { finalScores := fs, highestScore := finalTotal player, winners := [player.ID] }
    else if finalTotal player = t.highestScore then
      { finalScores := fs, highestScore := t.highestScore, winners := t.winners ++ [player.ID] }
    else { t with finalScores := fs }

/-- The second loop of `checkGameEnd`, started with `highestScore := -1`. -/
def tally (ps : List Player) : Tally :=
  ps.foldl tallyStep { finalScores := [], highestScore := -1, winners := [] }

/-- The value `winnerID` of `checkGameEnd`. -/
def winnerID (winners : List String) : String :=
  if winners.length > 0 then winners.headD "" else ""

/-- The value `winnerName` of `checkGameEnd`. -/
def winnerName (ps : List Player) (winners : List String) : String :=
  if winners.length > 0 then
    if winners.length > 1 then
      String.intercalate " & "
        (winners.filterMap (fun wid => (findPlayer ps wid).map (fun p => p.Name))) ++ " (TIE!)"
    else
      match findPlayer ps (winners.headD "") with
      | some winner => winner.Name
      | none => ""
  else ""

/-- The payload of `GAME_END` built by `checkGameEnd`. -/
def gameEndPayload (ps : List Player) : Payload :=
  let t := tally ps
  Payload.gameEnd t.finalScores (winnerID t.winners) (winnerName ps t.winners)
    (decide (t.winners.length > 1))

/-- The method `checkGameEnd`. -/
def checkGameEnd (room : Room) : Room :=
  if allFilled room.Players then addEvent "GAME_END" (gameEndPayload room.Players) room
  else room

/-- The score update of `handleCategoryChosen` on the player found in the roster. -/
def recordScore (category : String) (score : Int) (p : Player) : Player :=
  { p with Scores := mapSet p.Scores category score, TotalScore := addInt p.TotalScore score }

/-- The method `handleCategoryChosen`. -/
def handleCategoryChosen (playerID category : String) (score : Int) (room : Room) : Option Room :=
  match notTurn room playerID with
  | none => none
  | some true => some room
  | some false =>
    match findPlayer room.Players playerID with
    | none => some room
    | some player =>
      if (player.Scores.lookup category).isSome then some room
      else
        let room1 : Room := { room with
          Players := modifyPlayer room.Players playerID (recordScore category score) }
        let room2 : Room := addEvent "SCORE_UPDATE" (Payload.scoreUpdate playerID category score) room1
        match advanceTurn room2 with
        | none => none
        | some room3 => some (checkGameEnd room3)

/-- The method `handleEndTurn`. -/
def handleEndTurn (playerID : String) (room : Room) : Option Room :=
  match notTurn room playerID with
  | none => none
  | some true => some room
  | some false => advanceTurn room

/-! ## Disconnect policy -/

/-- What `handlePlayerDisconnect` leaves behind: the room, and the reason of the
`ROOM_ENDED` notice when the room was deleted from the manager. -/
structure DisconnectOutcome where
  room : Room
  roomEnded : Option String
deriving DecidableEq, Repr

/-- The value `wasCurrentPlayer` of `handlePlayerDisconnect`; `none` is the
out-of-range read at a negative index. -/
def wasCurrentPlayer (room : Room) (playerID : String) : Option Bool :=
  if room.PlayerOrder.length > 0 ∧ room.CurrentPlayerIdx < room.PlayerOrder.length then
    match indexOrder room.PlayerOrder room.CurrentPlayerIdx with
    | none => none
    | some cur => some (cur == playerID)
  else some false

/-- The value `leavingPlayerIdx` of `handlePlayerDisconnect`. -/
def leavingPlayerIdx (order : List String) (playerID : String) : Int :=
  if order.contains playerID then (order.indexOf playerID : Int) else -1

/-- The re-indexing `if / else if` chain of `handlePlayerDisconnect`, on the already
shortened turn sequence. -/
def reindex (wasCurrent : Bool) (leavingIdx : Int) (idx : Int) (newLen : Nat) : Int :=
  if wasCurrent ∧ newLen > 0 then Int.tmod idx newLen
  else if leavingIdx ≥ 0 ∧ leavingIdx < idx then idx - 1
  else if idx ≥ newLen ∧ newLen > 0 then Int.tmod idx newLen
  else if newLen = 0 then 0
  else idx

/-- The count `remainingPlayers` of `handlePlayerDisconnect`. -/
def remainingPlayers (gameStarted : Bool) (ps : List Player) : Nat :=
  if gameStarted then (ps.filter (fun p => p.Conn.isSome)).length else ps.length

/-- Lines 1055-1102 of `handlePlayerDisconnect`: the roster entry is deleted (before
the start) or its connection cleared (after it), the id leaves the turn sequence and
the current index is adjusted. -/
def leaveTurnOrder (playerID : String) (wasCurrent : Bool) (room : Room) : Room :=
  let players :=
    if !room.GameStarted then deletePlayer room.Players playerID
    else modifyPlayer room.Players playerID (fun p => { p with Conn := none })
  let leavingIdx := leavingPlayerIdx room.PlayerOrder playerID
  let newOrder := room.PlayerOrder.filter (fun pid => pid != playerID)
  { room with
    Players := players
    PlayerOrder := newOrder
    CurrentPlayerIdx := reindex wasCurrent leavingIdx room.CurrentPlayerIdx newOrder.length }

/-- Lines 1125-1141 of `handlePlayerDisconnect`: the `TURN_CHANGED` event sent when the
current player left a started game. -/
def announceTurn (gameStarted wasCurrent : Bool) (room : Room) : Option Room :=
  if gameStarted ∧ wasCurrent ∧ room.PlayerOrder.length > 0 then
    match indexOrder room.PlayerOrder room.CurrentPlayerIdx with
    | none => none
    | some currentPlayerID =>
      some (addEvent "TURN_CHANGED" (Payload.turnChanged currentPlayerID 3)
        (allocDice [0, 0, 0, 0, 0] { room with RollsLeft := 3 }))
  else some room

/-- Lines 1143-1216 of `handlePlayerDisconnect`: the room ends when the host left a
started game, or when one connected player remains in a started game. -/
def teardown (isHost gameStarted : Bool) (remaining : Nat) (room : Room) : DisconnectOutcome :=
  if isHost ∧ gameStarted then
    { room := { room with Players := room.Players.map (fun p => { p with Conn := none }) }
      roomEnded := some "host_disconnected" }
  else if remaining = 1 ∧ gameStarted then
    { room := { room with
        Players := match room.Players with
          | [] => []
          | p :: rest => { p with Conn := none } :: rest }
      roomEnded := some "insufficient_players" }
  else { room := room, roomEnded := none }

/-- The method `handlePlayerDisconnect` for the session of player `playerID`. -/
def handlePlayerDisconnect (playerID : String) (room : Room) : Option DisconnectOutcome :=
  match wasCurrentPlayer room playerID with
  | none => none
  | some wasCurrent =>
    let room1 := leaveTurnOrder playerID wasCurrent room
    let remaining := remainingPlayers room.GameStarted room1.Players
    match announceTurn room.GameStarted wasCurrent room1 with
    | none => none
    | some room2 => some (teardown (room.HostID == playerID) room.GameStarted remaining room2)

/-- The deferred cleanup of `handlePlayerMessages`: the session's connection handle is
cleared, then `handlePlayerDisconnect` runs. -/
def disconnect (playerID : String) (room : Room) : Option DisconnectOutcome :=
  handlePlayerDisconnect playerID
    { room with Players := modifyPlayer room.Players playerID (fun p => { p with Conn := none }) }

/-! ## Reachable rooms -/

/-- What is assumed of a value returned by `generatePlayerID`: it is not empty and it
is not an id the room already knows. -/
def freshID (room : Room) (playerID : String) : Prop :=
  playerID ≠ "" ∧ playerID ∉ rosterIds room.Players ∧ playerID ∉ room.PlayerOrder ∧
    playerID ≠ room.HostID

/-- One operation on a room.  The `player_id` of a game event and the id of a
disconnecting session are arbitrary. -/
inductive Step : Room → Room → Prop where
  | join (req : JoinRequest) (playerID token : String) (r r1 : Room) (resp : JoinResponse) :
      freshID r playerID → token ≠ "" →
      JoinRoom req playerID token r = Except.ok (r1, resp) → Step r r1
  | connect (playerID token : String) (conn : Nat) (r r1 : Room) :
      connect playerID token conn r = some r1 → Step r r1
  | ready (playerID : String) (flag : Bool) (event : RawEvent) (r : Room) :
      Step r (handlePlayerReady playerID flag event r)
  | chat (event : RawEvent) (r : Room) :
      Step r (addEvent "CHAT_MESSAGE" (Payload.passthrough event) r)
  | start (shuffle : List String → List String) (playerID : String) (r : Room) :
      (∀ l, (shuffle l).Perm l) → Step r (handleGameStart shuffle playerID r)
  | roll (playerID : String) (held : List Int) (rnd : Nat → Fin 6) (r r1 : Room) :
      handleRequestRoll playerID held rnd r = some r1 → Step r r1
  | score (playerID category : String) (score : Int) (r r1 : Room) :
      handleCategoryChosen playerID category score r = some r1 → Step r r1
  | endTurn (playerID : String) (r r1 : Room) :
      handleEndTurn playerID r = some r1 → Step r r1
  | disconnect (playerID : String) (r : Room) (out : DisconnectOutcome) :
      disconnect playerID r = some out → Step r out.room

/-- The rooms reachable from `CreateRoom`. -/
inductive Reachable : Room → Prop where
  | create (playerName roomCode playerID token : String) :
      playerID ≠ "" → token ≠ "" → Reachable (CreateRoom playerName roomCode playerID token)
  | step (r r1 : Room) : Reachable r → Step r r1 → Reachable r1

/-! ## Invariants -/

/-- The mathematical sum of the values of a score mapping. -/
def sumScores (scores : List (String × Int)) : Int := (scores.map (fun e => e.2)).sum

/-- The mathematical sum of the six upper categories of a score mapping, a missing
category counting 0. -/
def upperSum (scores : List (String × Int)) : Int :=
  (upperCategories.map (fun cat => (scores.lookup cat).getD 0)).sum

/-- The facts about a room on which the turn engine relies: the roster is a map (its
keys are distinct), the turn sequence has no repetition and lists roster keys only,
the current index is a valid position (or 0 on an empty sequence), the dice slice
refers to a five-element array, every running total is the stored sum, and before
the start of the game the turn sequence lists exactly the roster and nobody is a
viewer. -/
structure Inv (r : Room) : Prop where
  ids_nodup : (rosterIds r.Players).Nodup
  order_nodup : r.PlayerOrder.Nodup
  order_sub : ∀ id ∈ r.PlayerOrder, id ∈ rosterIds r.Players
  idx_nonneg : 0 ≤ r.CurrentPlayerIdx
  idx_lt : r.CurrentPlayerIdx < r.PlayerOrder.length ∨
    (r.PlayerOrder = [] ∧ r.CurrentPlayerIdx = 0)
  dice_ref : r.CurrentDice < r.Arrays.length
  dice_len : r.dice.length = 5
  totals : ∀ p ∈ r.Players, p.TotalScore = wrapInt (sumScores p.Scores)
  lobby_order : r.GameStarted = false → r.PlayerOrder.Perm (rosterIds r.Players)
  lobby_active : r.GameStarted = false → ∀ p ∈ r.Players, p.IsViewer = false

/-! ## Scenarios -/

/-- The events an operation appended to the log: those of `r1` after the ones `r` had. -/
def appended (r r1 : Room) : List GameEvent := r1.Events.drop r.Events.length

/-- An operation together with the outcome of the random source it consumes: for a
start the shuffle either keeps or reverses the turn sequence, for a roll `faces` lists
the outcomes of `mrand.Intn(6)`. -/
inductive Op where
  | join (req : JoinRequest) (playerID token : String)
  | connect (playerID token : String) (conn : Nat)
  | ready (playerID : String) (flag : Bool) (event : RawEvent)
  | chat (event : RawEvent)
  | start (reversed : Bool) (playerID : String)
  | roll (playerID : String) (held : List Int) (faces : List (Fin 6))
  | score (playerID category : String) (score : Int)
  | endTurn (playerID : String)
  | disconnect (playerID : String)

/-- The decidable form of `freshID`. -/
def isFreshID (room : Room) (playerID : String) : Bool :=
  playerID != "" && !(rosterIds room.Players).contains playerID &&
    !room.PlayerOrder.contains playerID && playerID != room.HostID

/-- One operation applied to a room; `none` when the operation faults, is refused, or
the supplied id is not fresh. -/
def applyOp (op : Op) (r : Room) : Option Room :=
  match op with
  | Op.join req playerID token =>
    if isFreshID r playerID && token != "" then
      match JoinRoom req playerID token r with
      | Except.ok (r1, _) => some r1
      | Except.error _ => none
    else none
  | Op.connect playerID token conn => connect playerID token conn r
  | Op.ready playerID flag event => some (handlePlayerReady playerID flag event r)
  | Op.chat event => some (addEvent "CHAT_MESSAGE" (Payload.passthrough event) r)
  | Op.start reversed playerID =>
    some (handleGameStart (if reversed then List.reverse else id) playerID r)
  | Op.roll playerID held faces => handleRequestRoll playerID held (fun k => faces.getD k 0) r
  | Op.score playerID category score => handleCategoryChosen playerID category score r
  | Op.endTurn playerID => handleEndTurn playerID r
  | Op.disconnect playerID => (disconnect playerID r).map (fun out => out.room)

/-- A sequence of operations applied in order. -/
def run : List Op → Room → Option Room
  | [], r => some r
  | op :: ops, r =>
    match applyOp op r with
    | none => none
    | some r1 => run ops r1

/-- A fresh join request under a display name. -/
def joinAs (name : String) : JoinRequest :=
  { RoomCode := "ROOM42", PlayerName := name, PlayerID := "", Token := "" }

/-- The room of host `a` after `CreateRoom`. -/
def lobby1 : Room := CreateRoom "Ann" "ROOM42" "a" "ta"

/-- The lobby of host `a` after `b` and `c` joined. -/
def lobby3 : Room :=
  (run [Op.join (joinAs "Bob") "b" "tb", Op.join (joinAs "Cy") "c" "tc"] lobby1).getD lobby1

/-- The game of `a`, `b`, `c` started by the host with the turn sequence `c, b, a`. -/
def game3 : Room := (run [Op.start true "a"] lobby3).getD lobby3

/-- The game `game3` after the current player `c` scored 50 in `yahtzee`. -/
def scored3 : Room := (run [Op.score "c" "yahtzee" 50] game3).getD game3

/-- The roster entry of `c` in `scored3`. -/
def playerC : Player :=
  { ID := "c", Name := "Cy", Token := "tc", Ready := false,
    Scores := [("yahtzee", 50)], TotalScore := 50, IsViewer := false, Conn := none }

/-- The roster entry of `c` in `game3`. -/
def playerC0 : Player :=
  { ID := "c", Name := "Cy", Token := "tc", Ready := false,
    Scores := [], TotalScore := 0, IsViewer := false, Conn := none }

/-- The game of host `a` and `b`, started with the turn sequence `a, b`. -/
def game2 : Room :=
  (run [Op.join (joinAs "Bob") "b" "tb", Op.start false "a"] lobby1).getD lobby1

/-- A run of `game2` with no `GAME_END` so far: `a` and `b` score the first eleven
categories in turn, then `a` scores `yahtzee`, `b` ends the turn without scoring, and
`a` scores a thirteenth category `chance`. -/
def fillOps : List Op :=
  ((Categories.take 11).map (fun c => [Op.score "a" c 1, Op.score "b" c 1])).flatten ++
    [Op.score "a" "yahtzee" 1, Op.endTurn "b", Op.score "a" "chance" 1]

/-- The room after `fillOps`: `a` holds 13 entries, `b` holds 11 and is to move. -/
def almostOver : Room := (run fillOps game2).getD game2

/-- The roster entry of `b` in `almostOver`, holding eleven categories. -/
def playerB11 : Player :=
  { ID := "b", Name := "Bob", Token := "tb", Ready := false,
    Scores := (Categories.take 11).map (fun c => (c, 1)), TotalScore := 11,
    IsViewer := false, Conn := none }

/-- The room `almostOver` after `b` scored the last category: the game is over. -/
def gameOver : Room := (run [Op.score "b" "yahtzee" 1] almostOver).getD almostOver

/-- The `GAME_END` event that `checkGameEnd` appends to `gameOver`. -/
def gameOverEnd : GameEvent :=
  { ID := (gameOver.Events.length : Int) + 1, EvType := "GAME_END",
    Payload := gameEndPayload gameOver.Players }

/-- The non-viewer roster members whose final score is `M`, in visiting order. -/
def topScorers (ps : List Player) (M : Int) : List Player :=
  (ps.filter (fun p => !p.IsViewer)).filter (fun p => finalTotal p == M)

/-- A game of the host `a` alone, started, in which `a` scored -1 in each of the twelve
categories: the last of these scores ended the game. -/
def lostGame : Room :=
  (run (Op.start false "a" :: Categories.map (fun c => Op.score "a" c (-1))) lobby1).getD lobby1

/-- The game `game3` after the current player `c` used all three rolls. -/
def rolledOut : Room :=
  (run [Op.roll "c" [] [0, 1, 2, 3, 4], Op.roll "c" [0] [5, 5, 5, 5],
        Op.roll "c" [0, 1] [2, 2, 2]] game3).getD game3

/-- The game `game2` after `a` and `b` each scored `ones`: `a` is to move again. -/
def secondRound : Room :=
  (run [Op.score "a" "ones" 3, Op.score "b" "ones" 2] game2).getD game2

/-- The roster entry of `a` in `secondRound`. -/
def playerA1 : Player :=
  { ID := "a", Name := "Ann", Token := "ta", Ready := false,
    Scores := [("ones", 3)], TotalScore := 3, IsViewer := false, Conn := none }

/-! ## Inbound messages -/

/-- A decoded inbound message, after the unwrapping of the `{"type": "event", ...}`
envelope: `fields` holds the string-valued keys of the JSON object (`type`,
`player_id`, `category`, the chat text, ...), the other components are the values the
handlers read from the keys `ready`, `held_indices` and `score`.  A key that is absent
from `fields` is absent from the message. -/
structure Message where
  fields : RawEvent
  ready : Bool
  held_indices : List Int
  score : Int
deriving DecidableEq, Repr

/-- The read `event["player_id"].(string)` of the handlers. -/
def Message.playerID (event : Message) : String := (event.fields.lookup "player_id").getD ""

/-- The read `event["category"].(string)` of `handleCategoryChosen`. -/
def Message.category (event : Message) : String := (event.fields.lookup "category").getD ""

/-- The method `processEvent`; `shuffle` and `rnd` are the outcomes of the random
sources a start or a roll would consume. -/
def processEvent (shuffle : List String → List String) (rnd : Nat → Fin 6)
    (eventType : String) (event : Message) (room : Room) : Option Room :=
  if eventType == "PLAYER_READY" then
    some (handlePlayerReady event.playerID event.ready event.fields room)
  else if eventType == "GAME_START" || eventType == "START_GAME" then
    some (handleGameStart shuffle event.playerID room)
  else if eventType == "REQUEST_ROLL" then
    handleRequestRoll event.playerID event.held_indices rnd room
  else if eventType == "CATEGORY_CHOSEN" then
    handleCategoryChosen event.playerID event.category event.score room
  else if eventType == "REQUEST_END_TURN" then
    handleEndTurn event.playerID room
  else if eventType == "CHAT_MESSAGE" then
    some (addEvent "CHAT_MESSAGE" (Payload.passthrough event.fields) room)
  else some room

/-- The step `if _, ok := event["player_id"]; !ok { event["player_id"] = player.ID }`
of `handlePlayerMessages`. -/
def injectPlayerID (player : Player) (event : Message) : Message :=
  if (event.fields.lookup "player_id").isNone then
    { event with fields := mapSet event.fields "player_id" player.ID }
  else event

/-- The body of the read loop of `handlePlayerMessages` for one decoded message of the
session of `player` (the session's `Player` record as it is when the message arrives):
the id is injected if absent, a viewer's message is dropped, any other is dispatched
to `processEvent`. -/
def handleMessage (shuffle : List String → List String) (rnd : Nat → Fin 6)
    (player : Player) (message : Message) (room : Room) : Option Room :=
  let eventType := (message.fields.lookup "type").getD ""
  let event := injectPlayerID player message
  if player.IsViewer then some room
  else processEvent shuffle rnd eventType event room

/-! ## Room registry -/

/-- The game manager (`type GameManager struct`): the map from room codes to rooms. -/
structure GameManager where
  rooms : List (String × Room)
deriving DecidableEq, Repr

/-- Go `delete(m, k)` on a map kept as an association list. -/
def mapDelete {β : Type} (m : List (String × β)) (k : String) : List (String × β) :=
  m.filter (fun e => e.1 != k)

/-- The lookup `gm.rooms[roomCode]` of `JoinRoom` and `WebSocket`. -/
def GameManager.lookup (gm : GameManager) (roomCode : String) : Option Room :=
  gm.rooms.lookup roomCode

/-- The handler `JoinRoom` from the registry: an unknown code fails with
`RoomNotFound`, otherwise the room found is changed in place. -/
def GameManager.JoinRoom (req : JoinRequest) (playerID token : String) (gm : GameManager) :
    Except JoinError (GameManager × JoinResponse) :=
  match gm.lookup req.RoomCode with
  | none => Except.error JoinError.RoomNotFound
  | some room =>
    match Yahtzee.JoinRoom req playerID token room with
    | Except.error e => Except.error e
    | Except.ok (room1, resp) =>
      Except.ok ({ rooms := mapSet gm.rooms req.RoomCode room1 }, resp)

/-- The registry after the room `room` was changed in place into `room1`: the registry
holds pointers, so an entry that holds `room` under its code now holds `room1`, and a
registry that does not hold `room` is as it was. -/
def GameManager.store (gm : GameManager) (room room1 : Room) : GameManager :=
  { rooms := gm.rooms.map
      (fun e => if e.1 == room.Code && e.2 == room then (e.1, room1) else e) }

/-- The method `handlePlayerDisconnect` with its effect on the registry, for a session
of `room` whose read loop ended: the room is changed in place, and its code is deleted
from the registry when the room ends. -/
def GameManager.handlePlayerDisconnect (gm : GameManager) (room : Room) (playerID : String) :
    Option GameManager :=
  match disconnect playerID room with
  | none => none
  | some out =>
    if out.roomEnded.isSome then some { rooms := mapDelete gm.rooms room.Code }
    else some (gm.store room out.room)

/-- Every entry of `ps1` carries the id and the token of an entry of `ps`. -/
def Traces (ps ps1 : List Player) : Prop :=
  ∀ q ∈ ps1, ∃ p ∈ ps, q.ID = p.ID ∧ q.Token = p.Token

/-- The join request of `b` coming back with its id and token. -/
def rejoinB : JoinRequest :=
  { RoomCode := "ROOM42", PlayerName := "Bobby", PlayerID := "b", Token := "tb" }

/-- A join request that names `b` with a wrong token. -/
def wrongTokenB : JoinRequest :=
  { RoomCode := "ROOM42", PlayerName := "Mallory", PlayerID := "b", Token := "guess" }

/-- The number of roster entries other than `pid` that hold a live connection, viewers
included. -/
def connectedOthers (ps : List Player) (pid : String) : Nat :=
  (ps.filter (fun p => p.ID != pid && p.Conn.isSome)).length

/-- The number of non-viewer roster entries that hold a live connection. -/
def connectedActive (ps : List Player) : Nat :=
  (ps.filter (fun p => p.Conn.isSome && !p.IsViewer)).length

/-- A started game of the host `a` and `b`, both connected, watched by the viewer `v`
who joined after the start and is connected too. -/
def watched : Room :=
  (run [Op.join (joinAs "Bob") "b" "tb", Op.connect "a" "ta" 1, Op.connect "b" "tb" 2,
        Op.start false "a", Op.join (joinAs "Vic") "v" "tv", Op.connect "v" "tv" 3]
    lobby1).getD lobby1

/-- The registry that holds `watched` under its code. -/
def watchedRegistry : GameManager := { rooms := [("ROOM42", watched)] }

/-- The registry that holds `game3` under its code. -/
def game3Registry : GameManager := { rooms := [("ROOM42", game3)] }

/-- The registry that holds `lobby3` under its code. -/
def lobby3Registry : GameManager := { rooms := [("ROOM42", lobby3)] }

/-- A start message that asserts the id of the host `a`. -/
def startAsHost : Message :=
  { fields := [("type", "START_GAME"), ("player_id", "a")], ready := false,
    held_indices := [], score := 0 }

/-- A start message that asserts the id `b`. -/
def startAsB : Message :=
  { fields := [("type", "START_GAME"), ("player_id", "b")], ready := false,
    held_indices := [], score := 0 }

/-- A start message without the key `player_id`. -/
def startPlain : Message :=
  { fields := [("type", "START_GAME")], ready := false, held_indices := [], score := 0 }

/-- An end-turn message that asserts the id of `c`. -/
def endTurnAsC : Message :=
  { fields := [("type", "REQUEST_END_TURN"), ("player_id", "c")], ready := false,
    held_indices := [], score := 0 }

/-- A score message of 50 in `yahtzee` without the key `player_id`. -/
def scorePlain : Message :=
  { fields := [("type", "CATEGORY_CHOSEN"), ("category", "yahtzee")], ready := false,
    held_indices := [], score := 50 }

/-- The lobby of `a`, `b`, `c` with every player connected. -/
def lobbyLive : Room :=
  (run [Op.connect "a" "ta" 1, Op.connect "b" "tb" 2, Op.connect "c" "tc" 3] lobby3).getD lobby3

/-- The game started by the host from `lobbyLive` with the turn sequence `c, b, a`. -/
def gameLive : Room := (run [Op.start true "a"] lobbyLive).getD lobbyLive

/-- The roster entry of `b` in `lobbyLive` and `gameLive`: the `Player` record held by
the session of `b`. -/
def sessionB : Player :=
  { ID := "b", Name := "Bob", Token := "tb", Ready := false,
    Scores := [], TotalScore := 0, IsViewer := false, Conn := some 2 }

/-- An end-turn message that asserts the id `b`. -/
def endTurnAsB : Message :=
  { fields := [("type", "REQUEST_END_TURN"), ("player_id", "b")], ready := false,
    held_indices := [], score := 0 }

/-- An end-turn message without the key `player_id`. -/
def endTurnPlain : Message :=
  { fields := [("type", "REQUEST_END_TURN")], ready := false, held_indices := [], score := 0 }

/-! ## Event log: numbering and replay -/

/-- The ids of a log, in log order. -/
def eventIDs (evs : List GameEvent) : List Int := evs.map (fun e => e.ID)

/-- The ids `n + 1, ..., n + len`. -/
def idsFrom (n len : Nat) : List Int :=
  (List.range len).map (fun k => ((n + k + 1 : Nat) : Int))

/-- The log `es1` is the log `es` followed by events numbered on from the length of
`es`: nothing of `es` is changed or dropped. -/
def LogExtends (es es1 : List GameEvent) : Prop :=
  ∃ new, es1 = es ++ new ∧ eventIDs new = idsFrom es.length new.length

/-- The dice a replay of the logged event `e` shows when it is read in `room`: the
contents of the slice held by a `ROLL_RESULT` payload. -/
def loggedDice (room : Room) (e : GameEvent) : Option (List Int) :=
  match e.Payload with
  | Payload.rollResult _ dice _ => some (room.arrayAt dice)
  | _ => none

/-- The game `game3` after the first roll of the current player `c`. -/
def rolledOnce : Room := (run [Op.roll "c" [] [0, 1, 2, 3, 4]] game3).getD game3

/-- The game `rolledOnce` after the second roll of `c`, who holds die 0. -/
def rolledTwice : Room := (run [Op.roll "c" [0] [5, 5, 5, 5]] rolledOnce).getD rolledOnce

/-- The event logged by the first roll of `c`. -/
def firstRoll : GameEvent :=
  { ID := 2, EvType := "ROLL_RESULT", Payload := Payload.rollResult "c" 1 2 }

/-! ## Held indices as sent, and the bounds on the turn state -/

/-- An element of the JSON array `held_indices` after decoding into `interface{}`: a
JSON number, which decodes as a `float64` (a rational), or a value of another kind. -/
inductive HeldValue where
  | number (i : ℚ)
  | other
deriving DecidableEq

/-- Go `int(i)` on a `float64`: the fraction is discarded (truncation toward zero).
Where the integer part does not fit an `int` the Go result depends on the platform;
the roll loop reads the keys 0..4 only, and neither that result (the least or the
greatest `int`) nor the integer part given here is one of them. -/
def truncToInt (i : ℚ) : Int := if 0 ≤ i then ⌊i⌋ else ⌈i⌉

/-- The loop `Convert held indices` of `handleRequestRoll`: the keys of the map `held`,
one for each element that is a `float64`. -/
def convertHeld (heldIndices : List HeldValue) : List Int :=
  heldIndices.filterMap (fun idx =>
    match idx with
    | HeldValue.number i => some (truncToInt i)
    | HeldValue.other => none)

/-- The method `handleRequestRoll` on the array `held_indices` as it was sent. -/
def requestRoll (playerID : String) (heldIndices : List HeldValue) (rnd : Nat → Fin 6)
    (room : Room) : Option Room :=
  handleRequestRoll playerID (convertHeld heldIndices) rnd room

/-- The bounds on the turn state: rolls-left is one of 0..3 and the dice are five
values, each one of 0..6. -/
def Bounded (r : Room) : Prop :=
  0 ≤ r.RollsLeft ∧ r.RollsLeft ≤ 3 ∧ r.dice.length = 5 ∧ ∀ d ∈ r.dice, 0 ≤ d ∧ d ≤ 6

/-! ## After the end of the game -/

/-- A game of the host `a` alone, started, in which `a` scored 3 in each of the twelve
categories: the last of these scores appended `GAME_END`. -/
def soloOver : Room :=
  (run (Op.start false "a" :: Categories.map (fun c => Op.score "a" c 3)) lobby1).getD lobby1

/-- What an operation on `r` did, as far as a client sees it: the types of the events
it appended, the total of player `pid` and the current index after it. -/
def outcomeOf (pid : String) (r : Room) (res : Option Room) :
    Option (List String × Option Int × Int) :=
  res.map (fun r1 => ((appended r r1).map (fun e => e.EvType),
    (findPlayer r1.Players pid).map (fun p => p.TotalScore), r1.CurrentPlayerIdx))

/-! ## Viewers and the history of join requests -/

/-- One operation on a room other than a join request: the constructors of `Step`
without `join`. -/
inductive Quiet : Room → Room → Prop where
  | connect (playerID token : String) (conn : Nat) (r r1 : Room) :
      connect playerID token conn r = some r1 → Quiet r r1
  | ready (playerID : String) (flag : Bool) (event : RawEvent) (r : Room) :
      Quiet r (handlePlayerReady playerID flag event r)
  | chat (event : RawEvent) (r : Room) :
      Quiet r (addEvent "CHAT_MESSAGE" (Payload.passthrough event) r)
  | start (shuffle : List String → List String) (playerID : String) (r : Room) :
      (∀ l, (shuffle l).Perm l) → Quiet r (handleGameStart shuffle playerID r)
  | roll (playerID : String) (held : List Int) (rnd : Nat → Fin 6) (r r1 : Room) :
      handleRequestRoll playerID held rnd r = some r1 → Quiet r r1
  | score (playerID category : String) (score : Int) (r r1 : Room) :
      handleCategoryChosen playerID category score r = some r1 → Quiet r r1
  | endTurn (playerID : String) (r r1 : Room) :
      handleEndTurn playerID r = some r1 → Quiet r r1
  | disconnect (playerID : String) (r : Room) (out : DisconnectOutcome) :
      disconnect playerID r = some out → Quiet r out.room

/-- A reachable room together with `late`, the ids for which a join request (the fresh
join of a new player, or a rejoin with id and token) was handled after the game had
started; the id is the `player_id` of the response. -/
inductive History : Room → List String → Prop where
  | create (playerName roomCode playerID token : String) :
      playerID ≠ "" → token ≠ "" →
      History (CreateRoom playerName roomCode playerID token) []
  | join (req : JoinRequest) (playerID token : String) (r r1 : Room) (resp : JoinResponse)
      (late : List String) :
      History r late → freshID r playerID → token ≠ "" →
      JoinRoom req playerID token r = Except.ok (r1, resp) →
      History r1 (if r.GameStarted then resp.player_id :: late else late)
  | quiet (r r1 : Room) (late : List String) :
      History r late → Quiet r r1 → History r1 late

/-- Every entry of `ps1` has the id and the viewer flag of an entry of `ps`. -/
def SameFlags (ps ps1 : List Player) : Prop :=
  ∀ q ∈ ps1, ∃ p ∈ ps, q.ID = p.ID ∧ q.IsViewer = p.IsViewer

/-- The list `late` after one operation of a scenario. -/
def lateOp (op : Op) (r : Room) (late : List String) : List String :=
  match op with
  | Op.join req playerID token =>
    match JoinRoom req playerID token r with
    | Except.ok (_, resp) => if r.GameStarted then resp.player_id :: late else late
    | Except.error _ => late
  | _ => late

/-- The list `late` after a sequence of operations. -/
def runLate : List Op → Room → List String → List String
  | [], _, late => late
  | op :: ops, r, late =>
    match applyOp op r with
    | none => late
    | some r1 => runLate ops r1 (lateOp op r late)

/-- The join request of `c` coming back with its id and token. -/
def rejoinC : JoinRequest :=
  { RoomCode := "ROOM42", PlayerName := "Cy", PlayerID := "c", Token := "tc" }

/-- The game `gameLive` after the current player `c`, still connected and still in
the turn sequence, sent a join request with its id and token. -/
def viewerTurn : Room := (run [Op.join rejoinC "x" "tx"] gameLive).getD gameLive

/-- The roster entry of `c` in `viewerTurn`. -/
def sessionC : Player :=
  { ID := "c", Name := "Cy", Token := "tc", Ready := false,
    Scores := [], TotalScore := 0, IsViewer := true, Conn := some 3 }

/-- The operations that lead from `lobby1` to the game in which `b` has left. -/
def leaveOps : List Op :=
  [Op.join (joinAs "Bob") "b" "tb", Op.join (joinAs "Cy") "c" "tc",
   Op.connect "a" "ta" 1, Op.connect "b" "tb" 2, Op.connect "c" "tc" 3,
   Op.start true "a", Op.disconnect "b"]

/-- The game `gameLive` after the session of `b` closed. -/
def leftB : Room := (run leaveOps lobby1).getD lobby1

/-- The roster entry of `b` in `leftB`. -/
def goneB : Player :=
  { ID := "b", Name := "Bob", Token := "tb", Ready := false,
    Scores := [], TotalScore := 0, IsViewer := false, Conn := none }

/-- The game `leftB` after `b` came back with its id and token. -/
def backB : Room := (run (leaveOps ++ [Op.join rejoinB "y" "ty"]) lobby1).getD lobby1

/-- A roll message without the key `player_id`. -/
def rollPlain : Message :=
  { fields := [("type", "REQUEST_ROLL")], ready := false, held_indices := [], score := 0 }

/-! ## Scores that leave the range of `int` -/

/-- The score 2^62, a value a client can send (it is a `float64`) and `int(v)` keeps. -/
def hugeScore : Int := 4611686018427387904

/-- The solo game of the host `a`, started, after `a` scored 2^62 in `ones`. -/
def halfway : Room :=
  (run [Op.start false "a", Op.score "a" "ones" hugeScore] lobby1).getD lobby1

/-- The game `halfway` after `a` scored 2^62 in `twos` as well. -/
def overflowed : Room := (run [Op.score "a" "twos" hugeScore] halfway).getD halfway

/-- The game `overflowed` played to its end: `a` scored 0 in the ten other categories. -/
def overflowOver : Room :=
  (run ((Categories.drop 2).map (fun c => Op.score "a" c 0)) overflowed).getD overflowed

/-- A solo game of the host `a` played to its end with the scores 2^62, 2^62 - 1024 and
1023 in `ones`, `twos` and `threes` and 0 elsewhere: the total is the greatest `int`. -/
def brimOver : Room :=
  (run (Op.start false "a" :: Op.score "a" "ones" hugeScore ::
      Op.score "a" "twos" (hugeScore - 1024) :: Op.score "a" "threes" 1023 ::
      (Categories.drop 3).map (fun c => Op.score "a" c 0)) lobby1).getD lobby1

/-- The entry of player `id` in `final_scores` of a logged `GAME_END` event. -/
def finalScoreOf (e : GameEvent) (id : String) : Option FinalScore :=
  match e.Payload with
  | Payload.gameEnd final_scores _ _ _ => final_scores.lookup id
  | _ => none

/-- The roster entry of `a` in `halfway`. -/
def halfA : Player :=
  { ID := "a", Name := "Ann", Token := "ta", Ready := false,
    Scores := [("ones", hugeScore)], TotalScore := hugeScore, IsViewer := false, Conn := none }

/-- The roster entry of `a` in `overflowed`: the stored total is the least `int`. -/
def overflowA : Player :=
  { ID := "a", Name := "Ann", Token := "ta", Ready := false,
    Scores := [("ones", hugeScore), ("twos", hugeScore)],
    TotalScore := -9223372036854775808, IsViewer := false, Conn := none }

/-! ## Properties -/

/-! ### Machine integers and maps -/

theorem wrapInt_of_inInt64 {x : Int} (h : inInt64 x) : wrapInt x = x := by
  unfold inInt64 at h
  unfold wrapInt
  omega

theorem wrapInt_add_left (a b : Int) : wrapInt (wrapInt a + b) = wrapInt (a + b) := by
  unfold wrapInt
  omega

theorem inInt64_wrapInt (x : Int) : inInt64 (wrapInt x) := by
  unfold inInt64 wrapInt
  omega

theorem any_key_of_lookup_none {β : Type} (m : List (String × β)) (k : String)
    (h : m.lookup k = none) : m.any (fun e => e.1 == k) = false := by
  induction m with
  | nil => rfl
  | cons e m ih =>
    obtain ⟨a, b⟩ := e
    rw [List.lookup_cons] at h
    cases hk : (k == a) with
    | true => rw [hk] at h; exact absurd h (by intro h1; cases h1)
    | false =>
      rw [hk] at h
      have hne : (a == k) = false := by
        rw [beq_eq_false_iff_ne] at hk ⊢
        exact fun e => hk e.symm
      simp only [List.any_cons, ih h, Bool.or_false, hne]

theorem mapSet_absent {β : Type} (m : List (String × β)) (k : String) (v : β)
    (h : m.lookup k = none) : mapSet m k v = m ++ [(k, v)] := by
  unfold mapSet
  rw [any_key_of_lookup_none m k h]
  rfl

/-! ### The invariant is kept by every operation -/

@[simp] theorem addEvent_Players (t : String) (p : Payload) (r : Room) :
    (addEvent t p r).Players = r.Players := rfl
@[simp] theorem addEvent_PlayerOrder (t : String) (p : Payload) (r : Room) :
    (addEvent t p r).PlayerOrder = r.PlayerOrder := rfl
@[simp] theorem addEvent_CurrentPlayerIdx (t : String) (p : Payload) (r : Room) :
    (addEvent t p r).CurrentPlayerIdx = r.CurrentPlayerIdx := rfl
@[simp] theorem addEvent_CurrentDice (t : String) (p : Payload) (r : Room) :
    (addEvent t p r).CurrentDice = r.CurrentDice := rfl
@[simp] theorem addEvent_Arrays (t : String) (p : Payload) (r : Room) :
    (addEvent t p r).Arrays = r.Arrays := rfl
@[simp] theorem addEvent_GameStarted (t : String) (p : Payload) (r : Room) :
    (addEvent t p r).GameStarted = r.GameStarted := rfl
@[simp] theorem addEvent_RollsLeft (t : String) (p : Payload) (r : Room) :
    (addEvent t p r).RollsLeft = r.RollsLeft := rfl
@[simp] theorem addEvent_HostID (t : String) (p : Payload) (r : Room) :
    (addEvent t p r).HostID = r.HostID := rfl
@[simp] theorem addEvent_dice (t : String) (p : Payload) (r : Room) :
    (addEvent t p r).dice = r.dice := rfl

/-- An invariant only looks at the roster, the turn sequence, the index, the dice
slice and the started flag. -/
theorem Inv.congr {r r1 : Room} (h : Inv r) (hp : r1.Players = r.Players)
    (ho : r1.PlayerOrder = r.PlayerOrder) (hi : r1.CurrentPlayerIdx = r.CurrentPlayerIdx)
    (hd : r1.CurrentDice = r.CurrentDice) (ha : r1.Arrays = r.Arrays)
    (hg : r1.GameStarted = r.GameStarted) : Inv r1 := by
  have hdice : r1.dice = r.dice := by unfold Room.dice; rw [hd, ha]
  constructor
  · rw [hp]; exact h.ids_nodup
  · rw [ho]; exact h.order_nodup
  · rw [ho, hp]; exact h.order_sub
  · rw [hi]; exact h.idx_nonneg
  · rw [hi, ho]; exact h.idx_lt
  · rw [hd, ha]; exact h.dice_ref
  · rw [hdice]; exact h.dice_len
  · rw [hp]; exact h.totals
  · rw [hg, ho, hp]; exact h.lobby_order
  · rw [hg, hp]; exact h.lobby_active

theorem inv_addEvent {r : Room} (t : String) (p : Payload) (h : Inv r) : Inv (addEvent t p r) :=
  h.congr rfl rfl rfl rfl rfl rfl

theorem inv_create (playerName roomCode playerID token : String) :
    Inv (CreateRoom playerName roomCode playerID token) := by
  constructor <;> simp [CreateRoom, rosterIds, Room.dice, sumScores, wrapInt]




theorem rosterIds_modifyPlayer (ps : List Player) (id : String) (f : Player → Player)
    (hf : ∀ p, (f p).ID = p.ID) : rosterIds (modifyPlayer ps id f) = rosterIds ps := by
  unfold rosterIds modifyPlayer
  rw [List.map_map]
  apply List.map_congr_left
  intro p _
  simp only [Function.comp]
  split
  · exact hf p
  · rfl

theorem mem_modifyPlayer {ps : List Player} {id : String} {f : Player → Player} {q : Player}
    (h : q ∈ modifyPlayer ps id f) : ∃ p ∈ ps, q = p ∨ (p.ID = id ∧ q = f p) := by
  unfold modifyPlayer at h
  rw [List.mem_map] at h
  obtain ⟨p, hp, rfl⟩ := h
  refine ⟨p, hp, ?_⟩
  split
  · rename_i hid
    exact Or.inr ⟨by simpa using hid, rfl⟩
  · exact Or.inl rfl

theorem findPlayer_some {ps : List Player} {id : String} {p : Player}
    (h : findPlayer ps id = some p) : p ∈ ps ∧ p.ID = id := by
  unfold findPlayer at h
  exact ⟨List.mem_of_find?_eq_some h, by simpa using List.find?_some h⟩

theorem findPlayer_none {ps : List Player} {id : String}
    (h : findPlayer ps id = none) : id ∉ rosterIds ps := by
  unfold findPlayer at h
  rw [List.find?_eq_none] at h
  unfold rosterIds
  intro hmem
  rw [List.mem_map] at hmem
  obtain ⟨p, hp, rfl⟩ := hmem
  exact h p hp (by simp)

theorem setPlayer_fresh (ps : List Player) (p : Player) (h : p.ID ∉ rosterIds ps) :
    setPlayer ps p = ps ++ [p] := by
  unfold setPlayer
  have : ps.any (fun q => q.ID == p.ID) = false := by
    rw [List.any_eq_false]
    intro q hq hid
    apply h
    unfold rosterIds
    rw [List.mem_map]
    exact ⟨q, hq, by simpa using hid⟩
  rw [this]
  rfl

theorem rejoinMatch_some {req : JoinRequest} {room : Room} {p : Player}
    (h : rejoinMatch req room = some p) :
    p ∈ room.Players ∧ p.ID = req.PlayerID ∧ p.Token = req.Token ∧
      req.PlayerID ≠ "" ∧ req.Token ≠ "" := by
  unfold rejoinMatch at h
  split at h
  · rename_i hne
    split at h
    · rename_i q hq
      split at h
      · rename_i htok
        cases h
        have := findPlayer_some hq
        refine ⟨this.1, this.2, by simpa using htok, ?_, ?_⟩ <;> simp_all
      · cases h
    · cases h
  · cases h

theorem inv_modifyPlayer {r : Room} (h : Inv r) (id : String) (f : Player → Player)
    (hid : ∀ p, (f p).ID = p.ID) (hsc : ∀ p, (f p).Scores = p.Scores)
    (htot : ∀ p, (f p).TotalScore = p.TotalScore)
    (hview : r.GameStarted = false → ∀ p ∈ r.Players, p.ID = id → (f p).IsViewer = false) :
    Inv { r with Players := modifyPlayer r.Players id f } := by
  constructor
  · show (rosterIds (modifyPlayer r.Players id f)).Nodup
    rw [rosterIds_modifyPlayer _ _ _ hid]; exact h.ids_nodup
  · exact h.order_nodup
  · show ∀ x ∈ r.PlayerOrder, x ∈ rosterIds (modifyPlayer r.Players id f)
    rw [rosterIds_modifyPlayer _ _ _ hid]; exact h.order_sub
  · exact h.idx_nonneg
  · exact h.idx_lt
  · exact h.dice_ref
  · exact h.dice_len
  · intro q hq
    obtain ⟨p, hp, hcase⟩ := mem_modifyPlayer hq
    rcases hcase with rfl | ⟨_, rfl⟩
    · exact h.totals _ hp
    · rw [hsc, htot]; exact h.totals _ hp
  · intro hg
    show r.PlayerOrder.Perm (rosterIds (modifyPlayer r.Players id f))
    rw [rosterIds_modifyPlayer _ _ _ hid]; exact h.lobby_order hg
  · intro hg q hq
    obtain ⟨p, hp, hcase⟩ := mem_modifyPlayer hq
    rcases hcase with rfl | ⟨hpid, rfl⟩
    · exact h.lobby_active hg _ hp
    · exact hview hg p hp hpid

theorem inv_join {req : JoinRequest} {playerID token : String} {r r1 : Room}
    {resp : JoinResponse} (h : Inv r) (hfresh : freshID r playerID)
    (hj : JoinRoom req playerID token r = Except.ok (r1, resp)) : Inv r1 := by
  unfold JoinRoom at hj
  split at hj
  · rename_i p hp
    simp only [Except.ok.injEq, Prod.mk.injEq] at hj
    obtain ⟨rfl, -⟩ := hj
    apply inv_modifyPlayer h <;> try (intro p; rfl)
    intro hg q hq hqid
    have hmem : req.PlayerID ∈ r.PlayerOrder := by
      rw [(h.lobby_order hg).mem_iff]
      unfold rosterIds
      rw [List.mem_map]
      exact ⟨q, hq, hqid⟩
    have : r.PlayerOrder.any (fun pid => pid == req.PlayerID) = true := by
      rw [List.any_eq_true]
      exact ⟨_, hmem, by simp⟩
    simp [hg, this]
  · have hnew : playerID ∉ rosterIds r.Players := hfresh.2.1
    split at hj
    · rename_i hg
      simp only [Except.ok.injEq, Prod.mk.injEq] at hj
      obtain ⟨rfl, -⟩ := hj
      rw [setPlayer_fresh _ _ hnew]
      constructor
      · show (rosterIds (r.Players ++ [_])).Nodup
        unfold rosterIds
        rw [List.map_append, List.nodup_append]
        refine ⟨h.ids_nodup, by simp, ?_⟩
        intro a ha hb
        simp only [List.map_cons, List.map_nil, List.mem_singleton] at hb
        subst hb
        exact hnew ha
      · exact h.order_nodup
      · intro id hid
        show id ∈ rosterIds (r.Players ++ [_])
        unfold rosterIds
        rw [List.map_append, List.mem_append]
        exact Or.inl (h.order_sub id hid)
      · exact h.idx_nonneg
      · exact h.idx_lt
      · exact h.dice_ref
      · exact h.dice_len
      · intro q hq
        simp only [List.mem_append, List.mem_singleton] at hq
        rcases hq with hq | rfl
        · exact h.totals q hq
        · simp [sumScores, wrapInt]
      · intro hg1
        simp only at hg1
        rw [hg] at hg1
        cases hg1
      · intro hg1
        simp only at hg1
        rw [hg] at hg1
        cases hg1
    · rename_i hg
      have hg : r.GameStarted = false := by simpa using hg
      split at hj
      · cases hj
      · simp only [Except.ok.injEq, Prod.mk.injEq] at hj
        obtain ⟨rfl, -⟩ := hj
        rw [setPlayer_fresh _ _ hnew]
        have hord : playerID ∉ r.PlayerOrder := hfresh.2.2.1
        constructor
        · show (rosterIds (r.Players ++ [_])).Nodup
          unfold rosterIds
          rw [List.map_append, List.nodup_append]
          refine ⟨h.ids_nodup, by simp, ?_⟩
          intro a ha hb
          simp only [List.map_cons, List.map_nil, List.mem_singleton] at hb
          subst hb
          exact hnew ha
        · show (r.PlayerOrder ++ [playerID]).Nodup
          rw [List.nodup_append]
          refine ⟨h.order_nodup, by simp, ?_⟩
          intro a ha hb
          simp only [List.mem_singleton] at hb
          subst hb
          exact hord ha
        · intro id hid
          show id ∈ rosterIds (r.Players ++ [_])
          have hid : id ∈ r.PlayerOrder ++ [playerID] := hid
          unfold rosterIds
          rw [List.map_append, List.mem_append]
          rw [List.mem_append] at hid
          rcases hid with hid | hid
          · exact Or.inl (h.order_sub id hid)
          · right; simpa using hid
        · exact h.idx_nonneg
        · show r.CurrentPlayerIdx < ((r.PlayerOrder ++ [playerID]).length : Int) ∨ _
          left
          rw [List.length_append]
          rcases h.idx_lt with hlt | ⟨he, h0⟩
          · push_cast; omega
          · rw [h0, he]; simp
        · exact h.dice_ref
        · exact h.dice_len
        · intro q hq
          simp only [List.mem_append, List.mem_singleton] at hq
          rcases hq with hq | rfl
          · exact h.totals q hq
          · simp [sumScores, wrapInt]
        · intro _
          show (r.PlayerOrder ++ [playerID]).Perm (rosterIds (r.Players ++ [_]))
          unfold rosterIds
          rw [List.map_append]
          exact List.Perm.append (h.lobby_order hg) (List.Perm.refl _)
        · intro _ q hq
          simp only [List.mem_append, List.mem_singleton] at hq
          rcases hq with hq | rfl
          · exact h.lobby_active hg q hq
          · rfl

theorem inv_connect {playerID token : String} {conn : Nat} {r r1 : Room} (h : Inv r)
    (hc : connect playerID token conn r = some r1) : Inv r1 := by
  unfold connect at hc
  split at hc
  · split at hc
    · cases hc
    · cases hc
      apply inv_modifyPlayer h <;> try (intro p; rfl)
      intro hg q hq _
      exact h.lobby_active hg q hq
  · cases hc

theorem inv_ready (playerID : String) (flag : Bool) (event : RawEvent) {r : Room} (h : Inv r) :
    Inv (handlePlayerReady playerID flag event r) := by
  unfold handlePlayerReady
  apply inv_addEvent
  apply inv_modifyPlayer h <;> try (intro p; rfl)
  intro hg q hq _
  exact h.lobby_active hg q hq

theorem inv_start (shuffle : List String → List String) (playerID : String) {r : Room}
    (hs : ∀ l, (shuffle l).Perm l) (h : Inv r) : Inv (handleGameStart shuffle playerID r) := by
  unfold handleGameStart
  split
  · exact h
  · split
    · exact h
    · apply inv_addEvent
      have hperm : (shuffle r.PlayerOrder).Perm r.PlayerOrder := hs _
      have hids : rosterIds (r.Players.map (fun p => { p with Scores := [], TotalScore := 0 }))
          = rosterIds r.Players := by
        unfold rosterIds
        rw [List.map_map]
        rfl
      constructor
      · show (rosterIds (r.Players.map _)).Nodup
        rw [hids]; exact h.ids_nodup
      · show (shuffle r.PlayerOrder).Nodup
        exact hperm.nodup_iff.mpr h.order_nodup
      · intro id hid
        show id ∈ rosterIds (r.Players.map _)
        rw [hids]
        exact h.order_sub id (hperm.mem_iff.mp hid)
      · show (0 : Int) ≤ 0
        exact le_refl _
      · show (0 : Int) < ((shuffle r.PlayerOrder).length : Int) ∨ (shuffle r.PlayerOrder = [] ∧ (0 : Int) = 0)
        cases hl : shuffle r.PlayerOrder with
        | nil => right; exact ⟨rfl, rfl⟩
        | cons a l => left; simp
      · show r.Arrays.length < (r.Arrays ++ [[1, 1, 1, 1, 1]]).length
        simp
      · show ((r.Arrays ++ [[1, 1, 1, 1, 1]]).getD r.Arrays.length []).length = 5
        simp [List.getD]
      · intro q hq
        have hq : q ∈ r.Players.map (fun p => { p with Scores := [], TotalScore := 0 }) := hq
        rw [List.mem_map] at hq
        obtain ⟨p, _, rfl⟩ := hq
        simp [sumScores, wrapInt]
      · intro hg
        cases hg
      · intro hg
        cases hg

theorem length_rollLoop (held : List Int) (rnd : Nat → Fin 6) (n i k : Nat) (dice out : List Int)
    (h : rollLoop held rnd n i k dice = some out) : out.length = dice.length := by
  induction n generalizing i k dice with
  | zero =>
    simp only [rollLoop, Option.some.injEq] at h
    rw [← h]
  | succ n ih =>
    simp only [rollLoop] at h
    split at h
    · exact ih _ _ _ h
    · split at h
      · rw [ih _ _ _ h, List.length_set]
      · cases h

theorem inv_roll {playerID : String} {held : List Int} {rnd : Nat → Fin 6} {r r1 : Room}
    (h : Inv r) (hr : handleRequestRoll playerID held rnd r = some r1) : Inv r1 := by
  unfold handleRequestRoll at hr
  split at hr
  · cases hr
  · cases hr; exact h
  · split at hr
    · cases hr; exact h
    · split at hr
      · cases hr
      · rename_i dice hd
        cases hr
        apply inv_addEvent
        have hlen := length_rollLoop _ _ _ _ _ _ _ hd
        constructor
        · exact h.ids_nodup
        · exact h.order_nodup
        · exact h.order_sub
        · exact h.idx_nonneg
        · exact h.idx_lt
        · show r.CurrentDice < (r.Arrays.set r.CurrentDice dice).length
          rw [List.length_set]; exact h.dice_ref
        · show ((r.Arrays.set r.CurrentDice dice).getD r.CurrentDice []).length = 5
          have := h.dice_ref
          rw [List.getD_eq_getElem?_getD, List.getElem?_set_self this]
          simp only [Option.getD_some]
          rw [hlen]; exact h.dice_len
        · exact h.totals
        · exact h.lobby_order
        · exact h.lobby_active

theorem indexOrder_some {order : List String} {i : Int} {x : String}
    (h : indexOrder order i = some x) :
    0 ≤ i ∧ i < order.length ∧ order[i.toNat]? = some x := by
  unfold indexOrder at h
  split at h
  · rename_i h0
    have hlt := (List.getElem?_eq_some_iff.mp h).1
    exact ⟨h0, by omega, h⟩
  · cases h

theorem indexOrder_of_lt {order : List String} {i : Int} (h0 : 0 ≤ i) (hlt : i < order.length) :
    ∃ x, indexOrder order i = some x ∧ x ∈ order := by
  have hi : i.toNat < order.length := by omega
  refine ⟨order[i.toNat], ?_, List.getElem_mem _⟩
  unfold indexOrder
  rw [if_pos h0, List.getElem?_eq_getElem hi]

theorem notTurn_false {r : Room} {playerID : String} (h : notTurn r playerID = some false) :
    r.PlayerOrder.length ≠ 0 ∧ indexOrder r.PlayerOrder r.CurrentPlayerIdx = some playerID := by
  unfold notTurn at h
  split at h
  · cases h
  · rename_i hne
    split at h
    · cases h
    · rename_i cur hc
      simp only [Option.some.injEq, bne_eq_false_iff_eq] at h
      subst h
      exact ⟨hne, hc⟩

theorem advanceTurn_eq {r r1 : Room} (h : advanceTurn r = some r1) :
    ∃ cur, r.PlayerOrder.length ≠ 0 ∧
      indexOrder r.PlayerOrder (Int.tmod (r.CurrentPlayerIdx + 1) r.PlayerOrder.length) = some cur ∧
      r1 = addEvent "TURN_CHANGED" (Payload.turnChanged cur 3)
        (allocDice [0, 0, 0, 0, 0]
          { r with CurrentPlayerIdx := Int.tmod (r.CurrentPlayerIdx + 1) r.PlayerOrder.length,
                   RollsLeft := 3 }) := by
  unfold advanceTurn at h
  split at h
  · cases h
  · rename_i hne
    simp only at h
    split at h
    · cases h
    · rename_i cur hc
      cases h
      exact ⟨cur, hne, hc, rfl⟩

theorem inv_allocDice {r : Room} (h : Inv r) (d : List Int) (hd : d.length = 5) :
    Inv (allocDice d r) := by
  constructor
  · exact h.ids_nodup
  · exact h.order_nodup
  · exact h.order_sub
  · exact h.idx_nonneg
  · exact h.idx_lt
  · show r.Arrays.length < (r.Arrays ++ [d]).length
    simp
  · show ((r.Arrays ++ [d]).getD r.Arrays.length []).length = 5
    simp [List.getD, hd]
  · exact h.totals
  · exact h.lobby_order
  · exact h.lobby_active

theorem inv_setIdx {r : Room} (h : Inv r) (i rolls : Int) (h0 : 0 ≤ i)
    (hlt : i < r.PlayerOrder.length) :
    Inv { r with CurrentPlayerIdx := i, RollsLeft := rolls } := by
  constructor
  · exact h.ids_nodup
  · exact h.order_nodup
  · exact h.order_sub
  · exact h0
  · exact Or.inl hlt
  · exact h.dice_ref
  · exact h.dice_len
  · exact h.totals
  · exact h.lobby_order
  · exact h.lobby_active

theorem inv_advanceTurn {r r1 : Room} (h : Inv r) (ha : advanceTurn r = some r1) : Inv r1 := by
  obtain ⟨cur, _, hc, rfl⟩ := advanceTurn_eq ha
  obtain ⟨h0, hlt, _⟩ := indexOrder_some hc
  exact inv_addEvent _ _ (inv_allocDice (inv_setIdx h _ 3 h0 hlt) _ rfl)

theorem inv_checkGameEnd {r : Room} (h : Inv r) : Inv (checkGameEnd r) := by
  unfold checkGameEnd
  split
  · exact inv_addEvent _ _ h
  · exact h

theorem sumScores_append (m : List (String × Int)) (k : String) (v : Int) :
    sumScores (m ++ [(k, v)]) = sumScores m + v := by
  simp [sumScores]

theorem inv_recordScore {r : Room} (h : Inv r) {playerID category : String} {score : Int}
    {player : Player} (hf : findPlayer r.Players playerID = some player)
    (hfree : player.Scores.lookup category = none) :
    Inv { r with Players := modifyPlayer r.Players playerID (recordScore category score) } := by
  have hid : ∀ p, (recordScore category score p).ID = p.ID := fun _ => rfl
  constructor
  · show (rosterIds (modifyPlayer r.Players playerID _)).Nodup
    rw [rosterIds_modifyPlayer _ _ _ hid]; exact h.ids_nodup
  · exact h.order_nodup
  · show ∀ x ∈ r.PlayerOrder, x ∈ rosterIds (modifyPlayer r.Players playerID _)
    rw [rosterIds_modifyPlayer _ _ _ hid]; exact h.order_sub
  · exact h.idx_nonneg
  · exact h.idx_lt
  · exact h.dice_ref
  · exact h.dice_len
  · intro q hq
    obtain ⟨p, hp, hcase⟩ := mem_modifyPlayer hq
    rcases hcase with rfl | ⟨hpid, rfl⟩
    · exact h.totals _ hp
    · have hpl := findPlayer_some hf
      have hpeq : p = player := by
        have hnd := h.ids_nodup
        unfold rosterIds at hnd
        exact List.inj_on_of_nodup_map hnd hp hpl.1 (by rw [hpid, hpl.2])
      subst hpeq
      show addInt p.TotalScore score = wrapInt (sumScores (mapSet p.Scores category score))
      rw [mapSet_absent _ _ _ hfree, sumScores_append, h.totals _ hp]
      exact wrapInt_add_left _ _
  · intro hg
    show r.PlayerOrder.Perm (rosterIds (modifyPlayer r.Players playerID _))
    rw [rosterIds_modifyPlayer _ _ _ hid]; exact h.lobby_order hg
  · intro hg q hq
    obtain ⟨p, hp, hcase⟩ := mem_modifyPlayer hq
    rcases hcase with rfl | ⟨_, rfl⟩
    · exact h.lobby_active hg _ hp
    · exact h.lobby_active hg p hp

theorem inv_score {playerID category : String} {score : Int} {r r1 : Room} (h : Inv r)
    (hs : handleCategoryChosen playerID category score r = some r1) : Inv r1 := by
  unfold handleCategoryChosen at hs
  split at hs
  · cases hs
  · cases hs; exact h
  · split at hs
    · cases hs; exact h
    · rename_i player hf
      split at hs
      · cases hs; exact h
      · rename_i hfree
        have hfree : player.Scores.lookup category = none := by
          cases hl : player.Scores.lookup category with
          | none => rfl
          | some v => rw [hl] at hfree; exact absurd rfl hfree
        simp only at hs
        split at hs
        · cases hs
        · rename_i r3 ha
          cases hs
          exact inv_checkGameEnd (inv_advanceTurn (inv_addEvent _ _ (inv_recordScore h hf hfree)) ha)

theorem inv_endTurn {playerID : String} {r r1 : Room} (h : Inv r)
    (he : handleEndTurn playerID r = some r1) : Inv r1 := by
  unfold handleEndTurn at he
  split at he
  · cases he
  · cases he; exact h
  · exact inv_advanceTurn h he

theorem tmod_bounds {a : Int} {n : Nat} (ha : 0 ≤ a) (hn : 0 < n) :
    0 ≤ Int.tmod a n ∧ Int.tmod a n < n := by
  rw [Int.tmod_eq_emod ha (by omega)]
  exact ⟨Int.emod_nonneg _ (by omega), Int.emod_lt_of_pos _ (by omega)⟩

theorem filter_ne_of_not_mem (order : List String) (pid : String) (h : pid ∉ order) :
    order.filter (fun x => x != pid) = order := by
  rw [List.filter_eq_self]
  intro a ha
  simp only [bne_iff_ne, ne_eq]
  rintro rfl
  exact h ha

theorem length_filter_ne_of_mem (order : List String) (pid : String) (hnd : order.Nodup)
    (h : pid ∈ order) : (order.filter (fun x => x != pid)).length = order.length - 1 := by
  rw [← hnd.erase_eq_filter, List.length_erase_of_mem h]

theorem leavingPlayerIdx_of_mem (order : List String) (pid : String) (h : pid ∈ order) :
    leavingPlayerIdx order pid = (order.indexOf pid : Int) := by
  unfold leavingPlayerIdx
  rw [if_pos (by simpa using h)]

theorem leavingPlayerIdx_of_not_mem (order : List String) (pid : String) (h : pid ∉ order) :
    leavingPlayerIdx order pid = -1 := by
  unfold leavingPlayerIdx
  rw [if_neg (by simpa using h)]

theorem wasCurrentPlayer_true {r : Room} {pid : String} (h : wasCurrentPlayer r pid = some true) :
    indexOrder r.PlayerOrder r.CurrentPlayerIdx = some pid := by
  unfold wasCurrentPlayer at h
  split at h
  · split at h
    · cases h
    · rename_i cur hc
      simp only [Option.some.injEq, beq_iff_eq] at h
      rw [hc, h]
  · cases h

theorem wasCurrentPlayer_false {r : Room} {pid : String} (h : wasCurrentPlayer r pid = some false) :
    indexOrder r.PlayerOrder r.CurrentPlayerIdx ≠ some pid := by
  unfold wasCurrentPlayer at h
  intro hi
  obtain ⟨h0, hlt, _⟩ := indexOrder_some hi
  have hpos : r.PlayerOrder.length > 0 := by omega
  rw [if_pos ⟨hpos, hlt⟩, hi] at h
  simp at h

/-- The re-indexing of a disconnect keeps the index a valid position. -/
theorem reindex_valid {r : Room} {pid : String} {wc : Bool} (hnd : r.PlayerOrder.Nodup)
    (h0 : 0 ≤ r.CurrentPlayerIdx)
    (hlt : r.CurrentPlayerIdx < r.PlayerOrder.length ∨
      (r.PlayerOrder = [] ∧ r.CurrentPlayerIdx = 0))
    (hwc : wasCurrentPlayer r pid = some wc) :
    0 ≤ reindex wc (leavingPlayerIdx r.PlayerOrder pid) r.CurrentPlayerIdx
        (r.PlayerOrder.filter (fun x => x != pid)).length ∧
    (reindex wc (leavingPlayerIdx r.PlayerOrder pid) r.CurrentPlayerIdx
        (r.PlayerOrder.filter (fun x => x != pid)).length
        < (r.PlayerOrder.filter (fun x => x != pid)).length ∨
      (r.PlayerOrder.filter (fun x => x != pid) = [] ∧
        reindex wc (leavingPlayerIdx r.PlayerOrder pid) r.CurrentPlayerIdx
          (r.PlayerOrder.filter (fun x => x != pid)).length = 0)) := by
  by_cases hmem : pid ∈ r.PlayerOrder
  · have hlen := length_filter_ne_of_mem _ _ hnd hmem
    have hj : List.indexOf pid r.PlayerOrder < r.PlayerOrder.length := List.indexOf_lt_length.mpr hmem
    have hget : r.PlayerOrder[List.indexOf pid r.PlayerOrder] = pid := List.getElem_indexOf hj
    rw [leavingPlayerIdx_of_mem _ _ hmem]
    have hidx : r.CurrentPlayerIdx < r.PlayerOrder.length := by
      rcases hlt with h | ⟨he, _⟩
      · exact h
      · rw [he] at hmem; cases hmem
    generalize hn : (r.PlayerOrder.filter (fun x => x != pid)).length = n at *
    cases wc with
    | true =>
      have hcur := wasCurrentPlayer_true hwc
      obtain ⟨_, _, hc⟩ := indexOrder_some hcur
      have hi : r.CurrentPlayerIdx.toNat < r.PlayerOrder.length := by omega
      rw [List.getElem?_eq_getElem hi, Option.some.injEq] at hc
      have hij : r.CurrentPlayerIdx.toNat = List.indexOf pid r.PlayerOrder :=
        (hnd.getElem_inj_iff).mp (hc.trans hget.symm)
      unfold reindex
      by_cases hpos : n > 0
      · rw [if_pos ⟨rfl, hpos⟩]
        have := tmod_bounds h0 hpos
        exact ⟨this.1, Or.inl this.2⟩
      · have hn0 : n = 0 := by omega
        rw [if_neg (by simp [hn0])]
        rw [if_neg (by omega)]
        rw [if_neg (by simp [hn0])]
        rw [if_pos hn0]
        refine ⟨le_refl _, Or.inr ⟨?_, rfl⟩⟩
        exact List.length_eq_zero.mp (hn.trans hn0)
    | false =>
      have hcur := wasCurrentPlayer_false hwc
      have hne : r.CurrentPlayerIdx.toNat ≠ List.indexOf pid r.PlayerOrder := by
        intro he
        apply hcur
        unfold indexOrder
        have hi : r.CurrentPlayerIdx.toNat < r.PlayerOrder.length := by omega
        rw [if_pos h0, List.getElem?_eq_getElem hi]
        congr 1
        rw [← hget]
        congr 1
      unfold reindex
      rw [if_neg (by simp)]
      by_cases hb : (List.indexOf pid r.PlayerOrder : Int) < r.CurrentPlayerIdx
      · rw [if_pos ⟨by omega, hb⟩]
        constructor
        · omega
        · left; omega
      · rw [if_neg (by omega)]
        rw [if_neg (by omega)]
        rw [if_neg (by omega)]
        constructor
        · exact h0
        · left; omega
  · rw [filter_ne_of_not_mem _ _ hmem, leavingPlayerIdx_of_not_mem _ _ hmem]
    have hwcf : wc = false := by
      cases wc with
      | false => rfl
      | true =>
        obtain ⟨_, hl, hc⟩ := indexOrder_some (wasCurrentPlayer_true hwc)
        exact absurd (List.getElem?_mem hc) hmem
    subst hwcf
    unfold reindex
    rw [if_neg (by simp)]
    rw [if_neg (by omega)]
    rcases hlt with h | ⟨he, hz⟩
    · rw [if_neg (by omega)]
      rw [if_neg (by omega)]
      exact ⟨h0, Or.inl h⟩
    · rw [he, hz]
      simp

theorem inv_mapPlayers {r : Room} (h : Inv r) (ps : List Player)
    (hsub : ∀ q ∈ ps, ∃ p ∈ r.Players, q.ID = p.ID ∧ q.Scores = p.Scores ∧
      q.TotalScore = p.TotalScore ∧ q.IsViewer = p.IsViewer)
    (hids : rosterIds ps = rosterIds r.Players) : Inv { r with Players := ps } := by
  constructor
  · show (rosterIds ps).Nodup
    rw [hids]; exact h.ids_nodup
  · exact h.order_nodup
  · show ∀ x ∈ r.PlayerOrder, x ∈ rosterIds ps
    rw [hids]; exact h.order_sub
  · exact h.idx_nonneg
  · exact h.idx_lt
  · exact h.dice_ref
  · exact h.dice_len
  · intro q hq
    obtain ⟨p, hp, _, hs, ht, _⟩ := hsub q hq
    rw [hs, ht]; exact h.totals p hp
  · intro hg
    show r.PlayerOrder.Perm (rosterIds ps)
    rw [hids]; exact h.lobby_order hg
  · intro hg q hq
    obtain ⟨p, hp, _, _, _, hv⟩ := hsub q hq
    rw [hv]; exact h.lobby_active hg p hp

theorem rosterIds_deletePlayer (ps : List Player) (pid : String) :
    rosterIds (deletePlayer ps pid) = (rosterIds ps).filter (fun x => x != pid) := by
  unfold rosterIds deletePlayer
  rw [List.filter_map]
  rfl

theorem inv_leaveTurnOrder {r : Room} {pid : String} {wc : Bool} (h : Inv r)
    (hwc : wasCurrentPlayer r pid = some wc) : Inv (leaveTurnOrder pid wc r) := by
  have hidx := reindex_valid h.order_nodup h.idx_nonneg h.idx_lt hwc
  unfold leaveTurnOrder
  cases hg : r.GameStarted with
  | false =>
    simp only [Bool.not_false, if_true]
    constructor
    · show (rosterIds (deletePlayer r.Players pid)).Nodup
      rw [rosterIds_deletePlayer]
      exact h.ids_nodup.filter _
    · exact h.order_nodup.filter _
    · intro id hid
      show id ∈ rosterIds (deletePlayer r.Players pid)
      have hid : id ∈ r.PlayerOrder.filter (fun x => x != pid) := hid
      rw [rosterIds_deletePlayer]
      rw [List.mem_filter] at hid ⊢
      exact ⟨h.order_sub id hid.1, hid.2⟩
    · exact hidx.1
    · exact hidx.2
    · exact h.dice_ref
    · exact h.dice_len
    · intro q hq
      exact h.totals q (List.mem_of_mem_filter hq)
    · intro _
      show (r.PlayerOrder.filter (fun x => x != pid)).Perm (rosterIds (deletePlayer r.Players pid))
      rw [rosterIds_deletePlayer]
      exact (h.lobby_order hg).filter _
    · intro _ q hq
      exact h.lobby_active hg q (List.mem_of_mem_filter hq)
  | true =>
    simp only [Bool.not_true, Bool.false_eq_true, if_false]
    have hids : rosterIds (modifyPlayer r.Players pid (fun p => { p with Conn := none }))
        = rosterIds r.Players := rosterIds_modifyPlayer _ _ _ (fun _ => rfl)
    constructor
    · show (rosterIds (modifyPlayer r.Players pid _)).Nodup
      rw [hids]; exact h.ids_nodup
    · exact h.order_nodup.filter _
    · intro id hid
      show id ∈ rosterIds (modifyPlayer r.Players pid _)
      rw [hids]
      exact h.order_sub id (List.mem_of_mem_filter hid)
    · exact hidx.1
    · exact hidx.2
    · exact h.dice_ref
    · exact h.dice_len
    · intro q hq
      obtain ⟨p, hp, hcase⟩ := mem_modifyPlayer hq
      rcases hcase with rfl | ⟨_, rfl⟩
      · exact h.totals _ hp
      · exact h.totals p hp
    · intro hf
      exact absurd hf (by simp)
    · intro hf
      exact absurd hf (by simp)

theorem inv_announceTurn {r r1 : Room} {gs wc : Bool} (h : Inv r)
    (ha : announceTurn gs wc r = some r1) : Inv r1 := by
  unfold announceTurn at ha
  split at ha
  · split at ha
    · cases ha
    · cases ha
      have h3 : Inv { r with RollsLeft := 3 } := h.congr rfl rfl rfl rfl rfl rfl
      exact inv_addEvent _ _ (inv_allocDice h3 [0, 0, 0, 0, 0] rfl)
  · cases ha; exact h

theorem inv_teardown {r : Room} (isHost gs : Bool) (remaining : Nat) (h : Inv r) :
    Inv (teardown isHost gs remaining r).room := by
  unfold teardown
  split
  · apply inv_mapPlayers h
    · intro q hq
      rw [List.mem_map] at hq
      obtain ⟨p, hp, rfl⟩ := hq
      exact ⟨p, hp, rfl, rfl, rfl, rfl⟩
    · unfold rosterIds
      rw [List.map_map]
      rfl
  · split
    · apply inv_mapPlayers h
      · intro q hq
        cases hps : r.Players with
        | nil => rw [hps] at hq; cases hq
        | cons p rest =>
          rw [hps] at hq
          simp only [List.mem_cons] at hq
          rcases hq with rfl | hq
          · exact ⟨p, by simp, rfl, rfl, rfl, rfl⟩
          · exact ⟨q, by simp [hq], rfl, rfl, rfl, rfl⟩
      · cases hps : r.Players with
        | nil => rfl
        | cons p rest => rfl
    · exact h

theorem inv_handlePlayerDisconnect {pid : String} {r : Room} {out : DisconnectOutcome}
    (h : Inv r) (hd : handlePlayerDisconnect pid r = some out) : Inv out.room := by
  unfold handlePlayerDisconnect at hd
  split at hd
  · cases hd
  · rename_i wc hwc
    simp only at hd
    split at hd
    · cases hd
    · rename_i r2 ha
      cases hd
      exact inv_teardown _ _ _ (inv_announceTurn (inv_leaveTurnOrder h hwc) ha)

theorem inv_disconnect {pid : String} {r : Room} {out : DisconnectOutcome}
    (h : Inv r) (hd : disconnect pid r = some out) : Inv out.room := by
  unfold disconnect at hd
  refine inv_handlePlayerDisconnect ?_ hd
  apply inv_modifyPlayer h <;> try (intro p; rfl)
  intro hg q hq _
  exact h.lobby_active hg q hq

theorem inv_step {r r1 : Room} (h : Inv r) (hs : Step r r1) : Inv r1 := by
  cases hs with
  | join req playerID token _ _ resp hfresh _ hj => exact inv_join h hfresh hj
  | connect playerID token conn _ _ hc => exact inv_connect h hc
  | ready playerID flag event => exact inv_ready _ _ _ h
  | chat event => exact inv_addEvent _ _ h
  | start shuffle playerID _ hperm => exact inv_start _ _ hperm h
  | roll playerID held rnd _ _ hr => exact inv_roll h hr
  | score playerID category score _ _ hsc => exact inv_score h hsc
  | endTurn playerID _ _ he => exact inv_endTurn h he
  | disconnect playerID _ out hd => exact inv_disconnect h hd

/-- Every reachable room satisfies the invariant. -/
theorem reachable_inv {r : Room} (h : Reachable r) : Inv r := by
  induction h with
  | create playerName roomCode playerID token _ _ => exact inv_create _ _ _ _
  | step r r1 _ hs ih => exact inv_step ih hs

/-! ### Scenario runs are reachable -/

theorem isFreshID_sound {r : Room} {playerID : String} (h : isFreshID r playerID = true) :
    freshID r playerID := by
  unfold isFreshID at h
  unfold freshID
  simp only [Bool.and_eq_true, bne_iff_ne, ne_eq, Bool.not_eq_true'] at h
  obtain ⟨⟨⟨h1, h2⟩, h3⟩, h4⟩ := h
  refine ⟨h1, ?_, ?_, h4⟩
  · intro hm
    have : (rosterIds r.Players).contains playerID = true := by simpa using hm
    rw [this] at h2
    cases h2
  · intro hm
    have : r.PlayerOrder.contains playerID = true := by simpa using hm
    rw [this] at h3
    cases h3

theorem applyOp_step {op : Op} {r r1 : Room} (h : applyOp op r = some r1) : Step r r1 := by
  cases op with
  | join req playerID token =>
    simp only [applyOp] at h
    split at h
    · rename_i hf
      simp only [Bool.and_eq_true, bne_iff_ne, ne_eq] at hf
      split at h
      · rename_i r2 resp hj
        cases h
        exact Step.join req playerID token r _ resp (isFreshID_sound hf.1) hf.2 hj
      · cases h
    · cases h
  | connect playerID token conn => exact Step.connect _ _ _ _ _ h
  | ready playerID flag event =>
    simp only [applyOp, Option.some.injEq] at h
    subst h
    exact Step.ready _ _ _ _
  | chat event =>
    simp only [applyOp, Option.some.injEq] at h
    subst h
    exact Step.chat _ _
  | start reversed playerID =>
    simp only [applyOp, Option.some.injEq] at h
    subst h
    apply Step.start
    intro l
    cases reversed with
    | true => exact List.reverse_perm l
    | false => exact List.Perm.refl l
  | roll playerID held faces => exact Step.roll _ _ _ _ _ h
  | score playerID category score => exact Step.score _ _ _ _ _ h
  | endTurn playerID => exact Step.endTurn _ _ _ h
  | disconnect playerID =>
    simp only [applyOp, Option.map_eq_some'] at h
    obtain ⟨out, hd, rfl⟩ := h
    exact Step.disconnect _ _ _ hd

/-- A room obtained by running operations from a reachable room is reachable. -/
theorem run_reachable {ops : List Op} {r r1 : Room} (hr : Reachable r)
    (h : run ops r = some r1) : Reachable r1 := by
  induction ops generalizing r with
  | nil =>
    simp only [run, Option.some.injEq] at h
    subst h
    exact hr
  | cons op ops ih =>
    simp only [run] at h
    split at h
    · cases h
    · rename_i r2 ha
      exact ih (Reachable.step _ _ hr (applyOp_step ha)) h

theorem lobby1_reachable : Reachable lobby1 :=
  Reachable.create "Ann" "ROOM42" "a" "ta" (by decide) (by decide)

theorem lobby3_reachable : Reachable lobby3 :=
  run_reachable lobby1_reachable
    (show run [Op.join (joinAs "Bob") "b" "tb", Op.join (joinAs "Cy") "c" "tc"] lobby1
      = some lobby3 by decide)

theorem game3_reachable : Reachable game3 :=
  run_reachable lobby3_reachable (show run [Op.start true "a"] lobby3 = some game3 by decide)

/-! ### C1 and C2: invariants of reachable rooms -/

theorem idx_in_range {r : Room} (h : Inv r) (hne : r.PlayerOrder ≠ []) :
    0 ≤ r.CurrentPlayerIdx ∧ r.CurrentPlayerIdx < r.PlayerOrder.length := by
  refine ⟨h.idx_nonneg, ?_⟩
  rcases h.idx_lt with hlt | ⟨he, _⟩
  · exact hlt
  · exact absurd he hne

theorem wasCurrentPlayer_total {r : Room} (h : Inv r) (pid : String) :
    ∃ wc, wasCurrentPlayer r pid = some wc := by
  unfold wasCurrentPlayer
  split
  · rename_i hc
    obtain ⟨x, hx, _⟩ := indexOrder_of_lt h.idx_nonneg hc.2
    rw [hx]
    exact ⟨_, rfl⟩
  · exact ⟨false, rfl⟩

theorem announceTurn_total {r : Room} (h : Inv r) (gs wc : Bool) :
    ∃ r1, announceTurn gs wc r = some r1 := by
  unfold announceTurn
  split
  · rename_i hc
    have hne : r.PlayerOrder ≠ [] := by
      intro he
      rw [he] at hc
      simp at hc
    obtain ⟨h0, hlt⟩ := idx_in_range h hne
    obtain ⟨x, hx, _⟩ := indexOrder_of_lt h0 hlt
    rw [hx]
    exact ⟨_, rfl⟩
  · exact ⟨r, rfl⟩

theorem handlePlayerDisconnect_total {r : Room} (h : Inv r) (pid : String) :
    ∃ out, handlePlayerDisconnect pid r = some out := by
  obtain ⟨wc, hwc⟩ := wasCurrentPlayer_total h pid
  obtain ⟨r2, h2⟩ := announceTurn_total (inv_leaveTurnOrder h hwc) r.GameStarted wc
  unfold handlePlayerDisconnect
  rw [hwc]
  simp only
  rw [h2]
  exact ⟨_, rfl⟩

theorem disconnect_total {r : Room} (h : Inv r) (pid : String) :
    ∃ out, disconnect pid r = some out := by
  unfold disconnect
  apply handlePlayerDisconnect_total
  apply inv_modifyPlayer h <;> try (intro p; rfl)
  intro hg q hq _
  exact h.lobby_active hg q hq

/-- C1. In every room reachable from `CreateRoom`, a non-empty turn sequence has the
current index inside `[0, len(PlayerOrder))`; and a disconnect of any session in such a
room completes and again leaves the index inside the range of a non-empty sequence. -/
theorem C1_current_index_in_range (r : Room) (h : Reachable r) :
    (r.PlayerOrder ≠ [] →
      0 ≤ r.CurrentPlayerIdx ∧ r.CurrentPlayerIdx < r.PlayerOrder.length) ∧
    ∀ pid : String, ∃ out, disconnect pid r = some out ∧
      (out.room.PlayerOrder ≠ [] →
        0 ≤ out.room.CurrentPlayerIdx ∧
          out.room.CurrentPlayerIdx < out.room.PlayerOrder.length) := by
  have hinv := reachable_inv h
  refine ⟨idx_in_range hinv, ?_⟩
  intro pid
  obtain ⟨out, hout⟩ := disconnect_total hinv pid
  exact ⟨out, hout, idx_in_range (inv_disconnect hinv hout)⟩

/-- C1 at the started three-player game: the index is in range, also after any
disconnect. -/
theorem C1_current_index_in_range_witness :
    (game3.PlayerOrder ≠ [] →
      0 ≤ game3.CurrentPlayerIdx ∧ game3.CurrentPlayerIdx < game3.PlayerOrder.length) ∧
    ∀ pid : String, ∃ out, disconnect pid game3 = some out ∧
      (out.room.PlayerOrder ≠ [] →
        0 ≤ out.room.CurrentPlayerIdx ∧
          out.room.CurrentPlayerIdx < out.room.PlayerOrder.length) :=
  C1_current_index_in_range game3 game3_reachable

/-- C2, amended. In every reachable room the running total of every roster member is
the sum of the values of the member's score mapping computed in Go `int` arithmetic
(64 bits, wrapping); it is the exact sum whenever that sum is a Go `int`. -/
theorem C2_total_is_sum_of_scores (r : Room) (h : Reachable r) (p : Player)
    (hp : p ∈ r.Players) :
    p.TotalScore = wrapInt (sumScores p.Scores) ∧
      (inInt64 (sumScores p.Scores) → p.TotalScore = sumScores p.Scores) := by
  have ht := (reachable_inv h).totals p hp
  refine ⟨ht, ?_⟩
  intro hin
  rw [ht, wrapInt_of_inInt64 hin]

theorem scored3_reachable : Reachable scored3 :=
  run_reachable game3_reachable
    (show run [Op.score "c" "yahtzee" 50] game3 = some scored3 by decide)

/-- C2 at the entry of `c` after scoring 50 in the started three-player game. -/
theorem C2_total_is_sum_of_scores_witness :
    playerC ∈ scored3.Players ∧
      playerC.TotalScore = wrapInt (sumScores playerC.Scores) ∧
      (inInt64 (sumScores playerC.Scores) → playerC.TotalScore = sumScores playerC.Scores) :=
  ⟨by decide, C2_total_is_sum_of_scores scored3 scored3_reachable playerC (by decide)⟩

/-! ### C3: an accepted score -/

theorem notTurn_of_current {r : Room} {pid : String}
    (h : indexOrder r.PlayerOrder r.CurrentPlayerIdx = some pid) : notTurn r pid = some false := by
  obtain ⟨h0, hlt, _⟩ := indexOrder_some h
  unfold notTurn
  rw [if_neg (by omega), h]
  simp

theorem advanceTurn_ok {r : Room} (h0 : 0 ≤ r.CurrentPlayerIdx)
    (hlt : r.CurrentPlayerIdx < r.PlayerOrder.length) :
    ∃ cur, indexOrder r.PlayerOrder ((r.CurrentPlayerIdx + 1) % r.PlayerOrder.length) = some cur ∧
      advanceTurn r = some (addEvent "TURN_CHANGED" (Payload.turnChanged cur 3)
        (allocDice [0, 0, 0, 0, 0]
          { r with CurrentPlayerIdx := (r.CurrentPlayerIdx + 1) % r.PlayerOrder.length,
                   RollsLeft := 3 })) := by
  have hpos : 0 < r.PlayerOrder.length := by omega
  have hb := tmod_bounds (a := r.CurrentPlayerIdx + 1) (by omega) hpos
  have he : Int.tmod (r.CurrentPlayerIdx + 1) r.PlayerOrder.length
      = (r.CurrentPlayerIdx + 1) % r.PlayerOrder.length :=
    Int.tmod_eq_emod (by omega) (by omega)
  rw [he] at hb
  obtain ⟨cur, hcur, _⟩ := indexOrder_of_lt hb.1 hb.2
  refine ⟨cur, hcur, ?_⟩
  unfold advanceTurn
  rw [if_neg (by omega)]
  simp only [he]
  show (match indexOrder r.PlayerOrder ((r.CurrentPlayerIdx + 1) % r.PlayerOrder.length) with
    | none => none
    | some newPlayerID => some (addEvent "TURN_CHANGED" (Payload.turnChanged newPlayerID 3) _)) = _
  rw [hcur]

theorem allocDice_dice (d : List Int) (r : Room) : (allocDice d r).dice = d := by
  simp [allocDice, Room.dice, List.getD]

theorem checkGameEnd_frame (r : Room) :
    (checkGameEnd r).Players = r.Players ∧ (checkGameEnd r).PlayerOrder = r.PlayerOrder ∧
    (checkGameEnd r).CurrentPlayerIdx = r.CurrentPlayerIdx ∧
    (checkGameEnd r).RollsLeft = r.RollsLeft ∧ (checkGameEnd r).dice = r.dice ∧
    (checkGameEnd r).GameStarted = r.GameStarted ∧ (checkGameEnd r).HostID = r.HostID := by
  unfold checkGameEnd
  split <;> exact ⟨rfl, rfl, rfl, rfl, rfl, rfl, rfl⟩

theorem checkGameEnd_events (r : Room) :
    (checkGameEnd r).Events = r.Events ++
      (if allFilled r.Players then
        [{ ID := (r.Events.length : Int) + 1, EvType := "GAME_END",
           Payload := gameEndPayload r.Players }]
       else []) := by
  unfold checkGameEnd
  split
  · rfl
  · simp

theorem findPlayer_modifyPlayer (ps : List Player) (id : String) (f : Player → Player)
    (hf : ∀ p, (f p).ID = p.ID) :
    findPlayer (modifyPlayer ps id f) id = (findPlayer ps id).map f := by
  unfold findPlayer modifyPlayer
  induction ps with
  | nil => rfl
  | cons p ps ih =>
    by_cases hp : p.ID = id
    · simp [List.find?, hp, hf]
    · have h1 : (p.ID == id) = false := by simpa using hp
      simp only [List.map_cons, h1, List.find?, Bool.false_eq_true, if_false]
      exact ih

theorem lookup_append_absent (m : List (String × Int)) (k : String) (v : Int)
    (h : m.lookup k = none) : (m ++ [(k, v)]).lookup k = some v := by
  induction m with
  | nil => simp [List.lookup]
  | cons e m ih =>
    obtain ⟨a, b⟩ := e
    rw [List.lookup_cons] at h
    rw [List.cons_append, List.lookup_cons]
    cases hk : (k == a) with
    | true => rw [hk] at h; cases h
    | false =>
      rw [hk] at h
      exact ih h

theorem events_append_two (es : List GameEvent) (t1 t2 : String) (p1 p2 : Payload) :
    (es ++ [GameEvent.mk ((es.length : Int) + 1) t1 p1]) ++
      [GameEvent.mk (((es ++ [GameEvent.mk ((es.length : Int) + 1) t1 p1]).length : Int) + 1) t2 p2]
    = es ++ [GameEvent.mk ((es.length : Int) + 1) t1 p1,
             GameEvent.mk ((es.length : Int) + 2) t2 p2] := by
  have hid2 : (((es ++ [GameEvent.mk ((es.length : Int) + 1) t1 p1]).length : Nat) : Int) + 1
      = (es.length : Int) + 2 := by
    rw [List.length_append, List.length_singleton]
    push_cast
    ring
  rw [hid2]
  simp

/-- The room built by an accepted `CATEGORY_CHOSEN` before `checkGameEnd` runs. -/
theorem handleCategoryChosen_accept {r : Room} {pid cat : String} (s : Int) {p : Player}
    (hcur : indexOrder r.PlayerOrder r.CurrentPlayerIdx = some pid)
    (hp : findPlayer r.Players pid = some p) (hfree : p.Scores.lookup cat = none) :
    ∃ cur, indexOrder r.PlayerOrder ((r.CurrentPlayerIdx + 1) % r.PlayerOrder.length) = some cur ∧
      handleCategoryChosen pid cat s r = some (checkGameEnd
        (addEvent "TURN_CHANGED" (Payload.turnChanged cur 3)
          (allocDice [0, 0, 0, 0, 0]
            { addEvent "SCORE_UPDATE" (Payload.scoreUpdate pid cat s)
                { r with Players := modifyPlayer r.Players pid (recordScore cat s) } with
              CurrentPlayerIdx := (r.CurrentPlayerIdx + 1) % r.PlayerOrder.length,
              RollsLeft := 3 }))) := by
  obtain ⟨h0, hlt, _⟩ := indexOrder_some hcur
  obtain ⟨cur, hc, hadv⟩ := advanceTurn_ok
    (r := addEvent "SCORE_UPDATE" (Payload.scoreUpdate pid cat s)
      { r with Players := modifyPlayer r.Players pid (recordScore cat s) }) h0 hlt
  refine ⟨cur, hc, ?_⟩
  unfold handleCategoryChosen
  rw [notTurn_of_current hcur]
  simp only
  rw [hp]
  simp only [hfree, Option.isSome_none, Bool.false_eq_true, if_false]
  rw [hadv]
  rfl

/-- C3, amended. When the current-turn player `pid` (so the turn sequence is not
empty), found in the roster as `p`, sends `CATEGORY_CHOSEN` for a category `cat` absent
from `p.Scores` with score `s`, the handler returns a room `r1` in which: `cat` is
recorded with value `s` for `pid`; the total of `pid` is the Go `int` sum
`p.TotalScore + s` (64 bits, wrapping; it increases by exactly `s` when the sum is a Go
`int`); every roster entry with another id is unchanged and the roster
keys are the same; the turn sequence is unchanged and the index is
`(index + 1) mod len`; rolls-left is 3; the dice are `[0,0,0,0,0]`; and the log gains
`SCORE_UPDATE` then `TURN_CHANGED` naming the new current player `cur`, followed by
nothing or by one `GAME_END`. -/
theorem C3_accepted_score (r : Room) (pid cat : String) (s : Int) (p : Player)
    (hcur : indexOrder r.PlayerOrder r.CurrentPlayerIdx = some pid)
    (hp : findPlayer r.Players pid = some p) (hfree : p.Scores.lookup cat = none) :
    ∃ r1 p1 cur tail, handleCategoryChosen pid cat s r = some r1 ∧
      findPlayer r1.Players pid = some p1 ∧
      p1.Scores.lookup cat = some s ∧
      p1.TotalScore = addInt p.TotalScore s ∧
      (inInt64 (p.TotalScore + s) → p1.TotalScore = p.TotalScore + s) ∧
      (∀ q ∈ r.Players, q.ID ≠ pid → q ∈ r1.Players) ∧
      (∀ q ∈ r1.Players, q.ID ≠ pid → q ∈ r.Players) ∧
      rosterIds r1.Players = rosterIds r.Players ∧
      r1.PlayerOrder = r.PlayerOrder ∧
      r1.CurrentPlayerIdx = (r.CurrentPlayerIdx + 1) % r.PlayerOrder.length ∧
      r1.RollsLeft = 3 ∧
      r1.dice = [0, 0, 0, 0, 0] ∧
      indexOrder r1.PlayerOrder r1.CurrentPlayerIdx = some cur ∧
      r1.Events = r.Events ++
        [{ ID := (r.Events.length : Int) + 1, EvType := "SCORE_UPDATE",
           Payload := Payload.scoreUpdate pid cat s },
         { ID := (r.Events.length : Int) + 2, EvType := "TURN_CHANGED",
           Payload := Payload.turnChanged cur 3 }] ++ tail ∧
      (tail = [] ∨ ∃ e, tail = [e] ∧ e.EvType = "GAME_END") := by
  obtain ⟨cur, hc, hacc⟩ := handleCategoryChosen_accept s hcur hp hfree
  have hshape : ∀ r2 : Room, r2 = (addEvent "TURN_CHANGED" (Payload.turnChanged cur 3)
          (allocDice [0, 0, 0, 0, 0]
            { addEvent "SCORE_UPDATE" (Payload.scoreUpdate pid cat s)
                { r with Players := modifyPlayer r.Players pid (recordScore cat s) } with
              CurrentPlayerIdx := (r.CurrentPlayerIdx + 1) % r.PlayerOrder.length,
              RollsLeft := 3 })) → handleCategoryChosen pid cat s r = some (checkGameEnd r2) →
      ∃ r1 p1 cur tail, handleCategoryChosen pid cat s r = some r1 ∧
      findPlayer r1.Players pid = some p1 ∧
      p1.Scores.lookup cat = some s ∧
      p1.TotalScore = addInt p.TotalScore s ∧
      (inInt64 (p.TotalScore + s) → p1.TotalScore = p.TotalScore + s) ∧
      (∀ q ∈ r.Players, q.ID ≠ pid → q ∈ r1.Players) ∧
      (∀ q ∈ r1.Players, q.ID ≠ pid → q ∈ r.Players) ∧
      rosterIds r1.Players = rosterIds r.Players ∧
      r1.PlayerOrder = r.PlayerOrder ∧
      r1.CurrentPlayerIdx = (r.CurrentPlayerIdx + 1) % r.PlayerOrder.length ∧
      r1.RollsLeft = 3 ∧
      r1.dice = [0, 0, 0, 0, 0] ∧
      indexOrder r1.PlayerOrder r1.CurrentPlayerIdx = some cur ∧
      r1.Events = r.Events ++
        [{ ID := (r.Events.length : Int) + 1, EvType := "SCORE_UPDATE",
           Payload := Payload.scoreUpdate pid cat s },
         { ID := (r.Events.length : Int) + 2, EvType := "TURN_CHANGED",
           Payload := Payload.turnChanged cur 3 }] ++ tail ∧
      (tail = [] ∨ ∃ e, tail = [e] ∧ e.EvType = "GAME_END") := by
    intro r2 hr2 hacc2
    refine ⟨checkGameEnd r2, recordScore cat s p, cur,
      (if allFilled r2.Players then
        [{ ID := (r2.Events.length : Int) + 1, EvType := "GAME_END",
           Payload := gameEndPayload r2.Players }]
       else []), hacc2, ?_⟩
    obtain ⟨fp, fo, fi, frl, fd, -, -⟩ := checkGameEnd_frame r2
    have hev := checkGameEnd_events r2
    rw [fp, fo, fi, frl, fd, hev]
    subst hr2
    have hid : ∀ q, (recordScore cat s q).ID = q.ID := fun _ => rfl
    refine ⟨?_, ?_, rfl, ?_, ?_, ?_, ?_, rfl, rfl, rfl, ?_, hc, ?_, ?_⟩
    · show findPlayer (modifyPlayer r.Players pid (recordScore cat s)) pid = _
      rw [findPlayer_modifyPlayer _ _ _ hid, hp]
      rfl
    · show (mapSet p.Scores cat s).lookup cat = some s
      rw [mapSet_absent _ _ _ hfree]
      exact lookup_append_absent _ _ _ hfree
    · intro hin
      show addInt p.TotalScore s = p.TotalScore + s
      exact wrapInt_of_inInt64 hin
    · intro q hq hne
      show q ∈ modifyPlayer r.Players pid (recordScore cat s)
      unfold modifyPlayer
      rw [List.mem_map]
      refine ⟨q, hq, ?_⟩
      rw [if_neg (by simpa using hne)]
    · intro q hq hne
      obtain ⟨q0, hq0, hcase⟩ := mem_modifyPlayer hq
      rcases hcase with rfl | ⟨hq0id, rfl⟩
      · exact hq0
      · exact absurd hq0id hne
    · exact rosterIds_modifyPlayer _ _ _ hid
    · exact allocDice_dice _ _
    · exact congrArg (fun l => l ++ _)
        (events_append_two r.Events "SCORE_UPDATE" "TURN_CHANGED"
          (Payload.scoreUpdate pid cat s) (Payload.turnChanged cur 3))
    · split
      · right
        exact ⟨_, rfl, rfl⟩
      · left
        rfl
  exact hshape _ rfl hacc

/-- C3 at the started three-player game: the current player `c` scores 50 in
`yahtzee`. -/
theorem C3_accepted_score_witness :
    ∃ r1 p1 cur tail, handleCategoryChosen "c" "yahtzee" 50 game3 = some r1 ∧
      findPlayer r1.Players "c" = some p1 ∧
      p1.Scores.lookup "yahtzee" = some 50 ∧
      p1.TotalScore = addInt playerC0.TotalScore 50 ∧
      (inInt64 (playerC0.TotalScore + 50) → p1.TotalScore = playerC0.TotalScore + 50) ∧
      (∀ q ∈ game3.Players, q.ID ≠ "c" → q ∈ r1.Players) ∧
      (∀ q ∈ r1.Players, q.ID ≠ "c" → q ∈ game3.Players) ∧
      rosterIds r1.Players = rosterIds game3.Players ∧
      r1.PlayerOrder = game3.PlayerOrder ∧
      r1.CurrentPlayerIdx = (game3.CurrentPlayerIdx + 1) % game3.PlayerOrder.length ∧
      r1.RollsLeft = 3 ∧
      r1.dice = [0, 0, 0, 0, 0] ∧
      indexOrder r1.PlayerOrder r1.CurrentPlayerIdx = some cur ∧
      r1.Events = game3.Events ++
        [{ ID := (game3.Events.length : Int) + 1, EvType := "SCORE_UPDATE",
           Payload := Payload.scoreUpdate "c" "yahtzee" 50 },
         { ID := (game3.Events.length : Int) + 2, EvType := "TURN_CHANGED",
           Payload := Payload.turnChanged cur 3 }] ++ tail ∧
      (tail = [] ∨ ∃ e, tail = [e] ∧ e.EvType = "GAME_END") :=
  C3_accepted_score game3 "c" "yahtzee" 50 playerC0 (by decide) (by decide) (by decide)

/-! ### C4: an accepted roll -/

theorem rollLoop_spec (held : List Int) (rnd : Nat → Fin 6) :
    ∀ (n i k : Nat) (dice : List Int), i + n ≤ dice.length →
      ∃ out, rollLoop held rnd n i k dice = some out ∧ out.length = dice.length ∧
        (∀ j : Nat, (j < i ∨ i + n ≤ j ∨ (j : Int) ∈ held) → out[j]? = dice[j]?) ∧
        (∀ j : Nat, i ≤ j → j < i + n → (j : Int) ∉ held →
          ∃ v, out[j]? = some v ∧ 1 ≤ v ∧ v ≤ 6) := by
  intro n
  induction n with
  | zero =>
    intro i k dice _
    refine ⟨dice, rfl, rfl, fun _ _ => rfl, ?_⟩
    intro j h1 h2
    omega
  | succ n ih =>
    intro i k dice hlen
    by_cases hh : (i : Int) ∈ held
    · obtain ⟨out, ho, hl, hkeep, hnew⟩ := ih (i + 1) k dice (by omega)
      refine ⟨out, ?_, hl, ?_, ?_⟩
      · simp only [rollLoop]
        rw [if_pos (by simpa using hh)]
        exact ho
      · intro j hj
        apply hkeep
        rcases hj with h | h | h
        · left; omega
        · right; left; omega
        · right; right; exact h
      · intro j h1 h2 h3
        have hne : j ≠ i := by
          rintro rfl
          exact h3 hh
        exact hnew j (by omega) (by omega) h3
    · have hi : i < dice.length := by omega
      obtain ⟨out, ho, hl, hkeep, hnew⟩ :=
        ih (i + 1) (k + 1) (dice.set i (((rnd k).val : Int) + 1))
          (by rw [List.length_set]; omega)
      refine ⟨out, ?_, ?_, ?_, ?_⟩
      · simp only [rollLoop]
        rw [if_neg (by simpa using hh), if_pos hi]
        exact ho
      · rw [hl, List.length_set]
      · intro j hj
        have hne : i ≠ j := by
          rintro rfl
          rcases hj with h | h | h
          · omega
          · omega
          · exact hh h
        rw [hkeep j (by
          rcases hj with h | h | h
          · left; omega
          · right; left; omega
          · right; right; exact h)]
        exact List.getElem?_set_ne hne
      · intro j h1 h2 h3
        by_cases hji : j = i
        · subst hji
          rw [hkeep j (Or.inl (by omega)), List.getElem?_set_self hi]
          refine ⟨_, rfl, ?_, ?_⟩
          · omega
          · have := (rnd k).isLt
            omega
        · exact hnew j (by omega) (by omega) h3

/-- C4. When the current-turn player `pid` sends `REQUEST_ROLL` while rolls-left is
positive, in a room whose dice slice is a five-element array (as it is in every
reachable room, `reachable_inv`), then for every held list
and every outcome `rnd` of the dice source the handler returns a room `r1` in which:
each die at a held position of `0..4` keeps its value; each die at a position of `0..4`
that is not held shows a value in `1..6`; rolls-left is one less; the turn sequence,
the current index and the roster (hence all scores) are unchanged; and exactly one event
is appended, a `ROLL_RESULT` carrying the dice slice and the new rolls-left. -/
theorem C4_accepted_roll (r : Room) (pid : String) (held : List Int) (rnd : Nat → Fin 6)
    (hcur : indexOrder r.PlayerOrder r.CurrentPlayerIdx = some pid)
    (hrolls : 0 < r.RollsLeft) (href : r.CurrentDice < r.Arrays.length)
    (hlen : r.dice.length = 5) :
    ∃ r1, handleRequestRoll pid held rnd r = some r1 ∧
      r1.dice.length = 5 ∧
      (∀ j : Nat, j < 5 → (j : Int) ∈ held → r1.dice[j]? = r.dice[j]?) ∧
      (∀ j : Nat, j < 5 → (j : Int) ∉ held → ∃ v, r1.dice[j]? = some v ∧ 1 ≤ v ∧ v ≤ 6) ∧
      r1.RollsLeft = r.RollsLeft - 1 ∧
      r1.PlayerOrder = r.PlayerOrder ∧
      r1.CurrentPlayerIdx = r.CurrentPlayerIdx ∧
      r1.Players = r.Players ∧
      r1.Events = r.Events ++
        [{ ID := (r.Events.length : Int) + 1, EvType := "ROLL_RESULT",
           Payload := Payload.rollResult pid r1.CurrentDice r1.RollsLeft }] ∧
      r1.arrayAt r1.CurrentDice = r1.dice := by
  obtain ⟨out, ho, hl, hkeep, hnew⟩ := rollLoop_spec held rnd 5 0 0 r.dice (by omega)
  have hdice : ((r.Arrays.set r.CurrentDice out).getD r.CurrentDice []) = out := by
    rw [List.getD_eq_getElem?_getD, List.getElem?_set_self href]
    rfl
  refine ⟨addEvent "ROLL_RESULT" (Payload.rollResult pid r.CurrentDice (r.RollsLeft - 1))
    { r with Arrays := r.Arrays.set r.CurrentDice out, RollsLeft := r.RollsLeft - 1 }, ?_, ?_, ?_,
    ?_, rfl, rfl, rfl, rfl, rfl, rfl⟩
  · unfold handleRequestRoll
    rw [notTurn_of_current hcur]
    simp only
    rw [if_neg (by omega), ho]
  · show ((r.Arrays.set r.CurrentDice out).getD r.CurrentDice []).length = 5
    rw [hdice, hl, hlen]
  · intro j _ hj
    show ((r.Arrays.set r.CurrentDice out).getD r.CurrentDice [])[j]? = _
    rw [hdice]
    exact hkeep j (Or.inr (Or.inr hj))
  · intro j hj5 hj
    show ∃ v, ((r.Arrays.set r.CurrentDice out).getD r.CurrentDice [])[j]? = some v ∧ _
    rw [hdice]
    exact hnew j (by omega) (by omega) hj

/-- C4 at the started three-player game: the current player `c` rolls holding die 2. -/
theorem C4_accepted_roll_witness :
    ∃ r1, handleRequestRoll "c" [2] (fun _ => 3) game3 = some r1 ∧
      r1.dice.length = 5 ∧
      (∀ j : Nat, j < 5 → (j : Int) ∈ [(2 : Int)] → r1.dice[j]? = game3.dice[j]?) ∧
      (∀ j : Nat, j < 5 → (j : Int) ∉ [(2 : Int)] →
        ∃ v, r1.dice[j]? = some v ∧ 1 ≤ v ∧ v ≤ 6) ∧
      r1.RollsLeft = game3.RollsLeft - 1 ∧
      r1.PlayerOrder = game3.PlayerOrder ∧
      r1.CurrentPlayerIdx = game3.CurrentPlayerIdx ∧
      r1.Players = game3.Players ∧
      r1.Events = game3.Events ++
        [{ ID := (game3.Events.length : Int) + 1, EvType := "ROLL_RESULT",
           Payload := Payload.rollResult "c" r1.CurrentDice r1.RollsLeft }] ∧
      r1.arrayAt r1.CurrentDice = r1.dice :=
  C4_accepted_roll game3 "c" [2] (fun _ => 3) (by decide) (by decide) (by decide) (by decide)

/-! ### C5: the host starts the game -/

theorem handleGameStart_host {r : Room} (shuffle : List String → List String)
    (hg : r.GameStarted = false) :
    handleGameStart shuffle r.HostID r =
      addEvent "GAME_STARTED"
        (Payload.gameStarted
          ((r.Players.map (fun p => { p with Scores := [], TotalScore := 0 })).foldl
            (fun m p => mapSet m p.ID (startData p)) [])
          ((r.Players.map (fun p => { p with Scores := [], TotalScore := 0 })).map startData)
          (shuffle r.PlayerOrder)
          (if (shuffle r.PlayerOrder).length > 0 then (shuffle r.PlayerOrder).headD "" else ""))
        { r with
          GameStarted := true, RollsLeft := 3,
          Arrays := r.Arrays ++ [[1, 1, 1, 1, 1]], CurrentDice := r.Arrays.length,
          PlayerOrder := shuffle r.PlayerOrder, CurrentPlayerIdx := 0,
          Players := r.Players.map (fun p => { p with Scores := [], TotalScore := 0 }) } := by
  unfold handleGameStart
  rw [if_neg (by simp [hg]), if_neg (by simp)]
  rfl

/-- C5. In every reachable room whose game has not started, when the host sends the
start event (for any outcome `shuffle` of the shuffle): the game is started, the new
turn sequence is a permutation of the previous one and of the ids of the non-viewer
roster members, the current index is 0, the dice are `[1,1,1,1,1]`, rolls-left is 3,
and every roster member has an empty score mapping and total 0. -/
theorem C5_host_starts_game (r : Room) (h : Reachable r) (hg : r.GameStarted = false)
    (shuffle : List String → List String) (hs : ∀ l, (shuffle l).Perm l) :
    (handleGameStart shuffle r.HostID r).GameStarted = true ∧
    (handleGameStart shuffle r.HostID r).PlayerOrder.Perm r.PlayerOrder ∧
    (handleGameStart shuffle r.HostID r).PlayerOrder.Perm
      (rosterIds ((handleGameStart shuffle r.HostID r).Players.filter (fun p => !p.IsViewer))) ∧
    (handleGameStart shuffle r.HostID r).PlayerOrder.Perm
      (rosterIds (r.Players.filter (fun p => !p.IsViewer))) ∧
    (handleGameStart shuffle r.HostID r).CurrentPlayerIdx = 0 ∧
    (handleGameStart shuffle r.HostID r).dice = [1, 1, 1, 1, 1] ∧
    (handleGameStart shuffle r.HostID r).RollsLeft = 3 ∧
    ∀ p ∈ (handleGameStart shuffle r.HostID r).Players, p.Scores = [] ∧ p.TotalScore = 0 := by
  have hinv := reachable_inv h
  have hact := hinv.lobby_active hg
  have hfilter : r.Players.filter (fun p => !p.IsViewer) = r.Players := by
    rw [List.filter_eq_self]
    intro p hp
    simp [hact p hp]
  have hfilter1 : (r.Players.map (fun p => { p with Scores := [], TotalScore := 0 })).filter
      (fun p => !p.IsViewer) = r.Players.map (fun p => { p with Scores := [], TotalScore := 0 }) := by
    rw [List.filter_eq_self]
    intro p hp
    rw [List.mem_map] at hp
    obtain ⟨q, hq, rfl⟩ := hp
    simp [hact q hq]
  have hids : rosterIds (r.Players.map (fun p => { p with Scores := [], TotalScore := 0 }))
      = rosterIds r.Players := by
    unfold rosterIds
    rw [List.map_map]
    rfl
  have hperm : (shuffle r.PlayerOrder).Perm (rosterIds r.Players) :=
    (hs _).trans (hinv.lobby_order hg)
  rw [handleGameStart_host shuffle hg]
  refine ⟨rfl, hs _, ?_, ?_, rfl, ?_, rfl, ?_⟩
  · show (shuffle r.PlayerOrder).Perm (rosterIds ((r.Players.map _).filter _))
    rw [hfilter1, hids]
    exact hperm
  · rw [hfilter]
    exact hperm
  · show (r.Arrays ++ [[1, 1, 1, 1, 1]]).getD r.Arrays.length [] = ([1, 1, 1, 1, 1] : List Int)
    simp [List.getD]
  · intro p hp
    have hp : p ∈ r.Players.map (fun p => { p with Scores := [], TotalScore := 0 }) := hp
    rw [List.mem_map] at hp
    obtain ⟨q, _, rfl⟩ := hp
    exact ⟨rfl, rfl⟩

/-- C5 at the three-player lobby, the shuffle reversing the turn sequence. -/
theorem C5_host_starts_game_witness :
    lobby3.GameStarted = false ∧
    (handleGameStart List.reverse lobby3.HostID lobby3).GameStarted = true ∧
    (handleGameStart List.reverse lobby3.HostID lobby3).PlayerOrder.Perm lobby3.PlayerOrder ∧
    (handleGameStart List.reverse lobby3.HostID lobby3).PlayerOrder.Perm
      (rosterIds ((handleGameStart List.reverse lobby3.HostID lobby3).Players.filter
        (fun p => !p.IsViewer))) ∧
    (handleGameStart List.reverse lobby3.HostID lobby3).PlayerOrder.Perm
      (rosterIds (lobby3.Players.filter (fun p => !p.IsViewer))) ∧
    (handleGameStart List.reverse lobby3.HostID lobby3).CurrentPlayerIdx = 0 ∧
    (handleGameStart List.reverse lobby3.HostID lobby3).dice = [1, 1, 1, 1, 1] ∧
    (handleGameStart List.reverse lobby3.HostID lobby3).RollsLeft = 3 ∧
    ∀ p ∈ (handleGameStart List.reverse lobby3.HostID lobby3).Players,
      p.Scores = [] ∧ p.TotalScore = 0 :=
  ⟨by decide, C5_host_starts_game lobby3 lobby3_reachable (by decide) List.reverse
    (fun l => List.reverse_perm l)⟩

/-! ### C6: when the game ends -/

theorem game2_reachable : Reachable game2 :=
  run_reachable lobby1_reachable
    (show run [Op.join (joinAs "Bob") "b" "tb", Op.start false "a"] lobby1 = some game2 by decide)

set_option maxRecDepth 100000 in
theorem almostOver_reachable : Reachable almostOver :=
  run_reachable game2_reachable (show run fillOps game2 = some almostOver by decide)

theorem allFilled_iff (ps : List Player) :
    allFilled ps = true ↔ ∀ q ∈ ps, q.IsViewer = false → 12 ≤ q.Scores.length := by
  unfold allFilled
  rw [List.all_eq_true]
  have hc : Categories.length = 12 := rfl
  constructor
  · intro h q hq hv
    have := h q hq
    rw [hv, hc] at this
    simpa using this
  · intro h q hq
    cases hv : q.IsViewer with
    | true => rfl
    | false =>
      have := h q hq hv
      rw [hc]
      simpa using this

/-- The events appended by an accepted `CATEGORY_CHOSEN`, with the `GAME_END` test
made explicit. -/
theorem handleCategoryChosen_events {r : Room} {pid cat : String} (s : Int) {p : Player}
    (hcur : indexOrder r.PlayerOrder r.CurrentPlayerIdx = some pid)
    (hp : findPlayer r.Players pid = some p) (hfree : p.Scores.lookup cat = none) :
    ∃ r1 cur, handleCategoryChosen pid cat s r = some r1 ∧
      r1.Players = modifyPlayer r.Players pid (recordScore cat s) ∧
      r1.Events = r.Events ++
        [GameEvent.mk ((r.Events.length : Int) + 1) "SCORE_UPDATE" (Payload.scoreUpdate pid cat s),
         GameEvent.mk ((r.Events.length : Int) + 2) "TURN_CHANGED" (Payload.turnChanged cur 3)] ++
        (if allFilled r1.Players then
          [GameEvent.mk ((r.Events.length : Int) + 3) "GAME_END" (gameEndPayload r1.Players)]
         else []) := by
  obtain ⟨cur, _, hacc⟩ := handleCategoryChosen_accept s hcur hp hfree
  refine ⟨_, cur, hacc, ?_, ?_⟩
  · exact (checkGameEnd_frame _).1
  · rw [checkGameEnd_events, (checkGameEnd_frame _).1]
    have h2 := events_append_two r.Events "SCORE_UPDATE" "TURN_CHANGED"
      (Payload.scoreUpdate pid cat s) (Payload.turnChanged cur 3)
    have hlen : (((r.Events ++
        [GameEvent.mk ((r.Events.length : Int) + 1) "SCORE_UPDATE" (Payload.scoreUpdate pid cat s),
         GameEvent.mk ((r.Events.length : Int) + 2) "TURN_CHANGED" (Payload.turnChanged cur 3)]).length
          : Nat) : Int) + 1 = (r.Events.length : Int) + 3 := by
      rw [List.length_append]
      simp only [List.length_cons, List.length_nil]
      push_cast
      ring
    rw [← hlen, ← h2]
    rfl

/-- C6 (amended). After an accepted scoring action (the current-turn player `pid`,
found in the roster as `p`, scores a category absent from `p.Scores`) a `GAME_END`
event is among the appended events if and only if every non-viewer roster member's
score mapping holds at least as many entries as there are scoring categories, 12;
the mappings of viewers do not enter the condition. -/
theorem C6_game_end_iff_all_filled (r : Room) (pid cat : String) (s : Int) (p : Player)
    (hcur : indexOrder r.PlayerOrder r.CurrentPlayerIdx = some pid)
    (hp : findPlayer r.Players pid = some p) (hfree : p.Scores.lookup cat = none) :
    Categories.length = 12 ∧
    ∃ r1, handleCategoryChosen pid cat s r = some r1 ∧
      ((∃ e ∈ appended r r1, e.EvType = "GAME_END") ↔
        ∀ q ∈ r1.Players, q.IsViewer = false → 12 ≤ q.Scores.length) := by
  refine ⟨rfl, ?_⟩
  obtain ⟨r1, cur, hacc, -, hev⟩ := handleCategoryChosen_events s hcur hp hfree
  refine ⟨r1, hacc, ?_⟩
  rw [← allFilled_iff]
  unfold appended
  rw [hev, List.append_assoc, List.drop_left]
  constructor
  · rintro ⟨e, he, ht⟩
    simp only [List.cons_append, List.nil_append, List.mem_cons] at he
    rcases he with rfl | rfl | he
    · have hne : ("SCORE_UPDATE" : String) ≠ "GAME_END" := by decide
      exact absurd ht hne
    · have hne : ("TURN_CHANGED" : String) ≠ "GAME_END" := by decide
      exact absurd ht hne
    · by_contra hf
      rw [if_neg hf] at he
      cases he
  · intro hf
    rw [if_pos hf]
    exact ⟨GameEvent.mk ((r.Events.length : Int) + 3) "GAME_END" (gameEndPayload r1.Players),
      by simp, rfl⟩

/-- C6 at the two-player game in which `b` has one category left: `b` scores it. -/
theorem C6_game_end_iff_all_filled_witness :
    Categories.length = 12 ∧
    ∃ r1, handleCategoryChosen "b" "yahtzee" 1 almostOver = some r1 ∧
      ((∃ e ∈ appended almostOver r1, e.EvType = "GAME_END") ↔
        ∀ q ∈ r1.Players, q.IsViewer = false → 12 ≤ q.Scores.length) :=
  C6_game_end_iff_all_filled almostOver "b" "yahtzee" 1 playerB11
    (by decide) (by decide) (by decide)

/-- C6 as stated fails. In the reachable room `almostOver` no `GAME_END` has been
logged, `a` holds 13 entries (the twelve categories and `chance`) and `b` holds 11; the
accepted score of `b` in `yahtzee` appends `GAME_END` although the non-viewer `a` does
not hold exactly 12 entries. -/
theorem C6_counterexample :
    (∀ e ∈ almostOver.Events, e.EvType ≠ "GAME_END") ∧
    ∃ r1, handleCategoryChosen "b" "yahtzee" 1 almostOver = some r1 ∧
      (∃ e ∈ appended almostOver r1, e.EvType = "SCORE_UPDATE") ∧
      (∃ e ∈ appended almostOver r1, e.EvType = "GAME_END") ∧
      ¬ (∀ q ∈ r1.Players, q.IsViewer = false → q.Scores.length = 12) := by
  refine ⟨by decide, (handleCategoryChosen "b" "yahtzee" 1 almostOver).getD almostOver,
    by decide, by decide, by decide, by decide⟩

/-! ### C7: the final scores -/

theorem foldl_addInt (f : String → Int) (l : List String) (a : Int) :
    l.foldl (fun acc c => addInt acc (f c)) (wrapInt a) = wrapInt (a + (l.map f).sum) := by
  induction l generalizing a with
  | nil => simp
  | cons c l ih =>
    simp only [List.foldl_cons, List.map_cons, List.sum_cons]
    have : addInt (wrapInt a) (f c) = wrapInt (a + f c) := wrapInt_add_left _ _
    rw [this, ih, add_assoc]

theorem upperTotal_eq (scores : List (String × Int)) :
    upperTotal scores = wrapInt (upperSum scores) := by
  unfold upperTotal upperSum
  have h := foldl_addInt (fun cat => (scores.lookup cat).getD 0) upperCategories 0
  have h0 : wrapInt 0 = 0 := by decide
  rw [h0, zero_add] at h
  exact h

theorem tally_append (l : List Player) (p : Player) :
    tally (l ++ [p]) = tallyStep (tally l) p := by
  unfold tally
  rw [List.foldl_append]
  rfl

theorem tallyStep_finalScores (t : Tally) (p : Player) :
    (tallyStep t p).finalScores =
      if p.IsViewer then t.finalScores else mapSet t.finalScores p.ID (finalEntry p) := by
  unfold tallyStep
  split
  · rfl
  · simp only
    split
    · rfl
    · split <;> rfl

theorem lookup_none_of_keys {β : Type} (m : List (String × β)) (k : String)
    (h : ∀ e ∈ m, e.1 ≠ k) : m.lookup k = none := by
  induction m with
  | nil => rfl
  | cons e m ih =>
    obtain ⟨a, b⟩ := e
    rw [List.lookup_cons]
    have hne : (k == a) = false := by
      rw [beq_eq_false_iff_ne]
      exact fun hk => h (a, b) (by simp) hk.symm
    rw [hne]
    exact ih (fun e he => h e (List.mem_cons_of_mem _ he))

/-- On a roster with distinct keys the map `finalScores` holds one entry per non-viewer,
in visiting order. -/
theorem tally_finalScores (ps : List Player) (hnd : (rosterIds ps).Nodup) :
    (tally ps).finalScores =
      (ps.filter (fun p => !p.IsViewer)).map (fun p => (p.ID, finalEntry p)) := by
  induction ps using List.reverseRecOn with
  | nil => rfl
  | append_singleton l p ih =>
    have hnd1 : (rosterIds l).Nodup ∧ p.ID ∉ rosterIds l := by
      unfold rosterIds at hnd ⊢
      rw [List.map_append, List.nodup_append] at hnd
      refine ⟨hnd.1, fun hm => hnd.2.2 hm (by simp)⟩
    rw [tally_append, tallyStep_finalScores, ih hnd1.1, List.filter_append, List.map_append]
    cases hv : p.IsViewer with
    | true => simp [hv]
    | false =>
      simp only [Bool.false_eq_true, if_false, List.filter_cons, List.filter_nil, hv, Bool.not_false,
        if_true, List.map_cons, List.map_nil]
      apply mapSet_absent
      apply lookup_none_of_keys
      intro e he hk
      rw [List.mem_map] at he
      obtain ⟨q, hq, rfl⟩ := he
      apply hnd1.2
      unfold rosterIds
      rw [List.mem_map]
      exact ⟨q, List.mem_of_mem_filter hq, hk⟩

theorem lookup_map_of_mem (l : List Player) (g : Player → FinalScore)
    (hnd : (rosterIds l).Nodup) (p : Player) (hp : p ∈ l) :
    (l.map (fun q => (q.ID, g q))).lookup p.ID = some (g p) := by
  induction l with
  | nil => cases hp
  | cons q l ih =>
    unfold rosterIds at hnd
    rw [List.map_cons, List.nodup_cons] at hnd
    rw [List.map_cons, List.lookup_cons]
    rcases List.mem_cons.mp hp with rfl | hpl
    · simp
    · have hne : (p.ID == q.ID) = false := by
        rw [beq_eq_false_iff_ne]
        intro he
        apply hnd.1
        rw [← he, List.mem_map]
        exact ⟨p, hpl, rfl⟩
      rw [hne]
      exact ih hnd.2 hpl

theorem appended_checkGameEnd (r : Room) :
    appended r (checkGameEnd r) =
      if allFilled r.Players then
        [GameEvent.mk ((r.Events.length : Int) + 1) "GAME_END" (gameEndPayload r.Players)]
      else [] := by
  unfold appended
  rw [checkGameEnd_events, List.drop_left]

theorem nodup_filter_ids (ps : List Player) (f : Player → Bool) (hnd : (rosterIds ps).Nodup) :
    (rosterIds (ps.filter f)).Nodup := by
  unfold rosterIds at hnd ⊢
  exact hnd.sublist ((List.filter_sublist ps).map _)

theorem eq_of_same_id {ps : List Player} (hnd : (rosterIds ps).Nodup) {p q : Player}
    (hp : p ∈ ps) (hq : q ∈ ps) (h : p.ID = q.ID) : p = q := by
  unfold rosterIds at hnd
  exact List.inj_on_of_nodup_map hnd hp hq h

/-- C7, amended. For a roster with distinct keys (the roster is a map), every event
that `checkGameEnd` appends is a `GAME_END` whose `final_scores` holds, for every
non-viewer player, an entry with `upper_bonus` 35 when the Go `int` sum (64 bits,
wrapping) of the six upper categories is at least 63 and 0 otherwise, `base_score` the
running total and `final_score` the Go `int` sum of `base_score` and `upper_bonus` (the
exact sums whenever they are Go `int`s); a viewer has no entry, and every entry belongs
to a non-viewer. -/
theorem C7_game_end_scores (r : Room) (hnd : (rosterIds r.Players).Nodup) (e : GameEvent)
    (he : e ∈ appended r (checkGameEnd r)) :
    e.EvType = "GAME_END" ∧
    ∃ fs wid wname draw, e.Payload = Payload.gameEnd fs wid wname draw ∧
      (∀ p ∈ r.Players, p.IsViewer = false → ∃ x, fs.lookup p.ID = some x ∧
        x.upper_bonus = (if wrapInt (upperSum p.Scores) ≥ 63 then 35 else 0) ∧
        (inInt64 (upperSum p.Scores) →
          x.upper_bonus = (if upperSum p.Scores ≥ 63 then 35 else 0)) ∧
        x.base_score = p.TotalScore ∧
        x.final_score = addInt x.base_score x.upper_bonus ∧
        (inInt64 (x.base_score + x.upper_bonus) →
          x.final_score = x.base_score + x.upper_bonus)) ∧
      (∀ p ∈ r.Players, p.IsViewer = true → fs.lookup p.ID = none) ∧
      (∀ id x, (id, x) ∈ fs → ∃ p ∈ r.Players, p.ID = id ∧ p.IsViewer = false) := by
  rw [appended_checkGameEnd] at he
  split at he
  · rw [List.mem_singleton] at he
    subst he
    refine ⟨rfl, _, _, _, _, rfl, ?_, ?_, ?_⟩
    · intro p hp hv
      refine ⟨finalEntry p, ?_, ?_, ?_, rfl, rfl, ?_⟩
      · rw [tally_finalScores _ hnd]
        apply lookup_map_of_mem _ finalEntry (nodup_filter_ids _ _ hnd)
        rw [List.mem_filter]
        exact ⟨hp, by simp [hv]⟩
      · show upperBonus p.Scores = _
        unfold upperBonus
        rw [upperTotal_eq]
      · intro hin
        show upperBonus p.Scores = _
        unfold upperBonus
        rw [upperTotal_eq, wrapInt_of_inInt64 hin]
      · intro hin
        exact wrapInt_of_inInt64 hin
    · intro p hp hv
      rw [tally_finalScores _ hnd]
      apply lookup_none_of_keys
      intro x hx hk
      rw [List.mem_map] at hx
      obtain ⟨q, hq, rfl⟩ := hx
      rw [List.mem_filter] at hq
      have hqp : q = p := eq_of_same_id hnd hq.1 hp hk
      rw [hqp, hv] at hq
      simp at hq
    · intro id x hx
      rw [tally_finalScores _ hnd, List.mem_map] at hx
      obtain ⟨q, hq, hqe⟩ := hx
      rw [List.mem_filter] at hq
      simp only [Prod.mk.injEq] at hqe
      exact ⟨q, hq.1, hqe.1, by simpa using hq.2⟩
  · cases he

set_option maxRecDepth 100000 in
theorem gameOver_reachable : Reachable gameOver :=
  run_reachable almostOver_reachable
    (show run [Op.score "b" "yahtzee" 1] almostOver = some gameOver by decide)

set_option maxRecDepth 100000 in
/-- C7 at the finished two-player game. -/
theorem C7_game_end_scores_witness :
    gameOverEnd.EvType = "GAME_END" ∧
    ∃ fs wid wname draw, gameOverEnd.Payload = Payload.gameEnd fs wid wname draw ∧
      (∀ p ∈ gameOver.Players, p.IsViewer = false → ∃ x, fs.lookup p.ID = some x ∧
        x.upper_bonus = (if wrapInt (upperSum p.Scores) ≥ 63 then 35 else 0) ∧
        (inInt64 (upperSum p.Scores) →
          x.upper_bonus = (if upperSum p.Scores ≥ 63 then 35 else 0)) ∧
        x.base_score = p.TotalScore ∧
        x.final_score = addInt x.base_score x.upper_bonus ∧
        (inInt64 (x.base_score + x.upper_bonus) →
          x.final_score = x.base_score + x.upper_bonus)) ∧
      (∀ p ∈ gameOver.Players, p.IsViewer = true → fs.lookup p.ID = none) ∧
      (∀ id x, (id, x) ∈ fs → ∃ p ∈ gameOver.Players, p.ID = id ∧ p.IsViewer = false) :=
  C7_game_end_scores gameOver (by decide) gameOverEnd (by decide)

/-! ### C8: the winners -/

theorem tallyStep_viewer (t : Tally) (p : Player) (hv : p.IsViewer = true) :
    tallyStep t p = t := by
  unfold tallyStep
  rw [if_pos hv]

/-- The loop invariant of the winner computation: `highestScore` is at least -1 and at
least every final score seen, `winners` lists the ids of the players seen whose final
score equals `highestScore`, and `highestScore` is -1 or the final score of a player
seen. -/
theorem tally_winners (ps : List Player) :
    -1 ≤ (tally ps).highestScore ∧
    (∀ p ∈ ps, p.IsViewer = false → finalTotal p ≤ (tally ps).highestScore) ∧
    (tally ps).winners = rosterIds (topScorers ps (tally ps).highestScore) ∧
    ((tally ps).highestScore = -1 ∨
      ∃ p ∈ ps, p.IsViewer = false ∧ finalTotal p = (tally ps).highestScore) := by
  induction ps using List.reverseRecOn with
  | nil => exact ⟨le_refl _, fun _ h _ => absurd h (List.not_mem_nil _), rfl, Or.inl rfl⟩
  | append_singleton l p ih =>
    obtain ⟨h1, h2, h3, h4⟩ := ih
    rw [tally_append]
    cases hv : p.IsViewer with
    | true =>
      rw [tallyStep_viewer _ _ hv]
      refine ⟨h1, ?_, ?_, ?_⟩
      · intro q hq hqv
        rw [List.mem_append, List.mem_singleton] at hq
        rcases hq with hq | rfl
        · exact h2 q hq hqv
        · rw [hv] at hqv; cases hqv
      · rw [h3]
        unfold topScorers
        rw [List.filter_append]
        simp [hv]
      · rcases h4 with h | ⟨q, hq, hqv, hqf⟩
        · exact Or.inl h
        · exact Or.inr ⟨q, List.mem_append_left _ hq, hqv, hqf⟩
    | false =>
      have htop : ∀ M, topScorers (l ++ [p]) M =
          topScorers l M ++ (if finalTotal p = M then [p] else []) := by
        intro M
        unfold topScorers
        rw [List.filter_append, List.filter_append]
        congr 1
        by_cases hM : finalTotal p = M <;> simp [hv, hM]
      unfold tallyStep
      rw [if_neg (by simp [hv])]
      simp only
      by_cases hgt : finalTotal p > (tally l).highestScore
      · rw [if_pos hgt]
        refine ⟨by show -1 ≤ finalTotal p; omega, ?_, ?_, ?_⟩
        · intro q hq hqv
          show finalTotal q ≤ finalTotal p
          rw [List.mem_append, List.mem_singleton] at hq
          rcases hq with hq | rfl
          · have := h2 q hq hqv
            omega
          · exact le_refl _
        · show [p.ID] = rosterIds (topScorers (l ++ [p]) (finalTotal p))
          rw [htop, if_pos rfl]
          have hnone : topScorers l (finalTotal p) = [] := by
            unfold topScorers
            rw [List.filter_eq_nil_iff]
            intro q hq
            rw [List.mem_filter] at hq
            have := h2 q hq.1 (by simpa using hq.2)
            have hne : finalTotal q ≠ finalTotal p := by omega
            simpa using hne
          rw [hnone]
          rfl
        · right
          exact ⟨p, by simp, hv, rfl⟩
      · rw [if_neg hgt]
        by_cases heq : finalTotal p = (tally l).highestScore
        · rw [if_pos heq]
          refine ⟨h1, ?_, ?_, ?_⟩
          · intro q hq hqv
            show finalTotal q ≤ (tally l).highestScore
            rw [List.mem_append, List.mem_singleton] at hq
            rcases hq with hq | rfl
            · exact h2 q hq hqv
            · omega
          · show (tally l).winners ++ [p.ID] = rosterIds (topScorers (l ++ [p]) (tally l).highestScore)
            rw [htop, if_pos heq, h3]
            unfold rosterIds
            rw [List.map_append]
            rfl
          · right
            exact ⟨p, by simp, hv, heq⟩
        · rw [if_neg heq]
          refine ⟨h1, ?_, ?_, ?_⟩
          · intro q hq hqv
            show finalTotal q ≤ (tally l).highestScore
            rw [List.mem_append, List.mem_singleton] at hq
            rcases hq with hq | rfl
            · exact h2 q hq hqv
            · omega
          · show (tally l).winners = rosterIds (topScorers (l ++ [p]) (tally l).highestScore)
            rw [htop, if_neg heq, h3, List.append_nil]
          · rcases h4 with h | ⟨q, hq, hqv, hqf⟩
            · exact Or.inl h
            · exact Or.inr ⟨q, List.mem_append_left _ hq, hqv, hqf⟩

theorem findPlayer_of_mem {ps : List Player} (hnd : (rosterIds ps).Nodup) {p : Player}
    (hp : p ∈ ps) : findPlayer ps p.ID = some p := by
  cases hf : findPlayer ps p.ID with
  | none =>
    exfalso
    apply findPlayer_none hf
    unfold rosterIds
    rw [List.mem_map]
    exact ⟨p, hp, rfl⟩
  | some q =>
    have hq := findPlayer_some hf
    rw [eq_of_same_id hnd hq.1 hp hq.2]

theorem mem_topScorers (ps : List Player) (M : Int) (p : Player) :
    p ∈ topScorers ps M ↔ p ∈ ps ∧ p.IsViewer = false ∧ finalTotal p = M := by
  unfold topScorers
  rw [List.mem_filter, List.mem_filter]
  simp [and_assoc]

theorem names_of_ids {ps : List Player} (hnd : (rosterIds ps).Nodup) (l : List Player)
    (hl : ∀ p ∈ l, p ∈ ps) :
    (rosterIds l).filterMap (fun wid => (findPlayer ps wid).map (fun p => p.Name))
      = l.map (fun p => p.Name) := by
  induction l with
  | nil => rfl
  | cons p l ih =>
    unfold rosterIds at ih ⊢
    rw [List.map_cons, List.filterMap_cons, findPlayer_of_mem hnd (hl p (by simp))]
    simp only [Option.map_some', List.map_cons]
    rw [ih (fun q hq => hl q (List.mem_cons_of_mem _ hq))]

/-- C8 (amended). For a roster with distinct keys in which the maximum `M` of the final
scores of the non-viewer players (attained by at least one of them) is at least -1, the
winner computation of `GAME_END` selects exactly the non-viewer players whose final
score is `M`: `winners` lists their ids, `winner_id` is the id of one of them, `is_draw`
holds exactly when two or more of them attain `M`, and in a draw `winner_name` joins the
names of all of them. -/
theorem C8_winners_attain_maximum (ps : List Player) (hnd : (rosterIds ps).Nodup) (M : Int)
    (hatt : ∃ p ∈ ps, p.IsViewer = false ∧ finalTotal p = M)
    (hmax : ∀ p ∈ ps, p.IsViewer = false → finalTotal p ≤ M) (hM : -1 ≤ M) :
    ∃ fs wid wname draw, gameEndPayload ps = Payload.gameEnd fs wid wname draw ∧
      (tally ps).winners = rosterIds (topScorers ps M) ∧
      (∀ p, p ∈ topScorers ps M ↔ p ∈ ps ∧ p.IsViewer = false ∧ finalTotal p = M) ∧
      (∃ w ∈ topScorers ps M, w.ID = wid) ∧
      (draw = true ↔ 2 ≤ (topScorers ps M).length) ∧
      (draw = true →
        wname = String.intercalate " & " ((topScorers ps M).map (fun p => p.Name)) ++ " (TIE!)") := by
  obtain ⟨h1, h2, h3, h4⟩ := tally_winners ps
  obtain ⟨p0, hp0, hp0v, hp0f⟩ := hatt
  have hhs : (tally ps).highestScore = M := by
    have hle := h2 p0 hp0 hp0v
    rcases h4 with h | ⟨q, hq, hqv, hqf⟩
    · omega
    · have := hmax q hq hqv
      omega
  rw [hhs] at h3
  have hp0top : p0 ∈ topScorers ps M := (mem_topScorers ps M p0).mpr ⟨hp0, hp0v, hp0f⟩
  have hlen : (rosterIds (topScorers ps M)).length = (topScorers ps M).length := by
    unfold rosterIds
    rw [List.length_map]
  have hpos : 0 < (topScorers ps M).length := List.length_pos_of_mem hp0top
  refine ⟨_, _, _, _, rfl, h3, mem_topScorers ps M, ?_, ?_, ?_⟩
  · rw [h3]
    unfold winnerID
    rw [if_pos (by rw [hlen]; exact hpos)]
    cases htop : topScorers ps M with
    | nil => rw [htop] at hpos; cases hpos
    | cons w rest => exact ⟨w, by simp, rfl⟩
  · rw [h3, hlen]
    simp only [decide_eq_true_eq]
    omega
  · intro hdraw
    rw [h3, hlen] at hdraw
    simp only [decide_eq_true_eq] at hdraw
    rw [h3]
    unfold winnerName
    rw [if_pos (by rw [hlen]; exact hpos), if_pos (by rw [hlen]; exact hdraw)]
    rw [names_of_ids hnd _ (fun p hp => ((mem_topScorers ps M p).mp hp).1)]

theorem lostGame_reachable : Reachable lostGame :=
  run_reachable lobby1_reachable
    (show run (Op.start false "a" :: Categories.map (fun c => Op.score "a" c (-1))) lobby1
      = some lostGame by decide)

/-- C8 at the finished two-player game: `a` wins with 13 against 12. -/
theorem C8_winners_attain_maximum_witness :
    ∃ fs wid wname draw, gameEndPayload gameOver.Players = Payload.gameEnd fs wid wname draw ∧
      (tally gameOver.Players).winners = rosterIds (topScorers gameOver.Players 13) ∧
      (∀ p, p ∈ topScorers gameOver.Players 13 ↔
        p ∈ gameOver.Players ∧ p.IsViewer = false ∧ finalTotal p = 13) ∧
      (∃ w ∈ topScorers gameOver.Players 13, w.ID = wid) ∧
      (draw = true ↔ 2 ≤ (topScorers gameOver.Players 13).length) ∧
      (draw = true →
        wname = String.intercalate " & "
          ((topScorers gameOver.Players 13).map (fun p => p.Name)) ++ " (TIE!)") :=
  C8_winners_attain_maximum gameOver.Players (by decide) 13 (by decide) (by decide) (by decide)

/-- C8 as stated fails. In the reachable room `lostGame` the only player `a`, a
non-viewer, holds the maximum final score -12; the logged `GAME_END` has the empty
`winner_id`, which names no roster member. -/
theorem C8_counterexample :
    (∃ p ∈ lostGame.Players, p.IsViewer = false ∧ finalTotal p = -12) ∧
    (∀ p ∈ lostGame.Players, p.IsViewer = false → finalTotal p ≤ -12) ∧
    lostGame.Events.getLast? =
      some (GameEvent.mk 26 "GAME_END"
        (Payload.gameEnd [("a", FinalScore.mk "Ann" (-12) 0 (-12))] "" "" false)) ∧
    gameEndPayload lostGame.Players =
      Payload.gameEnd [("a", FinalScore.mk "Ann" (-12) 0 (-12))] "" "" false ∧
    ¬ ∃ p ∈ lostGame.Players, p.ID = "" := by
  refine ⟨by decide, by decide, by decide, by decide, by decide⟩

/-! ### C9 and C10: rejected actions and the fresh join -/

theorem notTurn_of_not_current {r : Room} {pid : String}
    (hv : r.PlayerOrder = [] ∨
      (0 ≤ r.CurrentPlayerIdx ∧ r.CurrentPlayerIdx < r.PlayerOrder.length))
    (hn : indexOrder r.PlayerOrder r.CurrentPlayerIdx ≠ some pid) :
    notTurn r pid = some true := by
  unfold notTurn
  rcases hv with he | ⟨h0, hlt⟩
  · rw [if_pos (by rw [he]; rfl)]
  · rw [if_neg (by omega)]
    obtain ⟨x, hx, _⟩ := indexOrder_of_lt h0 hlt
    rw [hx] at hn ⊢
    have hne : x ≠ pid := fun h => hn (by rw [h])
    simp [hne]

theorem notTurn_total {r : Room} (pid : String)
    (hv : r.PlayerOrder = [] ∨
      (0 ≤ r.CurrentPlayerIdx ∧ r.CurrentPlayerIdx < r.PlayerOrder.length)) :
    notTurn r pid = some true ∨
      (notTurn r pid = some false ∧ indexOrder r.PlayerOrder r.CurrentPlayerIdx = some pid) := by
  by_cases hc : indexOrder r.PlayerOrder r.CurrentPlayerIdx = some pid
  · exact Or.inr ⟨notTurn_of_current hc, hc⟩
  · exact Or.inl (notTurn_of_not_current hv hc)

/-- C9. In a room whose current index is a valid position or whose turn sequence is
empty (every reachable room is such a room, `reachable_inv`), each rejected action returns the room itself, so the roster, scores, totals,
turn sequence, index, dice, rolls-left, started flag and event log are all unchanged:
a roll by a player who is not the current-turn player; a roll when rolls-left is not
positive; a score by a player who is not the current-turn player; a score for a category
already present in the player's mapping; a start by a non-host; a start of a started
game. -/
theorem C9_rejected_actions_change_nothing (r : Room)
    (hv : r.PlayerOrder = [] ∨
      (0 ≤ r.CurrentPlayerIdx ∧ r.CurrentPlayerIdx < r.PlayerOrder.length)) :
    (∀ (pid : String) (held : List Int) (rnd : Nat → Fin 6),
      indexOrder r.PlayerOrder r.CurrentPlayerIdx ≠ some pid →
        handleRequestRoll pid held rnd r = some r) ∧
    (∀ (pid : String) (held : List Int) (rnd : Nat → Fin 6),
      r.RollsLeft ≤ 0 → handleRequestRoll pid held rnd r = some r) ∧
    (∀ (pid cat : String) (s : Int),
      indexOrder r.PlayerOrder r.CurrentPlayerIdx ≠ some pid →
        handleCategoryChosen pid cat s r = some r) ∧
    (∀ (pid cat : String) (s : Int) (p : Player) (v : Int),
      findPlayer r.Players pid = some p → p.Scores.lookup cat = some v →
        handleCategoryChosen pid cat s r = some r) ∧
    (∀ (shuffle : List String → List String) (pid : String),
      pid ≠ r.HostID → handleGameStart shuffle pid r = r) ∧
    (∀ (shuffle : List String → List String) (pid : String),
      r.GameStarted = true → handleGameStart shuffle pid r = r) := by
  refine ⟨?_, ?_, ?_, ?_, ?_, ?_⟩
  · intro pid held rnd hn
    unfold handleRequestRoll
    rw [notTurn_of_not_current hv hn]
  · intro pid held rnd hr
    unfold handleRequestRoll
    rcases notTurn_total pid hv with h | ⟨h, _⟩
    · rw [h]
    · rw [h]
      simp only
      rw [if_pos hr]
  · intro pid cat s hn
    unfold handleCategoryChosen
    rw [notTurn_of_not_current hv hn]
  · intro pid cat s p v hp hl
    unfold handleCategoryChosen
    rcases notTurn_total pid hv with h | ⟨h, _⟩
    · rw [h]
    · rw [h]
      simp only
      rw [hp]
      simp only [hl, Option.isSome_some, if_true]
  · intro shuffle pid hne
    unfold handleGameStart
    split
    · rfl
    · rw [if_pos (by simpa using fun h => hne h.symm)]
  · intro shuffle pid hg
    unfold handleGameStart
    rw [if_pos hg]

/-- C9 at the started three-player game, where `c` is to move: a roll and a score by
`a`, a start by the non-host `b` and a second start by the host `a` change nothing. -/
theorem C9_rejected_actions_change_nothing_witness :
    handleRequestRoll "a" [] (fun _ => 0) game3 = some game3 ∧
    handleCategoryChosen "a" "ones" 3 game3 = some game3 ∧
    handleGameStart id "b" game3 = game3 ∧
    handleGameStart id "a" game3 = game3 :=
  have h := C9_rejected_actions_change_nothing game3 (Or.inr (by decide))
  ⟨h.1 "a" [] (fun _ => 0) (by decide), h.2.2.1 "a" "ones" 3 (by decide),
    h.2.2.2.2.1 id "b" (by decide), h.2.2.2.2.2 id "a" (by decide)⟩

/-- C10. For a room whose game has not started and a join request whose id and token
match no roster entry, with `playerID` a generated id that is not a roster key: the
join fails with `RoomFull` exactly when the roster holds 6 or more members (a failed
join returns no room, the room stays as it was); otherwise it returns the room with one
new roster entry, a non-viewer with empty scores under the id `playerID`, added after
the existing entries, and `playerID` appended to the turn sequence; the existing
entries, the existing turn sequence and the current index are unchanged. -/
theorem C10_fresh_join_before_start (r : Room) (req : JoinRequest) (playerID token : String)
    (hg : r.GameStarted = false)
    (hno : ∀ p ∈ r.Players, ¬ (p.ID = req.PlayerID ∧ p.Token = req.Token))
    (hfresh : playerID ∉ rosterIds r.Players) :
    (JoinRoom req playerID token r = Except.error JoinError.RoomFull ↔ 6 ≤ r.Players.length) ∧
    (r.Players.length < 6 →
      JoinRoom req playerID token r = Except.ok
        ({ r with
            Players := r.Players ++
              [{ ID := playerID, Name := displayName req.PlayerName, Token := token,
                 Ready := false, Scores := [], TotalScore := 0, IsViewer := false,
                 Conn := none }]
            PlayerOrder := r.PlayerOrder ++ [playerID] },
         { room_code := req.RoomCode, player_id := playerID, token := token,
           is_viewer := false, last_event_id := r.Events.length })) := by
  have hrm : rejoinMatch req r = none := by
    cases hm : rejoinMatch req r with
    | none => rfl
    | some p =>
      obtain ⟨hp, hid, htok, -, -⟩ := rejoinMatch_some hm
      exact absurd ⟨hid, htok⟩ (hno p hp)
  have hj : JoinRoom req playerID token r =
      if r.Players.length ≥ 6 then Except.error JoinError.RoomFull
      else Except.ok
        ({ r with
            Players := r.Players ++
              [{ ID := playerID, Name := displayName req.PlayerName, Token := token,
                 Ready := false, Scores := [], TotalScore := 0, IsViewer := false,
                 Conn := none }]
            PlayerOrder := r.PlayerOrder ++ [playerID] },
         { room_code := req.RoomCode, player_id := playerID, token := token,
           is_viewer := false, last_event_id := r.Events.length }) := by
    unfold JoinRoom
    simp only [hrm]
    rw [if_neg (by simp [hg])]
    rw [setPlayer_fresh _ _ hfresh]
  rw [hj]
  constructor
  · constructor
    · intro h
      by_contra hlt
      rw [if_neg hlt] at h
      cases h
    · intro h
      rw [if_pos h]
  · intro hlt
    rw [if_neg (by omega)]

/-- C10 at the three-player lobby: `d` joins. -/
theorem C10_fresh_join_before_start_witness :
    (JoinRoom (joinAs "Dan") "d" "td" lobby3 = Except.error JoinError.RoomFull ↔
      6 ≤ lobby3.Players.length) ∧
    (lobby3.Players.length < 6 →
      JoinRoom (joinAs "Dan") "d" "td" lobby3 = Except.ok
        ({ lobby3 with
            Players := lobby3.Players ++
              [{ ID := "d", Name := displayName (joinAs "Dan").PlayerName, Token := "td",
                 Ready := false, Scores := [], TotalScore := 0, IsViewer := false,
                 Conn := none }]
            PlayerOrder := lobby3.PlayerOrder ++ ["d"] },
         { room_code := (joinAs "Dan").RoomCode, player_id := "d", token := "td",
           is_viewer := false, last_event_id := lobby3.Events.length })) :=
  C10_fresh_join_before_start lobby3 (joinAs "Dan") "d" "td" (by decide) (by decide) (by decide)

theorem rolledOut_reachable : Reachable rolledOut :=
  run_reachable game3_reachable
    (show run [Op.roll "c" [] [0, 1, 2, 3, 4], Op.roll "c" [0] [5, 5, 5, 5],
        Op.roll "c" [0, 1] [2, 2, 2]] game3 = some rolledOut by decide)

theorem secondRound_reachable : Reachable secondRound :=
  run_reachable game2_reachable
    (show run [Op.score "a" "ones" 3, Op.score "b" "ones" 2] game2 = some secondRound by decide)

/-- The rejections by the current-turn player occur: in `rolledOut` the current player
`c` has no roll left, and in `secondRound` the current player `a` holds `ones`. -/
theorem rejections_by_current_player :
    indexOrder rolledOut.PlayerOrder rolledOut.CurrentPlayerIdx = some "c" ∧
    rolledOut.RollsLeft = 0 ∧
    handleRequestRoll "c" [] (fun _ => 0) rolledOut = some rolledOut ∧
    indexOrder secondRound.PlayerOrder secondRound.CurrentPlayerIdx = some "a" ∧
    findPlayer secondRound.Players "a" = some playerA1 ∧
    handleCategoryChosen "a" "ones" 5 secondRound = some secondRound := by
  refine ⟨by decide, by decide, by decide, by decide, by decide, by decide⟩

/-! ### No operation faults in a reachable room -/

theorem inv_index_valid {r : Room} (h : Inv r) :
    r.PlayerOrder = [] ∨
      (0 ≤ r.CurrentPlayerIdx ∧ r.CurrentPlayerIdx < r.PlayerOrder.length) := by
  rcases h.idx_lt with hlt | ⟨he, _⟩
  · exact Or.inr ⟨h.idx_nonneg, hlt⟩
  · exact Or.inl he

/-- In a reachable room no handler stops with a run-time fault: the roll, score and
end-turn handlers and the disconnect policy all return a room, whatever the event. -/
theorem handlers_never_fault (r : Room) (h : Reachable r) :
    (∀ (pid : String) (held : List Int) (rnd : Nat → Fin 6),
      ∃ r1, handleRequestRoll pid held rnd r = some r1) ∧
    (∀ (pid cat : String) (s : Int), ∃ r1, handleCategoryChosen pid cat s r = some r1) ∧
    (∀ pid : String, ∃ r1, handleEndTurn pid r = some r1) ∧
    (∀ pid : String, ∃ out, disconnect pid r = some out) := by
  have hinv := reachable_inv h
  have hv := inv_index_valid hinv
  refine ⟨?_, ?_, ?_, disconnect_total hinv⟩
  · intro pid held rnd
    unfold handleRequestRoll
    rcases notTurn_total pid hv with hn | ⟨hn, _⟩
    · rw [hn]; exact ⟨r, rfl⟩
    · rw [hn]
      simp only
      split
      · exact ⟨r, rfl⟩
      · obtain ⟨out, ho, _⟩ := rollLoop_spec held rnd 5 0 0 r.dice (by rw [hinv.dice_len])
        rw [ho]
        exact ⟨_, rfl⟩
  · intro pid cat s
    rcases notTurn_total pid hv with hn | ⟨hn, hcur⟩
    · unfold handleCategoryChosen
      rw [hn]; exact ⟨r, rfl⟩
    · cases hp : findPlayer r.Players pid with
      | none =>
        unfold handleCategoryChosen
        rw [hn]
        simp only
        rw [hp]
        exact ⟨r, rfl⟩
      | some p =>
        cases hl : p.Scores.lookup cat with
        | some v =>
          unfold handleCategoryChosen
          rw [hn]
          simp only
          rw [hp]
          simp only [hl, Option.isSome_some, if_true]
          exact ⟨r, rfl⟩
        | none =>
          obtain ⟨cur, _, hacc⟩ := handleCategoryChosen_accept s hcur hp hl
          exact ⟨_, hacc⟩
  · intro pid
    unfold handleEndTurn
    rcases notTurn_total pid hv with hn | ⟨hn, hcur⟩
    · rw [hn]; exact ⟨r, rfl⟩
    · rw [hn]
      obtain ⟨h0, hlt, _⟩ := indexOrder_some hcur
      obtain ⟨cur, _, hadv⟩ := advanceTurn_ok h0 hlt
      exact ⟨_, hadv⟩

/-! ### How the operations change the roster and the turn sequence -/

theorem traces_refl (ps : List Player) : Traces ps ps :=
  fun q hq => ⟨q, hq, rfl, rfl⟩

theorem traces_modifyPlayer (ps : List Player) (id : String) (f : Player → Player)
    (hid : ∀ p, (f p).ID = p.ID) (htok : ∀ p, (f p).Token = p.Token) :
    Traces ps (modifyPlayer ps id f) := by
  intro q hq
  obtain ⟨p, hp, hcase⟩ := mem_modifyPlayer hq
  rcases hcase with rfl | ⟨_, rfl⟩
  · exact ⟨q, hp, rfl, rfl⟩
  · exact ⟨p, hp, hid p, htok p⟩

/-- What `handleRequestRoll` leaves alone. -/
theorem handleRequestRoll_frame {pid : String} {held : List Int} {rnd : Nat → Fin 6}
    {r r1 : Room} (h : handleRequestRoll pid held rnd r = some r1) :
    r1.Players = r.Players ∧ r1.PlayerOrder = r.PlayerOrder ∧
      r1.CurrentPlayerIdx = r.CurrentPlayerIdx ∧ r1.GameStarted = r.GameStarted ∧
      r1.HostID = r.HostID := by
  unfold handleRequestRoll at h
  split at h
  · cases h
  · cases h; exact ⟨rfl, rfl, rfl, rfl, rfl⟩
  · split at h
    · cases h; exact ⟨rfl, rfl, rfl, rfl, rfl⟩
    · split at h
      · cases h
      · cases h; exact ⟨rfl, rfl, rfl, rfl, rfl⟩

/-- What `advanceTurn` leaves alone. -/
theorem advanceTurn_frame {r r1 : Room} (h : advanceTurn r = some r1) :
    r1.Players = r.Players ∧ r1.PlayerOrder = r.PlayerOrder ∧
      r1.GameStarted = r.GameStarted ∧ r1.HostID = r.HostID := by
  obtain ⟨cur, _, _, rfl⟩ := advanceTurn_eq h
  exact ⟨rfl, rfl, rfl, rfl⟩

/-- What `handleEndTurn` leaves alone. -/
theorem handleEndTurn_frame {pid : String} {r r1 : Room} (h : handleEndTurn pid r = some r1) :
    r1.Players = r.Players ∧ r1.PlayerOrder = r.PlayerOrder ∧
      r1.GameStarted = r.GameStarted ∧ r1.HostID = r.HostID := by
  unfold handleEndTurn at h
  split at h
  · cases h
  · cases h; exact ⟨rfl, rfl, rfl, rfl⟩
  · exact advanceTurn_frame h

/-- What `handleCategoryChosen` leaves alone. -/
theorem handleCategoryChosen_frame {pid cat : String} {s : Int} {r r1 : Room}
    (h : handleCategoryChosen pid cat s r = some r1) :
    Traces r.Players r1.Players ∧ r1.PlayerOrder = r.PlayerOrder ∧
      r1.GameStarted = r.GameStarted ∧ r1.HostID = r.HostID := by
  unfold handleCategoryChosen at h
  split at h
  · cases h
  · cases h; exact ⟨traces_refl _, rfl, rfl, rfl⟩
  · split at h
    · cases h; exact ⟨traces_refl _, rfl, rfl, rfl⟩
    · split at h
      · cases h; exact ⟨traces_refl _, rfl, rfl, rfl⟩
      · simp only at h
        split at h
        · cases h
        · rename_i r3 ha
          cases h
          obtain ⟨fp, fo, fg, fh⟩ := advanceTurn_frame ha
          obtain ⟨cp, co, _, _, _, cg, ch⟩ := checkGameEnd_frame r3
          rw [cp, co, cg, ch, fp, fo, fg, fh]
          exact ⟨traces_modifyPlayer _ _ _ (fun _ => rfl) (fun _ => rfl), rfl, rfl, rfl⟩

/-- The three phases of a disconnect, made explicit. -/
theorem disconnect_some {pid : String} {r : Room} {out : DisconnectOutcome}
    (h : disconnect pid r = some out) :
    ∃ wc r2, wasCurrentPlayer r pid = some wc ∧
      announceTurn r.GameStarted wc (leaveTurnOrder pid wc
        { r with Players := modifyPlayer r.Players pid (fun p => { p with Conn := none }) })
        = some r2 ∧
      out = teardown (r.HostID == pid) r.GameStarted
        (remainingPlayers r.GameStarted (leaveTurnOrder pid wc
          { r with Players := modifyPlayer r.Players pid (fun p => { p with Conn := none }) }).Players)
        r2 := by
  unfold disconnect handlePlayerDisconnect at h
  split at h
  · cases h
  · rename_i wc hwc
    simp only at h
    split at h
    · cases h
    · rename_i r2 ha
      cases h
      exact ⟨wc, r2, hwc, ha, rfl⟩

/-- The teardown changes connection handles only. -/
theorem teardown_frame (isHost gs : Bool) (remaining : Nat) (r : Room) :
    (teardown isHost gs remaining r).room.PlayerOrder = r.PlayerOrder ∧
    (teardown isHost gs remaining r).room.CurrentPlayerIdx = r.CurrentPlayerIdx ∧
    (teardown isHost gs remaining r).room.RollsLeft = r.RollsLeft ∧
    (teardown isHost gs remaining r).room.dice = r.dice ∧
    (teardown isHost gs remaining r).room.Events = r.Events ∧
    (teardown isHost gs remaining r).room.GameStarted = r.GameStarted ∧
    (teardown isHost gs remaining r).room.HostID = r.HostID ∧
    (teardown isHost gs remaining r).room.Code = r.Code := by
  unfold teardown
  split
  · exact ⟨rfl, rfl, rfl, rfl, rfl, rfl, rfl, rfl⟩
  · split <;> exact ⟨rfl, rfl, rfl, rfl, rfl, rfl, rfl, rfl⟩

/-- The roster after the teardown: every entry is an entry of before, possibly with its
connection handle cleared. -/
theorem teardown_players (isHost gs : Bool) (remaining : Nat) (r : Room) (q : Player)
    (hq : q ∈ (teardown isHost gs remaining r).room.Players) :
    ∃ p ∈ r.Players, q = p ∨ q = { p with Conn := none } := by
  unfold teardown at hq
  split at hq
  · have hq : q ∈ r.Players.map (fun p => { p with Conn := none }) := hq
    rw [List.mem_map] at hq
    obtain ⟨p, hp, rfl⟩ := hq
    exact ⟨p, hp, Or.inr rfl⟩
  · split at hq
    · cases hps : r.Players with
      | nil =>
        have hq : q ∈ (match r.Players with
          | [] => []
          | p :: rest => { p with Conn := none } :: rest) := hq
        rw [hps] at hq
        cases hq
      | cons p rest =>
        have hq : q ∈ (match r.Players with
          | [] => []
          | p :: rest => { p with Conn := none } :: rest) := hq
        rw [hps] at hq
        simp only [List.mem_cons] at hq
        rcases hq with rfl | hq
        · exact ⟨p, by simp, Or.inr rfl⟩
        · exact ⟨q, by simp [hq], Or.inl rfl⟩
    · exact ⟨q, hq, Or.inl rfl⟩

/-- The keys of the roster are not changed by the teardown. -/
theorem teardown_rosterIds (isHost gs : Bool) (remaining : Nat) (r : Room) :
    rosterIds (teardown isHost gs remaining r).room.Players = rosterIds r.Players := by
  unfold teardown
  split
  · show rosterIds (r.Players.map _) = _
    unfold rosterIds
    rw [List.map_map]
    rfl
  · split
    · show rosterIds (match r.Players with
          | [] => []
          | p :: rest => { p with Conn := none } :: rest) = _
      cases r.Players with
      | nil => rfl
      | cons p rest => rfl
    · rfl

/-- What the announcement of the new turn leaves alone. -/
theorem announceTurn_frame {gs wc : Bool} {r r2 : Room} (h : announceTurn gs wc r = some r2) :
    r2.Players = r.Players ∧ r2.PlayerOrder = r.PlayerOrder ∧
      r2.CurrentPlayerIdx = r.CurrentPlayerIdx ∧ r2.GameStarted = r.GameStarted ∧
      r2.HostID = r.HostID ∧ r2.Code = r.Code := by
  unfold announceTurn at h
  split at h
  · split at h
    · cases h
    · cases h; exact ⟨rfl, rfl, rfl, rfl, rfl, rfl⟩
  · cases h; exact ⟨rfl, rfl, rfl, rfl, rfl, rfl⟩

/-- A disconnect on the turn sequence, the index, the started flag and the host. -/
theorem disconnect_frame {pid : String} {r : Room} {out : DisconnectOutcome}
    (h : disconnect pid r = some out) :
    ∃ wc, wasCurrentPlayer r pid = some wc ∧
      out.room.PlayerOrder = r.PlayerOrder.filter (fun x => x != pid) ∧
      out.room.CurrentPlayerIdx = reindex wc (leavingPlayerIdx r.PlayerOrder pid)
        r.CurrentPlayerIdx (r.PlayerOrder.filter (fun x => x != pid)).length ∧
      out.room.GameStarted = r.GameStarted ∧ out.room.HostID = r.HostID ∧
      out.room.Code = r.Code := by
  obtain ⟨wc, r2, hwc, ha, rfl⟩ := disconnect_some h
  obtain ⟨_, ao, ai, ag, ah, ac⟩ := announceTurn_frame ha
  obtain ⟨tord, ti, _, _, _, tg, th, tc⟩ := teardown_frame (r.HostID == pid) r.GameStarted
    (remainingPlayers r.GameStarted (leaveTurnOrder pid wc
      { r with Players := modifyPlayer r.Players pid (fun p => { p with Conn := none }) }).Players) r2
  refine ⟨wc, hwc, ?_, ?_, ?_, ?_, ?_⟩
  · rw [tord, ao]; rfl
  · rw [ti, ai]; rfl
  · rw [tg, ag]; rfl
  · rw [th, ah]; rfl
  · rw [tc, ac]; rfl

/-- The three ways in which `JoinRoom` succeeds. -/
theorem JoinRoom_ok {req : JoinRequest} {playerID token : String} {r r1 : Room}
    {resp : JoinResponse} (h : JoinRoom req playerID token r = Except.ok (r1, resp)) :
    (∃ p, rejoinMatch req r = some p ∧
      r1 = { r with Players := modifyPlayer r.Players req.PlayerID (fun q =>
        { q with Name := displayName req.PlayerName,
                 IsViewer := r.GameStarted ||
                   !(r.PlayerOrder.any (fun pid => pid == req.PlayerID)) }) } ∧
      resp = { room_code := req.RoomCode, player_id := req.PlayerID, token := req.Token,
               is_viewer := r.GameStarted ||
                 !(r.PlayerOrder.any (fun pid => pid == req.PlayerID)),
               last_event_id := r.Events.length }) ∨
    (rejoinMatch req r = none ∧ r.GameStarted = true ∧
      r1 = { r with
        Players := setPlayer r.Players
          (Player.mk playerID (displayName req.PlayerName) token false [] 0 true none) } ∧
      resp = { room_code := req.RoomCode, player_id := playerID, token := token,
               is_viewer := true, last_event_id := r.Events.length }) ∨
    (rejoinMatch req r = none ∧ r.GameStarted = false ∧ r.Players.length < 6 ∧
      r1 = { r with
        Players := setPlayer r.Players
          (Player.mk playerID (displayName req.PlayerName) token false [] 0 false none)
        PlayerOrder := r.PlayerOrder ++ [playerID] } ∧
      resp = { room_code := req.RoomCode, player_id := playerID, token := token,
               is_viewer := false, last_event_id := r.Events.length }) := by
  unfold JoinRoom at h
  split at h
  · rename_i p hp
    simp only [Except.ok.injEq, Prod.mk.injEq] at h
    exact Or.inl ⟨p, hp, h.1.symm, h.2.symm⟩
  · rename_i hnone
    split at h
    · rename_i hg
      simp only [Except.ok.injEq, Prod.mk.injEq] at h
      exact Or.inr (Or.inl ⟨hnone, hg, h.1.symm, h.2.symm⟩)
    · rename_i hg
      split at h
      · cases h
      · rename_i hlen
        simp only [Except.ok.injEq, Prod.mk.injEq] at h
        exact Or.inr (Or.inr ⟨hnone, by simpa using hg, by omega, h.1.symm, h.2.symm⟩)

/-- From a started room, one operation leaves the game started and the turn sequence a
subsequence of what it was. -/
theorem step_started {r r1 : Room} (hs : Step r r1) (hg : r.GameStarted = true) :
    r1.GameStarted = true ∧ r1.PlayerOrder.Sublist r.PlayerOrder := by
  cases hs with
  | join req playerID token _ _ resp hfresh _ hj =>
    rcases JoinRoom_ok hj with ⟨p, _, rfl, _⟩ | ⟨_, _, rfl, _⟩ | ⟨_, hf, _⟩
    · exact ⟨hg, List.Sublist.refl _⟩
    · exact ⟨hg, List.Sublist.refl _⟩
    · rw [hg] at hf; cases hf
  | connect playerID token conn _ _ hc =>
    unfold connect at hc
    split at hc
    · split at hc
      · cases hc
      · cases hc; exact ⟨hg, List.Sublist.refl _⟩
    · cases hc
  | ready playerID flag event => exact ⟨hg, List.Sublist.refl _⟩
  | chat event => exact ⟨hg, List.Sublist.refl _⟩
  | start shuffle playerID _ hperm =>
    unfold handleGameStart
    rw [if_pos hg]
    exact ⟨hg, List.Sublist.refl _⟩
  | roll playerID held rnd _ _ hr =>
    obtain ⟨_, ho, _, hgs, _⟩ := handleRequestRoll_frame hr
    rw [ho, hgs]; exact ⟨hg, List.Sublist.refl _⟩
  | score playerID category score _ _ hsc =>
    obtain ⟨_, ho, hgs, _⟩ := handleCategoryChosen_frame hsc
    rw [ho, hgs]; exact ⟨hg, List.Sublist.refl _⟩
  | endTurn playerID _ _ he =>
    obtain ⟨_, ho, hgs, _⟩ := handleEndTurn_frame he
    rw [ho, hgs]; exact ⟨hg, List.Sublist.refl _⟩
  | disconnect playerID _ out hd =>
    obtain ⟨wc, _, ho, _, hgs, _⟩ := disconnect_frame hd
    rw [ho, hgs]
    exact ⟨hg, List.filter_sublist _⟩

/-- From a started room, any number of operations leaves the game started and the turn
sequence a subsequence of what it was. -/
theorem steps_started {r r1 : Room} (hs : Relation.ReflTransGen Step r r1)
    (hg : r.GameStarted = true) :
    r1.GameStarted = true ∧ r1.PlayerOrder.Sublist r.PlayerOrder := by
  induction hs with
  | refl => exact ⟨hg, List.Sublist.refl _⟩
  | tail _ hstep ih =>
    obtain ⟨hg1, hsub⟩ := ih
    obtain ⟨hg2, hsub2⟩ := step_started hstep hg1
    exact ⟨hg2, hsub2.trans hsub⟩

/-- C13. From a started room, no operation adds an id to the turn sequence: after one
operation, and after any number of operations, the game is still started and the turn
sequence is a subsequence of what it was; hence a player removed by a disconnect in a
started game is in no later turn sequence. -/
theorem C13_turn_sequence_only_shrinks (r : Room) (hg : r.GameStarted = true) :
    (∀ r1, Step r r1 → r1.GameStarted = true ∧ r1.PlayerOrder.Sublist r.PlayerOrder) ∧
    (∀ r1, Relation.ReflTransGen Step r r1 →
      r1.GameStarted = true ∧ r1.PlayerOrder.Sublist r.PlayerOrder) ∧
    (∀ (pid : String) (out : DisconnectOutcome) (r2 : Room),
      disconnect pid r = some out → Relation.ReflTransGen Step out.room r2 →
        pid ∉ out.room.PlayerOrder ∧ pid ∉ r2.PlayerOrder) := by
  refine ⟨fun r1 hs => step_started hs hg, fun r1 hs => steps_started hs hg, ?_⟩
  intro pid out r2 hd hs
  obtain ⟨wc, _, ho, _, hgs, _⟩ := disconnect_frame hd
  have hnot : pid ∉ out.room.PlayerOrder := by
    rw [ho, List.mem_filter]
    rintro ⟨_, hne⟩
    simp at hne
  refine ⟨hnot, ?_⟩
  have hsub := (steps_started hs (by rw [hgs]; exact hg)).2
  exact fun hmem => hnot (hsub.subset hmem)

/-- C13 at the started three-player game. -/
theorem C13_turn_sequence_only_shrinks_witness :
    game3.GameStarted = true ∧
    (∀ r1, Step game3 r1 → r1.GameStarted = true ∧ r1.PlayerOrder.Sublist game3.PlayerOrder) ∧
    (∀ r1, Relation.ReflTransGen Step game3 r1 →
      r1.GameStarted = true ∧ r1.PlayerOrder.Sublist game3.PlayerOrder) ∧
    (∀ (pid : String) (out : DisconnectOutcome) (r2 : Room),
      disconnect pid game3 = some out → Relation.ReflTransGen Step out.room r2 →
        pid ∉ out.room.PlayerOrder ∧ pid ∉ r2.PlayerOrder) :=
  ⟨by decide, C13_turn_sequence_only_shrinks game3 (by decide)⟩

/-- C12. In a started room, a join request whose id and token match no roster entry,
with `playerID` a generated id that is not a roster key, succeeds: one new viewer entry
under `playerID` with `token` is added after the existing roster entries, which are
unchanged, `is_viewer = true` is returned, and the turn sequence and the current index
are unchanged; the outcome is that of the same request without credentials. -/
theorem C12_join_started_room (r : Room) (req : JoinRequest) (playerID token : String)
    (hg : r.GameStarted = true)
    (hno : ∀ p ∈ r.Players, ¬ (p.ID = req.PlayerID ∧ p.Token = req.Token))
    (hfresh : playerID ∉ rosterIds r.Players) :
    JoinRoom req playerID token r = Except.ok
      ({ r with
          Players := r.Players ++
            [Player.mk playerID (displayName req.PlayerName) token false [] 0 true none] },
       { room_code := req.RoomCode, player_id := playerID, token := token,
         is_viewer := true, last_event_id := r.Events.length }) ∧
    JoinRoom req playerID token r =
      JoinRoom { req with PlayerID := "", Token := "" } playerID token r := by
  have hrm : rejoinMatch req r = none := by
    cases hm : rejoinMatch req r with
    | none => rfl
    | some p =>
      obtain ⟨hp, hid, htok, -, -⟩ := rejoinMatch_some hm
      exact absurd ⟨hid, htok⟩ (hno p hp)
  have hrm0 : rejoinMatch { req with PlayerID := "", Token := "" } r = none := rfl
  constructor
  · unfold JoinRoom
    simp only [hrm]
    rw [if_pos hg, setPlayer_fresh _ _ hfresh]
  · unfold JoinRoom
    simp only [hrm, hrm0]

/-- C12 at the started three-player game: a request naming `b` with a wrong token gets
a new viewer `v`. -/
theorem C12_join_started_room_witness :
    JoinRoom wrongTokenB "v" "tv" game3 = Except.ok
      ({ game3 with
          Players := game3.Players ++
            [Player.mk "v" (displayName wrongTokenB.PlayerName) "tv" false [] 0 true none] },
       { room_code := wrongTokenB.RoomCode, player_id := "v", token := "tv",
         is_viewer := true, last_event_id := game3.Events.length }) ∧
    JoinRoom wrongTokenB "v" "tv" game3 =
      JoinRoom { wrongTokenB with PlayerID := "", Token := "" } "v" "tv" game3 :=
  C12_join_started_room game3 wrongTokenB "v" "tv" (by decide) (by decide) (by decide)

/-- Removing `pid` from a duplicate-free list moves an element other than `pid` one
position down when `pid` stood before it, and leaves it in place otherwise. -/
theorem getElem?_filter_ne (l : List String) (pid : String) (hnd : l.Nodup) :
    ∀ (i : Nat) (x : String), l[i]? = some x → x ≠ pid →
      (l.filter (fun y => y != pid))[if l.indexOf pid < i then i - 1 else i]? = some x := by
  induction l with
  | nil => intro i x hx; simp at hx
  | cons a t ih =>
    rw [List.nodup_cons] at hnd
    intro i x hx hne
    cases i with
    | zero =>
      simp only [List.getElem?_cons_zero, Option.some.injEq] at hx
      subst hx
      have hk : (a != pid) = true := by simpa using hne
      simp [List.filter_cons, hk]
    | succ j =>
      rw [List.getElem?_cons_succ] at hx
      by_cases hap : a = pid
      · subst hap
        have hdrop : ((a :: t).filter (fun y => y != a)) = t := by
          rw [List.filter_cons]
          simp only [bne_self_eq_false, Bool.false_eq_true, if_false]
          exact filter_ne_of_not_mem t a hnd.1
        rw [hdrop]
        have hidx : List.indexOf a (a :: t) = 0 := by simp
        rw [hidx, if_pos (by omega)]
        exact hx
      · have hk : (a != pid) = true := by simpa using hap
        have hidx : List.indexOf pid (a :: t) = List.indexOf pid t + 1 := by
          rw [List.indexOf_cons_ne _ hap]
        rw [List.filter_cons, hk, if_pos rfl, hidx]
        have := ih hnd.2 j x hx hne
        by_cases hlt : List.indexOf pid t < j
        · rw [if_pos hlt] at this
          rw [if_pos (by omega)]
          have hj : j + 1 - 1 = (j - 1) + 1 := by omega
          rw [hj, List.getElem?_cons_succ]
          exact this
        · rw [if_neg hlt] at this
          rw [if_neg (by omega), List.getElem?_cons_succ]
          exact this

theorem indexOrder_natCast (l : List String) (k : Nat) : indexOrder l (k : Int) = l[k]? := by
  unfold indexOrder
  rw [if_pos (by omega)]
  simp

theorem wasCurrentPlayer_of_other {r : Room} {pid cur : String}
    (hcur : indexOrder r.PlayerOrder r.CurrentPlayerIdx = some cur) (hne : cur ≠ pid) :
    wasCurrentPlayer r pid = some false := by
  obtain ⟨h0, hlt, _⟩ := indexOrder_some hcur
  unfold wasCurrentPlayer
  rw [if_pos ⟨by omega, hlt⟩, hcur]
  simp [hne]

theorem wasCurrentPlayer_of_current {r : Room} {pid : String}
    (hcur : indexOrder r.PlayerOrder r.CurrentPlayerIdx = some pid) :
    wasCurrentPlayer r pid = some true := by
  obtain ⟨h0, hlt, _⟩ := indexOrder_some hcur
  unfold wasCurrentPlayer
  rw [if_pos ⟨by omega, hlt⟩, hcur]
  simp

/-- The index after the disconnect of a player other than the current one. -/
theorem reindex_other {order : List String} {idx : Int} {pid cur : String}
    (hnd : order.Nodup) (hcur : indexOrder order idx = some cur) (hne : cur ≠ pid) :
    reindex false (leavingPlayerIdx order pid) idx (order.filter (fun x => x != pid)).length
      = ((if order.indexOf pid < idx.toNat then idx.toNat - 1 else idx.toNat : Nat) : Int) := by
  obtain ⟨h0, hlt, hget⟩ := indexOrder_some hcur
  unfold reindex
  rw [if_neg (by simp)]
  by_cases hmem : pid ∈ order
  · have hlen := length_filter_ne_of_mem _ _ hnd hmem
    have hj : List.indexOf pid order < order.length := List.indexOf_lt_length.mpr hmem
    have hgetp : order[List.indexOf pid order] = pid := List.getElem_indexOf hj
    have hneq : order.indexOf pid ≠ idx.toNat := by
      intro he
      have hi : idx.toNat < order.length := by omega
      rw [List.getElem?_eq_getElem hi, Option.some.injEq] at hget
      apply hne
      rw [← hget, ← hgetp]
      congr 1
      exact he.symm
    rw [leavingPlayerIdx_of_mem _ _ hmem, hlen]
    by_cases hb : order.indexOf pid < idx.toNat
    · rw [if_pos ⟨by omega, by omega⟩, if_pos hb]
      omega
    · rw [if_neg (by omega), if_neg (by omega), if_neg (by omega), if_neg hb]
      omega
  · rw [filter_ne_of_not_mem _ _ hmem, leavingPlayerIdx_of_not_mem _ _ hmem]
    have hidx : ¬ order.indexOf pid < idx.toNat := by
      have : order.indexOf pid = order.length := List.indexOf_eq_length.mpr hmem
      omega
    rw [if_neg (by omega), if_neg (by omega), if_neg (by omega), if_neg hidx]
    omega

/-- C14. In a room whose turn sequence is duplicate-free and whose current index points
at the player `cur`, the disconnect of a session of any other id `pid` (earlier in the
sequence, later in it, or not in it) completes and leaves `cur` the player at the
current index; rolls-left, the dice and the event log are unchanged, so no
`TURN_CHANGED` is appended. -/
theorem C14_other_player_disconnects (r : Room) (pid cur : String)
    (hnd : r.PlayerOrder.Nodup)
    (hcur : indexOrder r.PlayerOrder r.CurrentPlayerIdx = some cur) (hne : cur ≠ pid) :
    ∃ out, disconnect pid r = some out ∧
      indexOrder out.room.PlayerOrder out.room.CurrentPlayerIdx = some cur ∧
      out.room.RollsLeft = r.RollsLeft ∧ out.room.dice = r.dice ∧
      out.room.Events = r.Events := by
  have hwc := wasCurrentPlayer_of_other hcur hne
  have hann : announceTurn r.GameStarted false (leaveTurnOrder pid false
      { r with Players := modifyPlayer r.Players pid (fun p => { p with Conn := none }) })
      = some (leaveTurnOrder pid false
      { r with Players := modifyPlayer r.Players pid (fun p => { p with Conn := none }) }) := by
    unfold announceTurn
    rw [if_neg (by simp)]
  have hd : disconnect pid r = some (teardown (r.HostID == pid) r.GameStarted
      (remainingPlayers r.GameStarted (leaveTurnOrder pid false
        { r with Players := modifyPlayer r.Players pid (fun p => { p with Conn := none }) }).Players)
      (leaveTurnOrder pid false
        { r with Players := modifyPlayer r.Players pid (fun p => { p with Conn := none }) })) := by
    have hwc0 : wasCurrentPlayer
        { r with Players := modifyPlayer r.Players pid (fun p => { p with Conn := none }) } pid
        = some false := hwc
    unfold disconnect handlePlayerDisconnect
    rw [hwc0]
    simp only
    rw [hann]
  refine ⟨_, hd, ?_⟩
  obtain ⟨tord, ti, trl, td, te, -⟩ := teardown_frame (r.HostID == pid) r.GameStarted
    (remainingPlayers r.GameStarted (leaveTurnOrder pid false
      { r with Players := modifyPlayer r.Players pid (fun p => { p with Conn := none }) }).Players)
    (leaveTurnOrder pid false
      { r with Players := modifyPlayer r.Players pid (fun p => { p with Conn := none }) })
  rw [tord, ti, trl, td, te]
  refine ⟨?_, rfl, rfl, rfl⟩
  show indexOrder (r.PlayerOrder.filter (fun x => x != pid))
    (reindex false (leavingPlayerIdx r.PlayerOrder pid) r.CurrentPlayerIdx
      (r.PlayerOrder.filter (fun x => x != pid)).length) = some cur
  rw [reindex_other hnd hcur hne, indexOrder_natCast]
  exact getElem?_filter_ne _ _ hnd _ _ (indexOrder_some hcur).2.2 hne

/-- C14 after `c` scored in the started three-player game: `b` is to move and `c`,
who stands earlier in the turn sequence, disconnects. -/
theorem C14_other_player_disconnects_witness :
    ∃ out, disconnect "c" scored3 = some out ∧
      indexOrder out.room.PlayerOrder out.room.CurrentPlayerIdx = some "b" ∧
      out.room.RollsLeft = scored3.RollsLeft ∧ out.room.dice = scored3.dice ∧
      out.room.Events = scored3.Events :=
  C14_other_player_disconnects scored3 "c" "b" (by decide) (by decide) (by decide)

/-- The player who follows position `idx` cyclically stands, once the player at `idx`
is removed, at position `idx mod (len - 1)`. -/
theorem next_after_removal {order : List String} {idx : Int} {pid : String}
    (hnd : order.Nodup) (hlen : 2 ≤ order.length)
    (hcur : indexOrder order idx = some pid) :
    ∃ nxt, indexOrder order ((idx + 1) % order.length) = some nxt ∧
      indexOrder (order.filter (fun x => x != pid))
        (reindex true (leavingPlayerIdx order pid) idx
          (order.filter (fun x => x != pid)).length) = some nxt ∧
      0 < (order.filter (fun x => x != pid)).length := by
  obtain ⟨h0, hlt, hget⟩ := indexOrder_some hcur
  have hi : idx.toNat < order.length := by omega
  have hmem : pid ∈ order := List.getElem?_mem hget
  have hflen := length_filter_ne_of_mem _ _ hnd hmem
  have hgi : order[idx.toNat] = pid := by
    rw [List.getElem?_eq_getElem hi, Option.some.injEq] at hget
    exact hget
  have hidxof : order.indexOf pid = idx.toNat := by
    rw [← hgi]
    exact List.indexOf_getElem hnd _ hi
  have hpos : 0 < (order.filter (fun x => x != pid)).length := by omega
  have hre : reindex true (leavingPlayerIdx order pid) idx
      (order.filter (fun x => x != pid)).length
      = idx % ((order.filter (fun x => x != pid)).length : Int) := by
    unfold reindex
    rw [if_pos ⟨rfl, hpos⟩]
    exact Int.tmod_eq_emod h0 (by omega)
  rw [hre, hflen]
  by_cases hlast : idx.toNat + 1 < order.length
  · have hk : (idx + 1) % (order.length : Int) = ((idx.toNat + 1 : Nat) : Int) := by
      rw [Int.emod_eq_of_lt (by omega) (by omega)]
      omega
    have hk2 : idx % ((order.length - 1 : Nat) : Int) = ((idx.toNat : Nat) : Int) := by
      rw [Int.emod_eq_of_lt (by omega) (by omega)]
      omega
    refine ⟨order[idx.toNat + 1], ?_, ?_, by omega⟩
    · rw [hk, indexOrder_natCast, List.getElem?_eq_getElem hlast]
    · rw [hk2, indexOrder_natCast]
      have hne : order[idx.toNat + 1] ≠ pid := by
        intro he
        have := (@List.Nodup.getElem_inj_iff _ order hnd (idx.toNat + 1) hlast idx.toNat hi).mp
          (he.trans hgi.symm)
        omega
      have := getElem?_filter_ne order pid hnd (idx.toNat + 1) _
        (List.getElem?_eq_getElem hlast) hne
      rw [hidxof, if_pos (by omega)] at this
      simpa using this
  · have hlen1 : idx.toNat + 1 = order.length := by omega
    have hk : (idx + 1) % (order.length : Int) = ((0 : Nat) : Int) := by
      have : idx + 1 = (order.length : Int) := by omega
      rw [this, Int.emod_self]
      rfl
    have hk2 : idx % ((order.length - 1 : Nat) : Int) = ((0 : Nat) : Int) := by
      have : idx = ((order.length - 1 : Nat) : Int) := by omega
      rw [this, Int.emod_self]
      rfl
    have h0lt : 0 < order.length := by omega
    refine ⟨order[0], ?_, ?_, by omega⟩
    · rw [hk, indexOrder_natCast, List.getElem?_eq_getElem h0lt]
    · rw [hk2, indexOrder_natCast]
      have hne : order[0] ≠ pid := by
        intro he
        have := (@List.Nodup.getElem_inj_iff _ order hnd 0 h0lt idx.toNat hi).mp
          (he.trans hgi.symm)
        omega
      have := getElem?_filter_ne order pid hnd 0 _ (List.getElem?_eq_getElem h0lt) hne
      rw [hidxof, if_neg (by omega)] at this
      exact this

/-- C15. In a started room whose turn sequence is duplicate-free with at least two
members, the disconnect of the current-turn player `pid` completes; the new current
player is `nxt`, the player at position `(index + 1) mod len` of the old sequence;
rolls-left is 3, the dice are `[0,0,0,0,0]`, and exactly one event is appended, a
`TURN_CHANGED` naming `nxt`. -/
theorem C15_current_player_disconnects (r : Room) (pid : String)
    (hg : r.GameStarted = true) (hnd : r.PlayerOrder.Nodup) (hlen : 2 ≤ r.PlayerOrder.length)
    (hcur : indexOrder r.PlayerOrder r.CurrentPlayerIdx = some pid) :
    ∃ out nxt, disconnect pid r = some out ∧
      indexOrder r.PlayerOrder ((r.CurrentPlayerIdx + 1) % r.PlayerOrder.length) = some nxt ∧
      indexOrder out.room.PlayerOrder out.room.CurrentPlayerIdx = some nxt ∧
      out.room.RollsLeft = 3 ∧ out.room.dice = [0, 0, 0, 0, 0] ∧
      out.room.Events = r.Events ++
        [GameEvent.mk ((r.Events.length : Int) + 1) "TURN_CHANGED"
          (Payload.turnChanged nxt 3)] := by
  obtain ⟨nxt, hn1, hn2, hpos⟩ := next_after_removal hnd hlen hcur
  have hwc := wasCurrentPlayer_of_current hcur
  have hann : announceTurn r.GameStarted true (leaveTurnOrder pid true
      { r with Players := modifyPlayer r.Players pid (fun p => { p with Conn := none }) })
      = some (addEvent "TURN_CHANGED" (Payload.turnChanged nxt 3)
        (allocDice [0, 0, 0, 0, 0] { leaveTurnOrder pid true
          { r with Players := modifyPlayer r.Players pid (fun p => { p with Conn := none }) }
            with RollsLeft := 3 })) := by
    unfold announceTurn
    rw [if_pos ⟨hg, rfl, hpos⟩]
    have hn2' : indexOrder (leaveTurnOrder pid true
        { r with Players := modifyPlayer r.Players pid (fun p => { p with Conn := none }) }).PlayerOrder
        (leaveTurnOrder pid true
        { r with Players := modifyPlayer r.Players pid (fun p => { p with Conn := none }) }).CurrentPlayerIdx
        = some nxt := hn2
    rw [hn2']
  have hwc0 : wasCurrentPlayer
      { r with Players := modifyPlayer r.Players pid (fun p => { p with Conn := none }) } pid
      = some true := hwc
  have hd : disconnect pid r = some (teardown (r.HostID == pid) r.GameStarted
      (remainingPlayers r.GameStarted (leaveTurnOrder pid true
        { r with Players := modifyPlayer r.Players pid (fun p => { p with Conn := none }) }).Players)
      (addEvent "TURN_CHANGED" (Payload.turnChanged nxt 3)
        (allocDice [0, 0, 0, 0, 0] { leaveTurnOrder pid true
          { r with Players := modifyPlayer r.Players pid (fun p => { p with Conn := none }) }
            with RollsLeft := 3 }))) := by
    unfold disconnect handlePlayerDisconnect
    rw [hwc0]
    simp only
    rw [hann]
  refine ⟨_, nxt, hd, hn1, ?_⟩
  obtain ⟨tord, ti, trl, td, te, -⟩ := teardown_frame (r.HostID == pid) r.GameStarted
    (remainingPlayers r.GameStarted (leaveTurnOrder pid true
      { r with Players := modifyPlayer r.Players pid (fun p => { p with Conn := none }) }).Players)
    (addEvent "TURN_CHANGED" (Payload.turnChanged nxt 3)
      (allocDice [0, 0, 0, 0, 0] { leaveTurnOrder pid true
        { r with Players := modifyPlayer r.Players pid (fun p => { p with Conn := none }) }
          with RollsLeft := 3 }))
  rw [tord, ti, trl, td, te]
  exact ⟨hn2, rfl, allocDice_dice _ _, rfl⟩

/-- C15 at the started three-player game: the current player `c` disconnects and `b`,
who followed `c`, is to move. -/
theorem C15_current_player_disconnects_witness :
    ∃ out nxt, disconnect "c" game3 = some out ∧
      indexOrder game3.PlayerOrder ((game3.CurrentPlayerIdx + 1) % game3.PlayerOrder.length)
        = some nxt ∧
      indexOrder out.room.PlayerOrder out.room.CurrentPlayerIdx = some nxt ∧
      out.room.RollsLeft = 3 ∧ out.room.dice = [0, 0, 0, 0, 0] ∧
      out.room.Events = game3.Events ++
        [GameEvent.mk ((game3.Events.length : Int) + 1) "TURN_CHANGED"
          (Payload.turnChanged nxt 3)] :=
  C15_current_player_disconnects game3 "c" (by decide) (by decide) (by decide) (by decide)

theorem modifyPlayer_mem_of_id {ps : List Player} {id : String} (f : Player → Player)
    {p : Player} (hp : p ∈ ps) (hid : p.ID = id) : f p ∈ modifyPlayer ps id f := by
  unfold modifyPlayer
  rw [List.mem_map]
  exact ⟨p, hp, by rw [if_pos (by simpa using hid)]⟩

theorem teardown_mem_cleared (isHost gs : Bool) (remaining : Nat) (r : Room) {x : Player}
    (hx : x ∈ r.Players) (hc : x.Conn = none) :
    x ∈ (teardown isHost gs remaining r).room.Players := by
  have hxc : ({ x with Conn := none } : Player) = x := by
    cases x
    simp only at hc
    subst hc
    rfl
  unfold teardown
  split
  · show x ∈ r.Players.map (fun p => { p with Conn := none })
    rw [List.mem_map]
    exact ⟨x, hx, hxc⟩
  · split
    · show x ∈ (match r.Players with
          | [] => []
          | p :: rest => { p with Conn := none } :: rest)
      cases hps : r.Players with
      | nil => rw [hps] at hx; cases hx
      | cons p rest =>
        rw [hps] at hx
        simp only [List.mem_cons] at hx ⊢
        rcases hx with rfl | hx
        · exact Or.inl hxc.symm
        · exact Or.inr hx
    · exact hx

theorem deletePlayer_modifyPlayer (ps : List Player) (id : String) (f : Player → Player)
    (hf : ∀ p, (f p).ID = p.ID) :
    deletePlayer (modifyPlayer ps id f) id = deletePlayer ps id := by
  unfold deletePlayer modifyPlayer
  induction ps with
  | nil => rfl
  | cons p ps ih =>
    by_cases hp : p.ID = id
    · simp only [List.map_cons, hp, beq_self_eq_true, if_true, List.filter_cons, hf, bne_self_eq_false,
        Bool.false_eq_true, if_false]
      exact ih
    · have h1 : (p.ID == id) = false := by simpa using hp
      have h2 : (p.ID != id) = true := by simpa using hp
      simp only [List.map_cons, h1, Bool.false_eq_true, if_false, List.filter_cons, h2, if_true]
      rw [ih]

/-- C16. In every reachable room the disconnect of a session of `pid` completes; the new
turn sequence is the old one without `pid`, the other ids keeping their relative order;
before the start of the game the roster entry under `pid` is deleted and nothing else
of the roster changes; in a started game the roster keeps its keys and the entry of
`pid` stays with its scores, total and token and with no connection handle. Hence the
entry is removed exactly when the game has not started. -/
theorem C16_disconnect_effect (r : Room) (h : Reachable r) (pid : String) :
    ∃ out, disconnect pid r = some out ∧
      out.room.PlayerOrder = r.PlayerOrder.filter (fun x => x != pid) ∧
      pid ∉ out.room.PlayerOrder ∧
      out.room.PlayerOrder.Sublist r.PlayerOrder ∧
      (r.GameStarted = false →
        out.room.Players = deletePlayer r.Players pid ∧ pid ∉ rosterIds out.room.Players) ∧
      (r.GameStarted = true →
        rosterIds out.room.Players = rosterIds r.Players ∧
        ∀ p ∈ r.Players, p.ID = pid → ∃ p1 ∈ out.room.Players,
          p1.ID = pid ∧ p1.Scores = p.Scores ∧ p1.TotalScore = p.TotalScore ∧
          p1.Token = p.Token ∧ p1.Conn = none) ∧
      (pid ∈ rosterIds r.Players →
        (pid ∉ rosterIds out.room.Players ↔ r.GameStarted = false)) := by
  obtain ⟨out, hout⟩ := disconnect_total (reachable_inv h) pid
  obtain ⟨wc, _, ho, _, _, _⟩ := disconnect_frame hout
  obtain ⟨wc1, r2, _, ha, hteq⟩ := disconnect_some hout
  obtain ⟨ap, _⟩ := announceTurn_frame ha
  have hpre : r.GameStarted = false →
      out.room.Players = deletePlayer r.Players pid ∧ pid ∉ rosterIds out.room.Players := by
    intro hg
    have hp2 : r2.Players = deletePlayer r.Players pid := by
      rw [ap]
      show (leaveTurnOrder pid wc1 _).Players = _
      unfold leaveTurnOrder
      simp only [hg, Bool.not_false, if_true]
      exact deletePlayer_modifyPlayer _ _ _ (fun _ => rfl)
    have hout2 : out.room.Players = r2.Players := by
      rw [hteq]
      unfold teardown
      simp [hg]
    rw [hout2, hp2]
    refine ⟨rfl, ?_⟩
    rw [rosterIds_deletePlayer, List.mem_filter]
    rintro ⟨_, hne⟩
    simp at hne
  have hpost : r.GameStarted = true →
      rosterIds out.room.Players = rosterIds r.Players ∧
      ∀ p ∈ r.Players, p.ID = pid → ∃ p1 ∈ out.room.Players,
        p1.ID = pid ∧ p1.Scores = p.Scores ∧ p1.TotalScore = p.TotalScore ∧
        p1.Token = p.Token ∧ p1.Conn = none := by
    intro hg
    have hp2 : r2.Players = modifyPlayer (modifyPlayer r.Players pid
        (fun p => { p with Conn := none })) pid (fun p => { p with Conn := none }) := by
      rw [ap]
      show (leaveTurnOrder pid wc1 _).Players = _
      unfold leaveTurnOrder
      simp only [hg, Bool.not_true, Bool.false_eq_true, if_false]
    have hclear : ∀ ps : List Player,
        rosterIds (modifyPlayer ps pid (fun p => { p with Conn := none })) = rosterIds ps :=
      fun ps => rosterIds_modifyPlayer ps pid (fun p => { p with Conn := none }) (fun _ => rfl)
    constructor
    · rw [hteq, teardown_rosterIds, hp2, hclear, hclear]
    · intro p hp hid
      refine ⟨{ p with Conn := none }, ?_, hid, rfl, rfl, rfl, rfl⟩
      rw [hteq]
      apply teardown_mem_cleared _ _ _ _ _ rfl
      rw [hp2]
      have h1 : ({ p with Conn := none } : Player) ∈
          modifyPlayer r.Players pid (fun p => { p with Conn := none }) :=
        modifyPlayer_mem_of_id (fun p => { p with Conn := none }) hp hid
      have h2 := modifyPlayer_mem_of_id (fun p => { p with Conn := none }) h1 hid
      exact h2
  refine ⟨out, hout, ho, ?_, ?_, hpre, hpost, ?_⟩
  · rw [ho, List.mem_filter]
    rintro ⟨_, hne⟩
    simp at hne
  · rw [ho]
    exact List.filter_sublist _
  · intro hmem
    constructor
    · intro hnot
      cases hg : r.GameStarted with
      | false => rfl
      | true =>
        rw [(hpost hg).1] at hnot
        exact absurd hmem hnot
    · intro hg
      exact (hpre hg).2

/-- C16 at the started three-player game: `b` disconnects. -/
theorem C16_disconnect_effect_witness :
    ∃ out, disconnect "b" game3 = some out ∧
      out.room.PlayerOrder = game3.PlayerOrder.filter (fun x => x != "b") ∧
      "b" ∉ out.room.PlayerOrder ∧
      out.room.PlayerOrder.Sublist game3.PlayerOrder ∧
      (game3.GameStarted = false →
        out.room.Players = deletePlayer game3.Players "b" ∧
          "b" ∉ rosterIds out.room.Players) ∧
      (game3.GameStarted = true →
        rosterIds out.room.Players = rosterIds game3.Players ∧
        ∀ p ∈ game3.Players, p.ID = "b" → ∃ p1 ∈ out.room.Players,
          p1.ID = "b" ∧ p1.Scores = p.Scores ∧ p1.TotalScore = p.TotalScore ∧
          p1.Token = p.Token ∧ p1.Conn = none) ∧
      ("b" ∈ rosterIds game3.Players →
        ("b" ∉ rosterIds out.room.Players ↔ game3.GameStarted = false)) :=
  C16_disconnect_effect game3 game3_reachable "b"

/-! ### C17: the registry after the host disconnects -/

theorem lookup_mapDelete {β : Type} (m : List (String × β)) (k : String) :
    (mapDelete m k).lookup k = none := by
  apply lookup_none_of_keys
  intro e he
  unfold mapDelete at he
  rw [List.mem_filter] at he
  simpa using he.2

theorem lookup_mapSet {β : Type} (m : List (String × β)) (k : String) (v : β) :
    (mapSet m k v).lookup k = some v := by
  unfold mapSet
  induction m with
  | nil => simp [List.lookup]
  | cons e m ih =>
    obtain ⟨a, b⟩ := e
    by_cases hak : a = k
    · subst hak
      simp [List.lookup]
    · have h1 : (a == k) = false := by simpa using hak
      have h2 : (k == a) = false := by simpa using fun h : k = a => hak h.symm
      simp only [List.any_cons, h1, Bool.false_or] at ih ⊢
      split
      · rename_i hany
        rw [if_pos hany] at ih
        simp only [List.map_cons, h1, Bool.false_eq_true, if_false, List.lookup_cons, h2]
        exact ih
      · rename_i hany
        rw [if_neg hany] at ih
        simp only [List.cons_append, List.lookup_cons, h2]
        exact ih

/-- A join request for a code that the registry does not hold fails with
`RoomNotFound`. -/
theorem JoinRoom_not_found (gm : GameManager) (req : JoinRequest) (playerID token : String)
    (h : gm.lookup req.RoomCode = none) :
    gm.JoinRoom req playerID token = Except.error JoinError.RoomNotFound := by
  unfold GameManager.JoinRoom
  rw [h]

theorem watched_reachable : Reachable watched :=
  run_reachable lobby1_reachable
    (show run [Op.join (joinAs "Bob") "b" "tb", Op.connect "a" "ta" 1, Op.connect "b" "tb" 2,
        Op.start false "a", Op.join (joinAs "Vic") "v" "tv", Op.connect "v" "tv" 3] lobby1
      = some watched by decide)

/-- Once the handle of `pid` is cleared, the entries that hold a live connection are
the entries other than `pid` that held one. -/
theorem connected_after_clear (ps : List Player) (pid : String) :
    ((modifyPlayer ps pid (fun p => { p with Conn := none })).filter
      (fun p => p.Conn.isSome)).length = connectedOthers ps pid := by
  unfold modifyPlayer connectedOthers
  induction ps with
  | nil => rfl
  | cons p ps ih =>
    simp only [List.map_cons, List.filter_cons]
    by_cases hp : p.ID = pid
    · have h1 : (p.ID == pid) = true := by simpa using hp
      have h2 : (p.ID != pid) = false := by simpa using hp
      simp only [h1, h2, if_true, Option.isSome_none, Bool.false_eq_true, if_false,
        Bool.false_and]
      exact ih
    · have h1 : (p.ID == pid) = false := by simpa using hp
      have h2 : (p.ID != pid) = true := by simpa using hp
      simp only [h1, h2, Bool.false_eq_true, if_false, Bool.true_and]
      split
      · simp only [List.length_cons]
        rw [ih]
      · exact ih

/-- Clearing the handle of `pid` twice is clearing it once. -/
theorem clear_clear (ps : List Player) (pid : String) :
    modifyPlayer (modifyPlayer ps pid (fun p => { p with Conn := none })) pid
      (fun p => { p with Conn := none })
      = modifyPlayer ps pid (fun p => { p with Conn := none }) := by
  unfold modifyPlayer
  rw [List.map_map]
  apply List.map_congr_left
  intro p _
  simp only [Function.comp]
  by_cases hp : p.ID = pid
  · have h1 : (p.ID == pid) = true := by simpa using hp
    simp only [h1, if_true]
  · have h1 : (p.ID == pid) = false := by simpa using hp
    simp only [h1, Bool.false_eq_true, if_false]

/-- The count `remainingPlayers` of a disconnect from a started room. -/
theorem remaining_started (r : Room) (pid : String) (wc : Bool) (hg : r.GameStarted = true) :
    remainingPlayers r.GameStarted (leaveTurnOrder pid wc
      { r with Players := modifyPlayer r.Players pid (fun p => { p with Conn := none }) }).Players
      = connectedOthers r.Players pid := by
  unfold remainingPlayers leaveTurnOrder
  simp only [hg, if_true, Bool.not_true, Bool.false_eq_true, if_false]
  rw [clear_clear, connected_after_clear]

/-- A room changed in place is found changed under its code. -/
theorem lookup_store (gm : GameManager) (room room1 : Room)
    (h : gm.lookup room.Code = some room) : (gm.store room room1).lookup room.Code = some room1 := by
  unfold GameManager.lookup GameManager.store at *
  simp only
  generalize gm.rooms = m at h
  induction m with
  | nil => cases h
  | cons e m ih =>
    obtain ⟨a, b⟩ := e
    rw [List.lookup_cons] at h
    cases hk : (room.Code == a) with
    | true =>
      rw [hk] at h
      simp only [Option.some.injEq] at h
      subst h
      have hka : (a == b.Code) = true := by
        rw [beq_iff_eq] at hk ⊢
        exact hk.symm
      simp only [List.map_cons, hka, beq_self_eq_true, Bool.and_self, if_true,
        List.lookup_cons, hk]
    | false =>
      rw [hk] at h
      have hfst : (if (a == room.Code && b == room) = true then (a, room1) else (a, b)).1 = a := by
        split <;> rfl
      rw [List.map_cons, List.lookup_cons]
      simp only
      rw [hfst, hk]
      exact ih h

/-- A room changed in place leaves the codes of the registry as they were. -/
theorem keys_store (gm : GameManager) (room room1 : Room) :
    (gm.store room room1).rooms.map Prod.fst = gm.rooms.map Prod.fst := by
  unfold GameManager.store
  simp only [List.map_map]
  apply List.map_congr_left
  intro e _
  simp only [Function.comp]
  split <;> rfl

/-- Go `m[k] = v` for a key the map holds keeps the keys. -/
theorem keys_mapSet {β : Type} (m : List (String × β)) (k : String) (v v0 : β)
    (h : m.lookup k = some v0) :
    (mapSet m k v).map Prod.fst = m.map Prod.fst := by
  have hany : m.any (fun e => e.1 == k) = true := by
    cases ha : m.any (fun e => e.1 == k) with
    | true => rfl
    | false =>
      have hn : m.lookup k = none := by
        apply lookup_none_of_keys
        intro e he
        have := List.any_eq_false.mp ha e he
        simpa using this
      rw [hn] at h
      cases h
  unfold mapSet
  rw [if_pos hany, List.map_map]
  apply List.map_congr_left
  intro e _
  simp only [Function.comp]
  by_cases he : e.1 = k
  · have h1 : (e.1 == k) = true := by simpa using he
    simp only [h1, if_true]
    exact he.symm
  · have h1 : (e.1 == k) = false := by simpa using he
    simp only [h1, Bool.false_eq_true, if_false]

/-- C17. For a reachable room registered under its code, the disconnect of the host
completes, and: when the game has started, the room ends with reason
`host_disconnected`, every roster entry has its connection handle cleared, the registry
no longer holds the code and a join request for the code fails with `RoomNotFound`;
when the game has not started, the room does not end, the registry holds the room
under its code and the codes of the registry are the same as before. -/
theorem C17_host_disconnects (gm : GameManager) (r : Room) (h : Reachable r)
    (hreg : gm.lookup r.Code = some r) :
    ∃ out gm1, disconnect r.HostID r = some out ∧
      gm.handlePlayerDisconnect r r.HostID = some gm1 ∧
      (r.GameStarted = true →
        out.roomEnded = some "host_disconnected" ∧
        (∀ p ∈ out.room.Players, p.Conn = none) ∧
        gm1.lookup r.Code = none ∧
        ∀ (req : JoinRequest) (playerID token : String), req.RoomCode = r.Code →
          gm1.JoinRoom req playerID token = Except.error JoinError.RoomNotFound) ∧
      (r.GameStarted = false →
        out.roomEnded = none ∧ gm1.lookup r.Code = some out.room ∧
        gm1.rooms.map Prod.fst = gm.rooms.map Prod.fst) := by
  obtain ⟨out, hout⟩ := disconnect_total (reachable_inv h) r.HostID
  obtain ⟨wc, r2, _, _, hteq⟩ := disconnect_some hout
  cases hg : r.GameStarted with
  | true =>
    have hended : out.roomEnded = some "host_disconnected" := by
      rw [hteq, hg]
      unfold teardown
      rw [if_pos (by simp)]
    have hgm : gm.handlePlayerDisconnect r r.HostID
        = some { rooms := mapDelete gm.rooms r.Code } := by
      unfold GameManager.handlePlayerDisconnect
      rw [hout]
      simp only
      rw [if_pos (by rw [hended]; rfl)]
    refine ⟨out, _, hout, hgm, ?_, ?_⟩
    · intro _
      refine ⟨hended, ?_, lookup_mapDelete _ _, ?_⟩
      · intro p hp
        rw [hteq, hg] at hp
        unfold teardown at hp
        rw [if_pos (by simp)] at hp
        have hp : p ∈ r2.Players.map (fun p => { p with Conn := none }) := hp
        rw [List.mem_map] at hp
        obtain ⟨q, _, rfl⟩ := hp
        rfl
      · intro req playerID token hcode
        apply JoinRoom_not_found
        rw [hcode]
        exact lookup_mapDelete _ _
    · intro hf
      cases hf
  | false =>
    have hended : out.roomEnded = none := by
      rw [hteq, hg]
      unfold teardown
      rw [if_neg (by simp), if_neg (by simp)]
    have hgm : gm.handlePlayerDisconnect r r.HostID = some (gm.store r out.room) := by
      unfold GameManager.handlePlayerDisconnect
      rw [hout]
      simp only
      rw [if_neg (by rw [hended]; simp)]
    refine ⟨out, _, hout, hgm, ?_, ?_⟩
    · intro hf
      cases hf
    · intro _
      exact ⟨hended, lookup_store gm r out.room hreg, keys_store gm r out.room⟩

/-- C17 at the started three-player game held by its registry: the host `a`
disconnects. -/
theorem C17_host_disconnects_witness :
    ∃ out gm1, disconnect game3.HostID game3 = some out ∧
      game3Registry.handlePlayerDisconnect game3 game3.HostID = some gm1 ∧
      (game3.GameStarted = true →
        out.roomEnded = some "host_disconnected" ∧
        (∀ p ∈ out.room.Players, p.Conn = none) ∧
        gm1.lookup game3.Code = none ∧
        ∀ (req : JoinRequest) (playerID token : String), req.RoomCode = game3.Code →
          gm1.JoinRoom req playerID token = Except.error JoinError.RoomNotFound) ∧
      (game3.GameStarted = false →
        out.roomEnded = none ∧ gm1.lookup game3.Code = some out.room ∧
        gm1.rooms.map Prod.fst = game3Registry.rooms.map Prod.fst) :=
  C17_host_disconnects game3Registry game3 game3_reachable (by decide)

/-! ### C18: one connection left -/

/-- C18, amended. For a reachable room registered under its code, a disconnect
completes, and: when the game has started and the departing player is not the host,
the room ends with reason `insufficient_players` and leaves the registry if and only
if exactly one roster entry other than the departing one, viewer or not, holds a live
connection, and otherwise the room does not end and stays registered; when the game
has not started, the room does not end and stays registered, whoever leaves. -/
theorem C18_one_connection_left (gm : GameManager) (r : Room) (h : Reachable r)
    (hreg : gm.lookup r.Code = some r) (pid : String) :
    ∃ out gm1, disconnect pid r = some out ∧
      gm.handlePlayerDisconnect r pid = some gm1 ∧
      (r.GameStarted = true → r.HostID ≠ pid →
        ((out.roomEnded = some "insufficient_players" ∧ gm1.lookup r.Code = none) ↔
          connectedOthers r.Players pid = 1) ∧
        (connectedOthers r.Players pid ≠ 1 →
          out.roomEnded = none ∧ gm1.lookup r.Code = some out.room)) ∧
      (r.GameStarted = false →
        out.roomEnded = none ∧ gm1.lookup r.Code = some out.room ∧
        gm1.rooms.map Prod.fst = gm.rooms.map Prod.fst) := by
  obtain ⟨out, hout⟩ := disconnect_total (reachable_inv h) pid
  obtain ⟨wc, r2, _, _, hteq⟩ := disconnect_some hout
  have hgmEnd : out.roomEnded.isSome = true →
      gm.handlePlayerDisconnect r pid = some { rooms := mapDelete gm.rooms r.Code } := by
    intro he
    unfold GameManager.handlePlayerDisconnect
    rw [hout]
    simp only
    rw [if_pos he]
  have hgmKeep : out.roomEnded = none →
      gm.handlePlayerDisconnect r pid = some (gm.store r out.room) := by
    intro he
    unfold GameManager.handlePlayerDisconnect
    rw [hout]
    simp only
    rw [if_neg (by rw [he]; simp)]
  cases hg : r.GameStarted with
  | false =>
    have hended : out.roomEnded = none := by
      rw [hteq, hg]
      unfold teardown
      rw [if_neg (by simp), if_neg (by simp)]
    refine ⟨out, _, hout, hgmKeep hended, ?_, ?_⟩
    · intro hf
      cases hf
    · intro _
      exact ⟨hended, lookup_store gm r out.room hreg, keys_store gm r out.room⟩
  | true =>
    have hrem := remaining_started r pid wc hg
    rw [hrem, hg] at hteq
    by_cases hone : connectedOthers r.Players pid = 1
    · by_cases hhost : r.HostID = pid
      · have hended : out.roomEnded = some "host_disconnected" := by
          rw [hteq]
          unfold teardown
          rw [if_pos (by simpa using hhost)]
        refine ⟨out, _, hout, hgmEnd (by rw [hended]; rfl), ?_, ?_⟩
        · intro _ hne
          exact absurd hhost hne
        · intro hf
          cases hf
      · have hended : out.roomEnded = some "insufficient_players" := by
          rw [hteq]
          unfold teardown
          rw [if_neg (by simpa using hhost), if_pos ⟨hone, rfl⟩]
        refine ⟨out, _, hout, hgmEnd (by rw [hended]; rfl), ?_, ?_⟩
        · intro _ _
          refine ⟨⟨fun _ => hone, fun _ => ⟨hended, lookup_mapDelete _ _⟩⟩, ?_⟩
          intro hne
          exact absurd hone hne
        · intro hf
          cases hf
    · by_cases hhost : r.HostID = pid
      · have hended : out.roomEnded = some "host_disconnected" := by
          rw [hteq]
          unfold teardown
          rw [if_pos (by simpa using hhost)]
        refine ⟨out, _, hout, hgmEnd (by rw [hended]; rfl), ?_, ?_⟩
        · intro _ hne
          exact absurd hhost hne
        · intro hf
          cases hf
      · have hended : out.roomEnded = none := by
          rw [hteq]
          unfold teardown
          rw [if_neg (by simpa using hhost), if_neg (by simp [hone])]
        refine ⟨out, _, hout, hgmKeep hended, ?_, ?_⟩
        · intro _ _
          refine ⟨⟨?_, fun h1 => absurd h1 hone⟩, ?_⟩
          · intro hc
            rw [hended] at hc
            cases hc.1
          · intro _
            exact ⟨hended, lookup_store gm r out.room hreg⟩
        · intro hf
          cases hf

/-- C18 at the watched game held by its registry: the viewer `v` disconnects. -/
theorem C18_one_connection_left_witness :
    ∃ out gm1, disconnect "v" watched = some out ∧
      watchedRegistry.handlePlayerDisconnect watched "v" = some gm1 ∧
      (watched.GameStarted = true → watched.HostID ≠ "v" →
        ((out.roomEnded = some "insufficient_players" ∧ gm1.lookup watched.Code = none) ↔
          connectedOthers watched.Players "v" = 1) ∧
        (connectedOthers watched.Players "v" ≠ 1 →
          out.roomEnded = none ∧ gm1.lookup watched.Code = some out.room)) ∧
      (watched.GameStarted = false →
        out.roomEnded = none ∧ gm1.lookup watched.Code = some out.room ∧
        gm1.rooms.map Prod.fst = watchedRegistry.rooms.map Prod.fst) :=
  C18_one_connection_left watchedRegistry watched watched_reachable (by decide) "v"

set_option maxRecDepth 100000 in
/-- C18 as stated fails at the watched game: the non-host player `b` disconnects from
the started room, after which the host `a` is the one connected participant who is not
a viewer, yet the room does not end and the registry still holds it, because the
connected viewer `v` is counted too. -/
theorem C18_counterexample :
    Reachable watched ∧ watched.GameStarted = true ∧ watched.HostID ≠ "b" ∧
    watchedRegistry.lookup watched.Code = some watched ∧
    ∃ out gm1, disconnect "b" watched = some out ∧
      watchedRegistry.handlePlayerDisconnect watched "b" = some gm1 ∧
      connectedActive out.room.Players = 1 ∧
      out.roomEnded = none ∧
      gm1.lookup watched.Code = some out.room :=
  ⟨watched_reachable, by decide, by decide, by decide,
    (disconnect "b" watched).getD ⟨watched, none⟩,
    (watchedRegistry.handlePlayerDisconnect watched "b").getD watchedRegistry,
    by decide, by decide, by decide, by decide, by decide⟩

/-! ### C19: messages of a viewer -/

theorem lobbyLive_reachable : Reachable lobbyLive :=
  run_reachable lobby3_reachable
    (show run [Op.connect "a" "ta" 1, Op.connect "b" "tb" 2, Op.connect "c" "tc" 3] lobby3
      = some lobbyLive by decide)

theorem gameLive_reachable : Reachable gameLive :=
  run_reachable lobbyLive_reachable
    (show run [Op.start true "a"] lobbyLive = some gameLive by decide)

/-- A message that carries the key `player_id` is processed under the id it carries:
the session it arrived on plays no part beyond its viewer flag. -/
theorem handleMessage_asserted_id (shuffle : List String → List String) (rnd : Nat → Fin 6)
    (player : Player) (message : Message) (room : Room)
    (hv : player.IsViewer = false)
    (hk : (message.fields.lookup "player_id").isSome = true) :
    handleMessage shuffle rnd player message room
      = processEvent shuffle rnd ((message.fields.lookup "type").getD "") message room := by
  unfold handleMessage injectPlayerID
  have hn : (message.fields.lookup "player_id").isNone = false := by
    cases hl : message.fields.lookup "player_id" with
    | none => rw [hl] at hk; cases hk
    | some v => rfl
  simp only [hv, hn, Bool.false_eq_true, if_false]

/-- A message without the key `player_id` is processed under the id of the session. -/
theorem handleMessage_injected_id (shuffle : List String → List String) (rnd : Nat → Fin 6)
    (player : Player) (message : Message) (room : Room)
    (hv : player.IsViewer = false)
    (hk : message.fields.lookup "player_id" = none) :
    handleMessage shuffle rnd player message room
      = processEvent shuffle rnd ((message.fields.lookup "type").getD "")
          { message with fields := mapSet message.fields "player_id" player.ID } room := by
  unfold handleMessage injectPlayerID
  simp only [hv, hk, Option.isNone_none, if_true, Bool.false_eq_true, if_false]

set_option maxRecDepth 100000 in
/-- C20 fails in the code. In the lobby of the host `a` with `b` and `c`, all connected,
the session of the non-host player `b` sends a start message: carrying `player_id`
`b`, or no `player_id`, the message leaves the lobby as it was, but carrying `player_id`
`a` it starts the game. In the started game whose current player is `c`, an end-turn
message from the session of `b` carrying `player_id` `b`, or none, changes nothing, but
carrying `player_id` `c` it ends the turn of `c`. -/
theorem C20_asserted_id_is_trusted :
    Reachable lobbyLive ∧ Reachable gameLive ∧
    sessionB ∈ lobbyLive.Players ∧ sessionB ∈ gameLive.Players ∧
    sessionB.IsViewer = false ∧ sessionB.Conn = some 2 ∧
    sessionB.ID ≠ lobbyLive.HostID ∧
    startAsHost = { startAsB with fields := mapSet startAsB.fields "player_id" "a" } ∧
    handleMessage id (fun _ => 0) sessionB startAsB lobbyLive = some lobbyLive ∧
    handleMessage id (fun _ => 0) sessionB startPlain lobbyLive = some lobbyLive ∧
    (∃ r1, handleMessage id (fun _ => 0) sessionB startAsHost lobbyLive = some r1 ∧
      r1.GameStarted = true ∧ r1.Events.map (fun e => e.EvType) = ["GAME_STARTED"]) ∧
    indexOrder gameLive.PlayerOrder gameLive.CurrentPlayerIdx = some "c" ∧
    endTurnAsC = { endTurnAsB with fields := mapSet endTurnAsB.fields "player_id" "c" } ∧
    handleMessage id (fun _ => 0) sessionB endTurnAsB gameLive = some gameLive ∧
    handleMessage id (fun _ => 0) sessionB endTurnPlain gameLive = some gameLive ∧
    (∃ r1, handleMessage id (fun _ => 0) sessionB endTurnAsC gameLive = some r1 ∧
      indexOrder r1.PlayerOrder r1.CurrentPlayerIdx = some "b" ∧
      appended gameLive r1 = [GameEvent.mk 2 "TURN_CHANGED" (Payload.turnChanged "b" 3)]) :=
  ⟨lobbyLive_reachable, gameLive_reachable, by decide, by decide, by decide, by decide,
    by decide, by decide, by decide, by decide,
    ⟨(handleMessage id (fun _ => 0) sessionB startAsHost lobbyLive).getD lobbyLive,
      by decide, by decide, by decide⟩,
    by decide, by decide, by decide, by decide,
    ⟨(handleMessage id (fun _ => 0) sessionB endTurnAsC gameLive).getD gameLive,
      by decide, by decide, by decide⟩⟩

/-! ### C21 and C22: the event log -/

theorem idsFrom_zero (n : Nat) : idsFrom n 0 = [] := rfl

theorem idsFrom_succ (n len : Nat) :
    idsFrom n (len + 1) = idsFrom n len ++ [((n + len + 1 : Nat) : Int)] := by
  unfold idsFrom
  rw [List.range_succ, List.map_append]
  rfl

theorem idsFrom_add (n a b : Nat) : idsFrom n (a + b) = idsFrom n a ++ idsFrom (n + a) b := by
  induction b with
  | zero => simp [idsFrom_zero]
  | succ b ih =>
    rw [← Nat.add_assoc, idsFrom_succ, ih, idsFrom_succ, List.append_assoc]
    have : n + (a + b) + 1 = n + a + b + 1 := by omega
    rw [this]

theorem idsFrom_length (n len : Nat) : (idsFrom n len).length = len := by
  unfold idsFrom
  rw [List.length_map, List.length_range]

theorem idsFrom_getElem? (n len k : Nat) (h : k < len) :
    (idsFrom n len)[k]? = some ((n : Int) + k + 1) := by
  unfold idsFrom
  rw [List.getElem?_map, List.getElem?_range h]
  simp only [Option.map_some', Option.some.injEq]
  push_cast
  ring

theorem logExtends_refl (es : List GameEvent) : LogExtends es es :=
  ⟨[], by simp, rfl⟩

theorem logExtends_trans {es es1 es2 : List GameEvent} (h1 : LogExtends es es1)
    (h2 : LogExtends es1 es2) : LogExtends es es2 := by
  obtain ⟨n1, rfl, hn1⟩ := h1
  obtain ⟨n2, rfl, hn2⟩ := h2
  refine ⟨n1 ++ n2, by rw [List.append_assoc], ?_⟩
  unfold eventIDs at *
  rw [List.map_append, List.length_append, idsFrom_add, hn1, hn2, List.length_append]

theorem logExtends_addEvent (t : String) (p : Payload) (r : Room) :
    LogExtends r.Events (addEvent t p r).Events := by
  refine ⟨[GameEvent.mk ((r.Events.length : Int) + 1) t p], rfl, ?_⟩
  simp [eventIDs, idsFrom, List.range_succ]

theorem logExtends_of_eq {es es1 : List GameEvent} (h : es1 = es) : LogExtends es es1 := by
  rw [h]; exact logExtends_refl _

theorem logExtends_advanceTurn {r r1 : Room} (h : advanceTurn r = some r1) :
    LogExtends r.Events r1.Events := by
  obtain ⟨cur, _, _, rfl⟩ := advanceTurn_eq h
  exact logExtends_addEvent _ _ _

theorem logExtends_checkGameEnd (r : Room) : LogExtends r.Events (checkGameEnd r).Events := by
  unfold checkGameEnd
  split
  · exact logExtends_addEvent _ _ _
  · exact logExtends_refl _

theorem logExtends_roll {pid : String} {held : List Int} {rnd : Nat → Fin 6} {r r1 : Room}
    (h : handleRequestRoll pid held rnd r = some r1) : LogExtends r.Events r1.Events := by
  unfold handleRequestRoll at h
  split at h
  · cases h
  · cases h; exact logExtends_refl _
  · split at h
    · cases h; exact logExtends_refl _
    · split at h
      · cases h
      · cases h
        exact logExtends_addEvent _ _ _

theorem logExtends_endTurn {pid : String} {r r1 : Room} (h : handleEndTurn pid r = some r1) :
    LogExtends r.Events r1.Events := by
  unfold handleEndTurn at h
  split at h
  · cases h
  · cases h; exact logExtends_refl _
  · exact logExtends_advanceTurn h

theorem logExtends_score {pid cat : String} {s : Int} {r r1 : Room}
    (h : handleCategoryChosen pid cat s r = some r1) : LogExtends r.Events r1.Events := by
  unfold handleCategoryChosen at h
  split at h
  · cases h
  · cases h; exact logExtends_refl _
  · split at h
    · cases h; exact logExtends_refl _
    · split at h
      · cases h; exact logExtends_refl _
      · simp only at h
        split at h
        · cases h
        · rename_i r3 ha
          cases h
          have h1 : LogExtends r.Events
              (addEvent "SCORE_UPDATE" (Payload.scoreUpdate pid cat s)
                { r with Players := modifyPlayer r.Players pid (recordScore cat s) }).Events :=
            logExtends_addEvent "SCORE_UPDATE" (Payload.scoreUpdate pid cat s)
              { r with Players := modifyPlayer r.Players pid (recordScore cat s) }
          exact logExtends_trans (logExtends_trans h1 (logExtends_advanceTurn ha))
            (logExtends_checkGameEnd r3)

theorem logExtends_start (shuffle : List String → List String) (pid : String) (r : Room) :
    LogExtends r.Events (handleGameStart shuffle pid r).Events := by
  unfold handleGameStart
  split
  · exact logExtends_refl _
  · split
    · exact logExtends_refl _
    · exact logExtends_addEvent _ _ _

theorem logExtends_join {req : JoinRequest} {playerID token : String} {r r1 : Room}
    {resp : JoinResponse} (h : JoinRoom req playerID token r = Except.ok (r1, resp)) :
    r1.Events = r.Events := by
  rcases JoinRoom_ok h with ⟨_, _, rfl, _⟩ | ⟨_, _, rfl, _⟩ | ⟨_, _, _, rfl, _⟩ <;> rfl

theorem events_connect {playerID token : String} {conn : Nat} {r r1 : Room}
    (h : connect playerID token conn r = some r1) : r1.Events = r.Events := by
  unfold connect at h
  split at h
  · split at h
    · cases h
    · cases h; rfl
  · cases h

theorem logExtends_disconnect {pid : String} {r : Room} {out : DisconnectOutcome}
    (h : disconnect pid r = some out) : LogExtends r.Events out.room.Events := by
  obtain ⟨wc, r2, _, ha, rfl⟩ := disconnect_some h
  rw [(teardown_frame _ _ _ _).2.2.2.2.1]
  unfold announceTurn at ha
  split at ha
  · split at ha
    · cases ha
    · cases ha
      exact logExtends_addEvent _ _ _
  · cases ha
    exact logExtends_refl _

/-- Every operation extends the log: the events already logged stay as they are, in
place, and the new ones are numbered on. -/
theorem step_logExtends {r r1 : Room} (hs : Step r r1) : LogExtends r.Events r1.Events := by
  cases hs with
  | join req playerID token _ _ resp _ _ hj => exact logExtends_of_eq (logExtends_join hj)
  | connect playerID token conn _ _ hc => exact logExtends_of_eq (events_connect hc)
  | ready playerID flag event => exact logExtends_addEvent _ _ _
  | chat event => exact logExtends_addEvent _ _ _
  | start shuffle playerID _ _ => exact logExtends_start _ _ _
  | roll playerID held rnd _ _ hr => exact logExtends_roll hr
  | score playerID category score _ _ hsc => exact logExtends_score hsc
  | endTurn playerID _ _ he => exact logExtends_endTurn he
  | disconnect playerID _ out hd => exact logExtends_disconnect hd

theorem numbered_of_extends {es es1 : List GameEvent} (h : LogExtends es es1)
    (hn : eventIDs es = idsFrom 0 es.length) : eventIDs es1 = idsFrom 0 es1.length := by
  obtain ⟨new, rfl, hnew⟩ := h
  unfold eventIDs at *
  rw [List.map_append, List.length_append, idsFrom_add, hn, hnew, Nat.zero_add]

/-- The log of a reachable room is numbered 1, 2, ..., n. -/
theorem reachable_numbered {r : Room} (h : Reachable r) :
    eventIDs r.Events = idsFrom 0 r.Events.length := by
  induction h with
  | create playerName roomCode playerID token _ _ => rfl
  | step r r1 _ hs ih => exact numbered_of_extends (step_logExtends hs) ih

/-- C21. In every reachable room the ids of the log are 1, 2, ..., n in log order: the
event at position `k` (counted from 0) has id `k + 1`, so the first has id 1 and no
id is skipped or repeated; `addEvent` gives the new event the id `len(Events) + 1`, and
every operation extends the log by events numbered in this way. -/
theorem C21_event_ids (r : Room) (h : Reachable r) :
    eventIDs r.Events = idsFrom 0 r.Events.length ∧
    (∀ (k : Nat) (e : GameEvent), r.Events[k]? = some e → e.ID = (k : Int) + 1) ∧
    (∀ (i j : Nat) (e1 e2 : GameEvent), r.Events[i]? = some e1 → r.Events[j]? = some e2 →
      e1.ID = e2.ID → i = j) ∧
    (∀ (t : String) (p : Payload),
      (addEvent t p r).Events =
        r.Events ++ [GameEvent.mk ((r.Events.length : Int) + 1) t p]) ∧
    (∀ r1, Step r r1 → LogExtends r.Events r1.Events) := by
  have hnum := reachable_numbered h
  have hk : ∀ (k : Nat) (e : GameEvent), r.Events[k]? = some e → e.ID = (k : Int) + 1 := by
    intro k e he
    have hlt : k < r.Events.length := (List.getElem?_eq_some_iff.mp he).1
    have h1 : (eventIDs r.Events)[k]? = some e.ID := by
      unfold eventIDs
      rw [List.getElem?_map, he]
      rfl
    rw [hnum, idsFrom_getElem? 0 _ k hlt] at h1
    simp only [Option.some.injEq] at h1
    rw [← h1]
    simp
  refine ⟨hnum, hk, ?_, fun t p => rfl, fun r1 hs => step_logExtends hs⟩
  intro i j e1 e2 h1 h2 he
  have := hk i e1 h1
  have := hk j e2 h2
  omega

/-- C21 at the game `scored3`, whose log holds three events. -/
theorem C21_event_ids_witness :
    eventIDs scored3.Events = idsFrom 0 scored3.Events.length ∧
    (∀ (k : Nat) (e : GameEvent), scored3.Events[k]? = some e → e.ID = (k : Int) + 1) ∧
    (∀ (i j : Nat) (e1 e2 : GameEvent), scored3.Events[i]? = some e1 →
      scored3.Events[j]? = some e2 → e1.ID = e2.ID → i = j) ∧
    (∀ (t : String) (p : Payload),
      (addEvent t p scored3).Events =
        scored3.Events ++ [GameEvent.mk ((scored3.Events.length : Int) + 1) t p]) ∧
    (∀ r1, Step scored3 r1 → LogExtends scored3.Events r1.Events) :=
  C21_event_ids scored3 scored3_reachable

theorem rolledOnce_reachable : Reachable rolledOnce :=
  run_reachable game3_reachable
    (show run [Op.roll "c" [] [0, 1, 2, 3, 4]] game3 = some rolledOnce by decide)

theorem rolledTwice_reachable : Reachable rolledTwice :=
  run_reachable rolledOnce_reachable
    (show run [Op.roll "c" [0] [5, 5, 5, 5]] rolledOnce = some rolledTwice by decide)

set_option maxRecDepth 100000 in
/-- C22 fails in the code. In the started game of `a`, `b`, `c` the current player `c`
rolls 1, 2, 3, 4, 5: the log records the event `ROLL_RESULT` with id 2, whose payload
holds the dice slice of the room. Then `c` holds die 0 and rolls again. The event with
id 2 is still in the log at the same place, with its id, type and payload, but the
dice it holds, read as a replay reads them, are now 1, 6, 6, 6, 6: those of the second
roll. -/
theorem C22_logged_dice_overwritten :
    Reachable rolledOnce ∧ Reachable rolledTwice ∧
    handleRequestRoll "c" [0] (fun k => ([5, 5, 5, 5] : List (Fin 6)).getD k 0) rolledOnce
      = some rolledTwice ∧
    rolledOnce.Events[1]? = some firstRoll ∧
    rolledTwice.Events[1]? = some firstRoll ∧
    rolledOnce.dice = [1, 2, 3, 4, 5] ∧
    loggedDice rolledOnce firstRoll = some [1, 2, 3, 4, 5] ∧
    loggedDice rolledTwice firstRoll = some [1, 6, 6, 6, 6] ∧
    rolledTwice.dice = [1, 6, 6, 6, 6] :=
  ⟨rolledOnce_reachable, rolledTwice_reachable, by decide, by decide, by decide, by decide,
    by decide, by decide, by decide⟩

/-! ### C26: rolls-left and the dice stay within bounds -/

/-- The bounds only look at rolls-left and the dice. -/
theorem bounded_congr {r r1 : Room} (h : Bounded r) (hr : r1.RollsLeft = r.RollsLeft)
    (hd : r1.dice = r.dice) : Bounded r1 := by
  unfold Bounded at *
  rw [hr, hd]
  exact h

/-- A room whose rolls-left was just set to 3 and whose dice were just set to five
values of 0..6 is within bounds. -/
theorem bounded_reset {r : Room} (d : List Int) (hr : r.RollsLeft = 3) (hd : r.dice = d)
    (hlen : d.length = 5) (hb : ∀ x ∈ d, 0 ≤ x ∧ x ≤ 6) : Bounded r := by
  unfold Bounded
  rw [hr, hd]
  exact ⟨by decide, by decide, hlen, hb⟩

theorem rollLoop_bounds (held : List Int) (rnd : Nat → Fin 6) (n i k : Nat) (dice out : List Int)
    (h : rollLoop held rnd n i k dice = some out) (hd : ∀ x ∈ dice, 0 ≤ x ∧ x ≤ 6) :
    ∀ x ∈ out, 0 ≤ x ∧ x ≤ 6 := by
  induction n generalizing i k dice with
  | zero =>
    simp only [rollLoop, Option.some.injEq] at h
    rw [← h]
    exact hd
  | succ n ih =>
    simp only [rollLoop] at h
    split at h
    · exact ih _ _ _ h hd
    · split at h
      · refine ih _ _ _ h ?_
        intro x hx
        rcases List.mem_or_eq_of_mem_set hx with hx | rfl
        · exact hd x hx
        · have := (rnd k).isLt
          omega
      · cases h

theorem bounded_roll {pid : String} {held : List Int} {rnd : Nat → Fin 6} {r r1 : Room}
    (hi : Inv r) (h : Bounded r) (hr : handleRequestRoll pid held rnd r = some r1) :
    Bounded r1 := by
  unfold handleRequestRoll at hr
  split at hr
  · cases hr
  · cases hr; exact h
  · split at hr
    · cases hr; exact h
    · rename_i hpos
      split at hr
      · cases hr
      · rename_i dice hd
        cases hr
        have hdice : ((r.Arrays.set r.CurrentDice dice).getD r.CurrentDice []) = dice := by
          rw [List.getD_eq_getElem?_getD, List.getElem?_set_self hi.dice_ref]
          rfl
        obtain ⟨h0, h3, hl, hb⟩ := h
        refine ⟨?_, ?_, ?_, ?_⟩
        · show 0 ≤ r.RollsLeft - 1
          omega
        · show r.RollsLeft - 1 ≤ 3
          omega
        · show ((r.Arrays.set r.CurrentDice dice).getD r.CurrentDice []).length = 5
          rw [hdice, length_rollLoop _ _ _ _ _ _ _ hd, hl]
        · show ∀ d ∈ ((r.Arrays.set r.CurrentDice dice).getD r.CurrentDice []), 0 ≤ d ∧ d ≤ 6
          rw [hdice]
          exact rollLoop_bounds _ _ _ _ _ _ _ hd hb

theorem bounded_advanceTurn {r r1 : Room} (h : advanceTurn r = some r1) : Bounded r1 := by
  obtain ⟨cur, _, _, rfl⟩ := advanceTurn_eq h
  exact bounded_reset [0, 0, 0, 0, 0] rfl (allocDice_dice _ _) rfl (by decide)

theorem bounded_endTurn {pid : String} {r r1 : Room} (h : Bounded r)
    (he : handleEndTurn pid r = some r1) : Bounded r1 := by
  unfold handleEndTurn at he
  split at he
  · cases he
  · cases he; exact h
  · exact bounded_advanceTurn he

theorem bounded_score {pid cat : String} {s : Int} {r r1 : Room} (h : Bounded r)
    (hs : handleCategoryChosen pid cat s r = some r1) : Bounded r1 := by
  unfold handleCategoryChosen at hs
  split at hs
  · cases hs
  · cases hs; exact h
  · split at hs
    · cases hs; exact h
    · split at hs
      · cases hs; exact h
      · simp only at hs
        split at hs
        · cases hs
        · rename_i r3 ha
          cases hs
          obtain ⟨_, _, _, cr, cd, _, _⟩ := checkGameEnd_frame r3
          exact bounded_congr (bounded_advanceTurn ha) cr cd

theorem bounded_start (shuffle : List String → List String) (pid : String) (r : Room)
    (h : Bounded r) : Bounded (handleGameStart shuffle pid r) := by
  unfold handleGameStart
  split
  · exact h
  · split
    · exact h
    · refine bounded_reset [1, 1, 1, 1, 1] rfl ?_ rfl (by decide)
      simp [allocDice, Room.dice, List.getD]

theorem bounded_join {req : JoinRequest} {playerID token : String} {r r1 : Room}
    {resp : JoinResponse} (h : Bounded r)
    (hj : JoinRoom req playerID token r = Except.ok (r1, resp)) : Bounded r1 := by
  rcases JoinRoom_ok hj with ⟨_, _, rfl, _⟩ | ⟨_, _, rfl, _⟩ | ⟨_, _, _, rfl, _⟩ <;>
    exact bounded_congr h rfl rfl

theorem bounded_connect {playerID token : String} {conn : Nat} {r r1 : Room} (h : Bounded r)
    (hc : connect playerID token conn r = some r1) : Bounded r1 := by
  unfold connect at hc
  split at hc
  · split at hc
    · cases hc
    · cases hc; exact bounded_congr h rfl rfl
  · cases hc

theorem bounded_disconnect {pid : String} {r : Room} {out : DisconnectOutcome} (h : Bounded r)
    (hd : disconnect pid r = some out) : Bounded out.room := by
  obtain ⟨wc, r2, _, ha, rfl⟩ := disconnect_some hd
  obtain ⟨_, _, tr, td, _⟩ := teardown_frame (r.HostID == pid) r.GameStarted
    (remainingPlayers r.GameStarted (leaveTurnOrder pid wc
      { r with Players := modifyPlayer r.Players pid (fun p => { p with Conn := none }) }).Players)
    r2
  refine bounded_congr ?_ tr td
  unfold announceTurn at ha
  split at ha
  · split at ha
    · cases ha
    · cases ha
      exact bounded_reset [0, 0, 0, 0, 0] rfl (allocDice_dice _ _) rfl (by decide)
  · cases ha
    exact bounded_congr h rfl rfl

theorem bounded_step {r r1 : Room} (hi : Inv r) (h : Bounded r) (hs : Step r r1) :
    Bounded r1 := by
  cases hs with
  | join req playerID token _ _ resp _ _ hj => exact bounded_join h hj
  | connect playerID token conn _ _ hc => exact bounded_connect h hc
  | ready playerID flag event => exact bounded_congr h rfl rfl
  | chat event => exact bounded_congr h rfl rfl
  | start shuffle playerID _ _ => exact bounded_start _ _ _ h
  | roll playerID held rnd _ _ hr => exact bounded_roll hi h hr
  | score playerID category score _ _ hsc => exact bounded_score h hsc
  | endTurn playerID _ _ he => exact bounded_endTurn h he
  | disconnect playerID _ out hd => exact bounded_disconnect h hd

/-- Every reachable room keeps rolls-left and the dice within bounds. -/
theorem reachable_bounded {r : Room} (h : Reachable r) : Bounded r := by
  induction h with
  | create playerName roomCode playerID token _ _ =>
    unfold Bounded
    simp [CreateRoom, Room.dice]
  | step r r1 hr hs ih => exact bounded_step (reachable_inv hr) ih hs

theorem truncToInt_low {q : ℚ} (h : q ≤ -1) : truncToInt q ≤ -1 := by
  unfold truncToInt
  rw [if_neg (by linarith)]
  rw [Int.ceil_le]
  push_cast
  exact h

theorem truncToInt_high {q : ℚ} (h : 5 ≤ q) : 5 ≤ truncToInt q := by
  unfold truncToInt
  rw [if_pos (by linarith)]
  rw [Int.le_floor]
  push_cast
  exact h

theorem truncToInt_mid {q : ℚ} (h1 : -1 < q) (h2 : q < 5) :
    0 ≤ truncToInt q ∧ truncToInt q ≤ 4 := by
  unfold truncToInt
  split
  · rename_i h0
    refine ⟨Int.floor_nonneg.mpr h0, ?_⟩
    have : ⌊q⌋ < 5 := by
      rw [Int.floor_lt]
      push_cast
      exact h2
    omega
  · rename_i h0
    have hle : ⌈q⌉ ≤ 0 := by
      rw [Int.ceil_le]
      push_cast
      linarith
    have hlt : -1 < ⌈q⌉ := by
      rw [Int.lt_ceil]
      push_cast
      exact h1
    omega

theorem mem_convertHeld (l : List HeldValue) (x : Int) :
    x ∈ convertHeld l ↔ ∃ q, HeldValue.number q ∈ l ∧ truncToInt q = x := by
  unfold convertHeld
  rw [List.mem_filterMap]
  constructor
  · rintro ⟨v, hv, hx⟩
    cases v with
    | number q =>
      simp only [Option.some.injEq] at hx
      exact ⟨q, hv, hx⟩
    | other => cases hx
  · rintro ⟨q, hq, hx⟩
    exact ⟨HeldValue.number q, hq, by simp [hx]⟩

/-- The roll loop reads the held set at the positions it visits only. -/
theorem rollLoop_congr (held held1 : List Int) (rnd : Nat → Fin 6) :
    ∀ (n i k : Nat) (dice : List Int),
      (∀ j : Nat, i ≤ j → j < i + n → ((j : Int) ∈ held ↔ (j : Int) ∈ held1)) →
      rollLoop held rnd n i k dice = rollLoop held1 rnd n i k dice := by
  intro n
  induction n with
  | zero => intro i k dice _; rfl
  | succ n ih =>
    intro i k dice hj
    have hi := hj i (Nat.le_refl _) (by omega)
    have hc : held.contains (i : Int) = held1.contains (i : Int) := by
      cases h1 : held.contains (i : Int) with
      | true =>
        have : (i : Int) ∈ held := by simpa using h1
        have : held1.contains (i : Int) = true := by simpa using hi.mp this
        rw [this]
      | false =>
        cases h2 : held1.contains (i : Int) with
        | false => rfl
        | true =>
          have : (i : Int) ∈ held1 := by simpa using h2
          have : held.contains (i : Int) = true := by simpa using hi.mpr this
          rw [this] at h1
          cases h1
    simp only [rollLoop, hc]
    rw [ih (i + 1) k dice (fun j h1 h2 => hj j (by omega) (by omega)),
      ih (i + 1) (k + 1) _ (fun j h1 h2 => hj j (by omega) (by omega))]

/-- A roll depends on the held list only through the positions 0..4 it contains. -/
theorem handleRequestRoll_congr (pid : String) (held held1 : List Int) (rnd : Nat → Fin 6)
    (r : Room) (h : ∀ j : Nat, j < 5 → ((j : Int) ∈ held ↔ (j : Int) ∈ held1)) :
    handleRequestRoll pid held rnd r = handleRequestRoll pid held1 rnd r := by
  unfold handleRequestRoll
  rw [rollLoop_congr held held1 rnd 5 0 0 r.dice (fun j _ hj => h j (by omega))]

/-- An element of `held_indices` that is not a number, or is a number at most -1 or at
least 5, makes no difference to the roll. -/
theorem requestRoll_ignores (pid : String) (l1 l2 : List HeldValue) (v : HeldValue)
    (rnd : Nat → Fin 6) (r : Room)
    (hv : v = HeldValue.other ∨ ∃ q, v = HeldValue.number q ∧ (q ≤ -1 ∨ 5 ≤ q)) :
    requestRoll pid (l1 ++ v :: l2) rnd r = requestRoll pid (l1 ++ l2) rnd r := by
  unfold requestRoll
  apply handleRequestRoll_congr
  intro j hj
  rw [mem_convertHeld, mem_convertHeld]
  constructor
  · rintro ⟨q, hq, hx⟩
    rw [List.mem_append, List.mem_cons] at hq
    rcases hq with hq | hq | hq
    · exact ⟨q, List.mem_append_left _ hq, hx⟩
    · rcases hv with rfl | ⟨q1, rfl, hq1⟩
      · cases hq
      · simp only [HeldValue.number.injEq] at hq
        subst hq
        rcases hq1 with hlow | hhigh
        · have := truncToInt_low hlow
          omega
        · have := truncToInt_high hhigh
          omega
    · exact ⟨q, List.mem_append_right _ hq, hx⟩
  · rintro ⟨q, hq, hx⟩
    rw [List.mem_append] at hq
    refine ⟨q, ?_, hx⟩
    rw [List.mem_append, List.mem_cons]
    rcases hq with hq | hq
    · exact Or.inl hq
    · exact Or.inr (Or.inr hq)

/-- A die at a held position keeps its value through a roll request. -/
theorem handleRequestRoll_keeps {pid : String} {held : List Int} {rnd : Nat → Fin 6}
    {r r1 : Room} (hi : Inv r) (hr : handleRequestRoll pid held rnd r = some r1)
    (j : Nat) (hj : (j : Int) ∈ held) : r1.dice[j]? = r.dice[j]? := by
  unfold handleRequestRoll at hr
  split at hr
  · cases hr
  · cases hr; rfl
  · split at hr
    · cases hr; rfl
    · obtain ⟨out, ho, _, hkeep, _⟩ := rollLoop_spec held rnd 5 0 0 r.dice
        (by rw [hi.dice_len])
      rw [ho] at hr
      cases hr
      show ((r.Arrays.set r.CurrentDice out).getD r.CurrentDice [])[j]? = _
      rw [List.getD_eq_getElem?_getD, List.getElem?_set_self hi.dice_ref]
      exact hkeep j (Or.inr (Or.inr hj))

/-- C26, amended. In every reachable room rolls-left is one of 0..3 and the dice are
five values, each one of 0..6; a roll request completes whatever `held_indices` holds
(its reads and writes of the dice positions 0..4 are in bounds); an element of
`held_indices` that is not a number, or is a number at most -1 or at least 5, makes no
difference to the roll; and a number strictly between -1 and 5, fractional or not, is
truncated toward zero to a position of 0..4, whose die the roll keeps. -/
theorem C26_turn_state_bounded (r : Room) (h : Reachable r) :
    0 ≤ r.RollsLeft ∧ r.RollsLeft ≤ 3 ∧ r.dice.length = 5 ∧
    (∀ d ∈ r.dice, 0 ≤ d ∧ d ≤ 6) ∧
    (∀ (pid : String) (heldIndices : List HeldValue) (rnd : Nat → Fin 6),
      ∃ r1, requestRoll pid heldIndices rnd r = some r1 ∧ Bounded r1) ∧
    (∀ (pid : String) (l1 l2 : List HeldValue) (v : HeldValue) (rnd : Nat → Fin 6),
      (v = HeldValue.other ∨ ∃ q, v = HeldValue.number q ∧ (q ≤ -1 ∨ 5 ≤ q)) →
      requestRoll pid (l1 ++ v :: l2) rnd r = requestRoll pid (l1 ++ l2) rnd r) ∧
    (∀ q : ℚ, -1 < q → q < 5 → ∃ j : Nat, j < 5 ∧ truncToInt q = (j : Int) ∧
      ∀ (pid : String) (l1 l2 : List HeldValue) (rnd : Nat → Fin 6) (r1 : Room),
        requestRoll pid (l1 ++ HeldValue.number q :: l2) rnd r = some r1 →
        r1.dice[j]? = r.dice[j]?) := by
  have hi := reachable_inv h
  obtain ⟨h0, h3, hl, hb⟩ := reachable_bounded h
  refine ⟨h0, h3, hl, hb, ?_, ?_, ?_⟩
  · intro pid heldIndices rnd
    obtain ⟨r1, hr1⟩ := (handlers_never_fault r h).1 pid (convertHeld heldIndices) rnd
    exact ⟨r1, hr1, bounded_roll hi ⟨h0, h3, hl, hb⟩ hr1⟩
  · intro pid l1 l2 v rnd hv
    exact requestRoll_ignores pid l1 l2 v rnd r hv
  · intro q h1 h2
    obtain ⟨hlo, hhi⟩ := truncToInt_mid h1 h2
    refine ⟨(truncToInt q).toNat, by omega, by omega, ?_⟩
    intro pid l1 l2 rnd r1 hr
    apply handleRequestRoll_keeps hi hr
    rw [mem_convertHeld]
    exact ⟨q, by simp, by omega⟩

/-- C26 at the started three-player game. -/
theorem C26_turn_state_bounded_witness :
    0 ≤ game3.RollsLeft ∧ game3.RollsLeft ≤ 3 ∧ game3.dice.length = 5 ∧
    (∀ d ∈ game3.dice, 0 ≤ d ∧ d ≤ 6) ∧
    (∀ (pid : String) (heldIndices : List HeldValue) (rnd : Nat → Fin 6),
      ∃ r1, requestRoll pid heldIndices rnd game3 = some r1 ∧ Bounded r1) ∧
    (∀ (pid : String) (l1 l2 : List HeldValue) (v : HeldValue) (rnd : Nat → Fin 6),
      (v = HeldValue.other ∨ ∃ q, v = HeldValue.number q ∧ (q ≤ -1 ∨ 5 ≤ q)) →
      requestRoll pid (l1 ++ v :: l2) rnd game3 = requestRoll pid (l1 ++ l2) rnd game3) ∧
    (∀ q : ℚ, -1 < q → q < 5 → ∃ j : Nat, j < 5 ∧ truncToInt q = (j : Int) ∧
      ∀ (pid : String) (l1 l2 : List HeldValue) (rnd : Nat → Fin 6) (r1 : Room),
        requestRoll pid (l1 ++ HeldValue.number q :: l2) rnd game3 = some r1 →
        r1.dice[j]? = game3.dice[j]?) :=
  C26_turn_state_bounded game3 game3_reachable

theorem convertHeld_fraction : convertHeld [HeldValue.number (5 / 2)] = [2] := by
  have h : truncToInt (5 / 2) = 2 := by
    unfold truncToInt
    rw [if_pos (by norm_num), Int.floor_eq_iff]
    norm_num
  simp [convertHeld, h]

set_option maxRecDepth 100000 in
/-- C26 as stated fails for a fractional held index. In the started three-player game,
whose dice are all 1, the current player `c` asks for a roll with `held_indices`
`[2.5]` and every rolled die comes up 6: die 2 is held and still shows 1. With
`held_indices` empty the same roll turns every die to 6: the index 2.5 is not
ignored. -/
theorem C26_counterexample :
    Reachable game3 ∧ game3.dice = [1, 1, 1, 1, 1] ∧
    indexOrder game3.PlayerOrder game3.CurrentPlayerIdx = some "c" ∧
    (requestRoll "c" [HeldValue.number (5 / 2)] (fun _ => 5) game3).map Room.dice
      = some [6, 6, 1, 6, 6] ∧
    (requestRoll "c" [] (fun _ => 5) game3).map Room.dice = some [6, 6, 6, 6, 6] := by
  refine ⟨game3_reachable, by decide, by decide, ?_, by decide⟩
  unfold requestRoll
  rw [convertHeld_fraction]
  decide

/-! ### C27: the size of the turn sequence and of the lobby -/

theorem order_connect {playerID token : String} {conn : Nat} {r r1 : Room}
    (h : connect playerID token conn r = some r1) : r1.PlayerOrder = r.PlayerOrder := by
  unfold connect at h
  split at h
  · split at h
    · cases h
    · cases h; rfl
  · cases h

theorem order_length_start (shuffle : List String → List String) (pid : String) (r : Room)
    (hperm : ∀ l, (shuffle l).Perm l) :
    (handleGameStart shuffle pid r).PlayerOrder.length = r.PlayerOrder.length := by
  unfold handleGameStart
  split
  · rfl
  · split
    · rfl
    · exact (hperm _).length_eq

/-- No operation lets the turn sequence grow past six ids. -/
theorem order_length_step {r r1 : Room} (hi : Inv r) (h : r.PlayerOrder.length ≤ 6)
    (hs : Step r r1) : r1.PlayerOrder.length ≤ 6 := by
  cases hs with
  | join req playerID token _ _ resp _ _ hj =>
    rcases JoinRoom_ok hj with ⟨_, _, rfl, _⟩ | ⟨_, _, rfl, _⟩ | ⟨_, hg, hlt, rfl, _⟩
    · exact h
    · exact h
    · have hlen := (hi.lobby_order hg).length_eq
      unfold rosterIds at hlen
      rw [List.length_map] at hlen
      show (r.PlayerOrder ++ [playerID]).length ≤ 6
      rw [List.length_append, List.length_singleton]
      omega
  | connect playerID token conn _ _ hc => rw [order_connect hc]; exact h
  | ready playerID flag event => exact h
  | chat event => exact h
  | start shuffle playerID _ hperm => rw [order_length_start _ _ _ hperm]; exact h
  | roll playerID held rnd _ _ hr => rw [(handleRequestRoll_frame hr).2.1]; exact h
  | score playerID category score _ _ hsc => rw [(handleCategoryChosen_frame hsc).2.1]; exact h
  | endTurn playerID _ _ he => rw [(handleEndTurn_frame he).2.1]; exact h
  | disconnect playerID _ out hd =>
    obtain ⟨_, _, ho, _⟩ := disconnect_frame hd
    rw [ho]
    exact Nat.le_trans (List.length_filter_le _ _) h

/-- The turn sequence of a reachable room holds at most six ids. -/
theorem reachable_order_length {r : Room} (h : Reachable r) : r.PlayerOrder.length ≤ 6 := by
  induction h with
  | create playerName roomCode playerID token _ _ => simp [CreateRoom]
  | step r r1 hr hs ih => exact order_length_step (reachable_inv hr) ih hs

/-- C27. With generated player ids fresh (the assumption `freshID` of a join step), in
every reachable room the turn sequence has no repeated id and at most six entries,
and while the game has not started the turn sequence lists exactly the roster keys,
each once, and the roster has at most six members. -/
theorem C27_turn_sequence_size (r : Room) (h : Reachable r) :
    r.PlayerOrder.Nodup ∧ r.PlayerOrder.length ≤ 6 ∧
    (r.GameStarted = false →
      (∀ id, id ∈ r.PlayerOrder ↔ id ∈ rosterIds r.Players) ∧
      r.PlayerOrder.Perm (rosterIds r.Players) ∧
      r.Players.length ≤ 6) := by
  have hi := reachable_inv h
  have hlen := reachable_order_length h
  refine ⟨hi.order_nodup, hlen, ?_⟩
  intro hg
  have hperm := hi.lobby_order hg
  refine ⟨fun id => hperm.mem_iff, hperm, ?_⟩
  have := hperm.length_eq
  unfold rosterIds at this
  rw [List.length_map] at this
  omega

/-- C27 at the lobby of three players. -/
theorem C27_turn_sequence_size_witness :
    lobby3.PlayerOrder.Nodup ∧ lobby3.PlayerOrder.length ≤ 6 ∧
    (lobby3.GameStarted = false →
      (∀ id, id ∈ lobby3.PlayerOrder ↔ id ∈ rosterIds lobby3.Players) ∧
      lobby3.PlayerOrder.Perm (rosterIds lobby3.Players) ∧
      lobby3.Players.length ≤ 6) :=
  C27_turn_sequence_size lobby3 lobby3_reachable

/-! ### C28: ending the turn -/

/-- C28. In a room whose turn sequence is empty or whose current index is a valid
position (every reachable room is such), `REQUEST_END_TURN` completes. From the
current-turn player it moves the index to `(index + 1) mod len`, sets rolls-left to 3
and the dice to `[0,0,0,0,0]`, appends exactly one event, a `TURN_CHANGED` naming the
player at the new index, and leaves the roster (hence every score) and the turn
sequence as they were. From anyone else, or with an empty turn sequence, it leaves
the room as it was, and no division by the length takes place. -/
theorem C28_end_turn (r : Room) (pid : String)
    (hv : r.PlayerOrder = [] ∨
      (0 ≤ r.CurrentPlayerIdx ∧ r.CurrentPlayerIdx < r.PlayerOrder.length)) :
    (indexOrder r.PlayerOrder r.CurrentPlayerIdx = some pid →
      ∃ r1 nxt, handleEndTurn pid r = some r1 ∧
        r1.CurrentPlayerIdx = (r.CurrentPlayerIdx + 1) % r.PlayerOrder.length ∧
        indexOrder r1.PlayerOrder r1.CurrentPlayerIdx = some nxt ∧
        r1.RollsLeft = 3 ∧ r1.dice = [0, 0, 0, 0, 0] ∧
        r1.Events = r.Events ++
          [GameEvent.mk ((r.Events.length : Int) + 1) "TURN_CHANGED"
            (Payload.turnChanged nxt 3)] ∧
        r1.Players = r.Players ∧ r1.PlayerOrder = r.PlayerOrder ∧
        r1.GameStarted = r.GameStarted) ∧
    (indexOrder r.PlayerOrder r.CurrentPlayerIdx ≠ some pid → handleEndTurn pid r = some r) ∧
    (r.PlayerOrder = [] → handleEndTurn pid r = some r) := by
  refine ⟨?_, ?_, ?_⟩
  · intro hcur
    obtain ⟨h0, hlt, _⟩ := indexOrder_some hcur
    obtain ⟨nxt, hn, ha⟩ := advanceTurn_ok h0 hlt
    refine ⟨addEvent "TURN_CHANGED" (Payload.turnChanged nxt 3)
      (allocDice [0, 0, 0, 0, 0]
        { r with CurrentPlayerIdx := (r.CurrentPlayerIdx + 1) % r.PlayerOrder.length,
                 RollsLeft := 3 }), nxt, ?_, rfl, hn, rfl, allocDice_dice _ _, rfl, rfl, rfl, rfl⟩
    unfold handleEndTurn
    rw [notTurn_of_current hcur]
    exact ha
  · intro hne
    unfold handleEndTurn
    rw [notTurn_of_not_current hv hne]
  · intro hempty
    unfold handleEndTurn notTurn
    rw [if_pos (by rw [hempty]; rfl)]

/-- C28 at the started three-player game, whose current player is `c`. -/
theorem C28_end_turn_witness :
    (indexOrder game3.PlayerOrder game3.CurrentPlayerIdx = some "c" →
      ∃ r1 nxt, handleEndTurn "c" game3 = some r1 ∧
        r1.CurrentPlayerIdx = (game3.CurrentPlayerIdx + 1) % game3.PlayerOrder.length ∧
        indexOrder r1.PlayerOrder r1.CurrentPlayerIdx = some nxt ∧
        r1.RollsLeft = 3 ∧ r1.dice = [0, 0, 0, 0, 0] ∧
        r1.Events = game3.Events ++
          [GameEvent.mk ((game3.Events.length : Int) + 1) "TURN_CHANGED"
            (Payload.turnChanged nxt 3)] ∧
        r1.Players = game3.Players ∧ r1.PlayerOrder = game3.PlayerOrder ∧
        r1.GameStarted = game3.GameStarted) ∧
    (indexOrder game3.PlayerOrder game3.CurrentPlayerIdx ≠ some "c" →
      handleEndTurn "c" game3 = some game3) ∧
    (game3.PlayerOrder = [] → handleEndTurn "c" game3 = some game3) :=
  C28_end_turn game3 "c" (Or.inr ⟨by decide, by decide⟩)

/-! ### C25: after the end of the game -/

/-- A roll of the current-turn player with rolls left is accepted. -/
theorem handleRequestRoll_accept {r : Room} {pid : String} (held : List Int)
    (rnd : Nat → Fin 6) (hi : Inv r)
    (hcur : indexOrder r.PlayerOrder r.CurrentPlayerIdx = some pid) (hrolls : 0 < r.RollsLeft) :
    ∃ r1, handleRequestRoll pid held rnd r = some r1 ∧ r1.RollsLeft = r.RollsLeft - 1 ∧
      r1.Events = r.Events ++
        [GameEvent.mk ((r.Events.length : Int) + 1) "ROLL_RESULT"
          (Payload.rollResult pid r.CurrentDice (r.RollsLeft - 1))] := by
  obtain ⟨out, ho, _⟩ := rollLoop_spec held rnd 5 0 0 r.dice (by rw [hi.dice_len])
  refine ⟨addEvent "ROLL_RESULT" (Payload.rollResult pid r.CurrentDice (r.RollsLeft - 1))
    { r with Arrays := r.Arrays.set r.CurrentDice out, RollsLeft := r.RollsLeft - 1 },
    ?_, rfl, rfl⟩
  unfold handleRequestRoll
  rw [notTurn_of_current hcur]
  simp only
  rw [if_neg (by omega), ho]

/-- An event of the log is still in the log after any operation. -/
theorem step_keeps_event {r r1 : Room} (hs : Step r r1) {e : GameEvent} (he : e ∈ r.Events) :
    e ∈ r1.Events := by
  obtain ⟨new, hnew, _⟩ := step_logExtends hs
  rw [hnew]
  exact List.mem_append_left _ he

/-- C25, amended. In a reachable room whose log holds a `GAME_END` event, requests are
handled as at any other time. From a player who is not the current-turn player a
roll, a score and an end-turn leave the room as it was. From the current-turn player:
an end-turn moves the index to `(index + 1) mod len` and appends one `TURN_CHANGED`; a
roll is rejected when no rolls are left and otherwise takes one roll and appends one
`ROLL_RESULT`; a score is rejected when the category is a key of the player's mapping
and otherwise is recorded and appends `SCORE_UPDATE`, `TURN_CHANGED` and, when every
non-viewer holds at least twelve entries, a further `GAME_END`. The earlier `GAME_END`
stays in the log through every operation. -/
theorem C25_after_game_end (r : Room) (h : Reachable r)
    (hend : ∃ e ∈ r.Events, e.EvType = "GAME_END") (pid : String) :
    (indexOrder r.PlayerOrder r.CurrentPlayerIdx ≠ some pid →
      (∀ (held : List Int) (rnd : Nat → Fin 6), handleRequestRoll pid held rnd r = some r) ∧
      (∀ (cat : String) (s : Int), handleCategoryChosen pid cat s r = some r) ∧
      handleEndTurn pid r = some r) ∧
    (indexOrder r.PlayerOrder r.CurrentPlayerIdx = some pid →
      (∃ r1 nxt, handleEndTurn pid r = some r1 ∧
        r1.CurrentPlayerIdx = (r.CurrentPlayerIdx + 1) % r.PlayerOrder.length ∧
        r1.Events = r.Events ++
          [GameEvent.mk ((r.Events.length : Int) + 1) "TURN_CHANGED"
            (Payload.turnChanged nxt 3)]) ∧
      (∀ (held : List Int) (rnd : Nat → Fin 6),
        (r.RollsLeft ≤ 0 → handleRequestRoll pid held rnd r = some r) ∧
        (0 < r.RollsLeft → ∃ r1, handleRequestRoll pid held rnd r = some r1 ∧
          r1.RollsLeft = r.RollsLeft - 1 ∧
          r1.Events = r.Events ++
            [GameEvent.mk ((r.Events.length : Int) + 1) "ROLL_RESULT"
              (Payload.rollResult pid r.CurrentDice (r.RollsLeft - 1))])) ∧
      (∃ p, findPlayer r.Players pid = some p ∧ ∀ (cat : String) (s : Int),
        ((p.Scores.lookup cat).isSome = true → handleCategoryChosen pid cat s r = some r) ∧
        (p.Scores.lookup cat = none →
          ∃ r1 nxt, handleCategoryChosen pid cat s r = some r1 ∧
            r1.Players = modifyPlayer r.Players pid (recordScore cat s) ∧
            r1.Events = r.Events ++
              [GameEvent.mk ((r.Events.length : Int) + 1) "SCORE_UPDATE"
                (Payload.scoreUpdate pid cat s),
               GameEvent.mk ((r.Events.length : Int) + 2) "TURN_CHANGED"
                (Payload.turnChanged nxt 3)] ++
              (if allFilled r1.Players then
                [GameEvent.mk ((r.Events.length : Int) + 3) "GAME_END"
                  (gameEndPayload r1.Players)]
               else [])))) ∧
    (∀ r1, Step r r1 → ∃ e ∈ r1.Events, e.EvType = "GAME_END") := by
  have hi := reachable_inv h
  have hv := inv_index_valid hi
  refine ⟨?_, ?_, ?_⟩
  · intro hne
    have hnt := notTurn_of_not_current hv hne
    refine ⟨?_, ?_, ?_⟩
    · intro held rnd
      unfold handleRequestRoll
      rw [hnt]
    · intro cat s
      unfold handleCategoryChosen
      rw [hnt]
    · unfold handleEndTurn
      rw [hnt]
  · intro hcur
    obtain ⟨h0, hlt, hget⟩ := indexOrder_some hcur
    refine ⟨?_, ?_, ?_⟩
    · obtain ⟨nxt, _, ha⟩ := advanceTurn_ok h0 hlt
      refine ⟨addEvent "TURN_CHANGED" (Payload.turnChanged nxt 3)
        (allocDice [0, 0, 0, 0, 0]
          { r with CurrentPlayerIdx := (r.CurrentPlayerIdx + 1) % r.PlayerOrder.length,
                   RollsLeft := 3 }), nxt, ?_, rfl, rfl⟩
      unfold handleEndTurn
      rw [notTurn_of_current hcur]
      exact ha
    · intro held rnd
      refine ⟨?_, fun hpos => handleRequestRoll_accept held rnd hi hcur hpos⟩
      intro hle
      unfold handleRequestRoll
      rw [notTurn_of_current hcur]
      simp only
      rw [if_pos hle]
    · have hmem : pid ∈ rosterIds r.Players := hi.order_sub pid (List.getElem?_mem hget)
      cases hf : findPlayer r.Players pid with
      | none => exact absurd hmem (findPlayer_none hf)
      | some p =>
        refine ⟨p, rfl, ?_⟩
        intro cat s
        refine ⟨?_, ?_⟩
        · intro htaken
          unfold handleCategoryChosen
          rw [notTurn_of_current hcur]
          simp only
          rw [hf]
          simp only
          rw [if_pos htaken]
        · intro hfree
          obtain ⟨r1, nxt, hr1, hp1, he1⟩ := handleCategoryChosen_events s hcur hf hfree
          exact ⟨r1, nxt, hr1, hp1, he1⟩
  · intro r1 hs
    obtain ⟨e, he, ht⟩ := hend
    exact ⟨e, step_keeps_event hs he, ht⟩

theorem soloOver_reachable : Reachable soloOver :=
  run_reachable lobby1_reachable
    (show run (Op.start false "a" :: Categories.map (fun c => Op.score "a" c 3)) lobby1
      = some soloOver by decide)

set_option maxRecDepth 100000 in
/-- C25 at the finished solo game, whose current player is `a`. -/
theorem C25_after_game_end_witness :
    (indexOrder soloOver.PlayerOrder soloOver.CurrentPlayerIdx ≠ some "a" →
      (∀ (held : List Int) (rnd : Nat → Fin 6),
        handleRequestRoll "a" held rnd soloOver = some soloOver) ∧
      (∀ (cat : String) (s : Int), handleCategoryChosen "a" cat s soloOver = some soloOver) ∧
      handleEndTurn "a" soloOver = some soloOver) ∧
    (indexOrder soloOver.PlayerOrder soloOver.CurrentPlayerIdx = some "a" →
      (∃ r1 nxt, handleEndTurn "a" soloOver = some r1 ∧
        r1.CurrentPlayerIdx =
          (soloOver.CurrentPlayerIdx + 1) % soloOver.PlayerOrder.length ∧
        r1.Events = soloOver.Events ++
          [GameEvent.mk ((soloOver.Events.length : Int) + 1) "TURN_CHANGED"
            (Payload.turnChanged nxt 3)]) ∧
      (∀ (held : List Int) (rnd : Nat → Fin 6),
        (soloOver.RollsLeft ≤ 0 → handleRequestRoll "a" held rnd soloOver = some soloOver) ∧
        (0 < soloOver.RollsLeft → ∃ r1, handleRequestRoll "a" held rnd soloOver = some r1 ∧
          r1.RollsLeft = soloOver.RollsLeft - 1 ∧
          r1.Events = soloOver.Events ++
            [GameEvent.mk ((soloOver.Events.length : Int) + 1) "ROLL_RESULT"
              (Payload.rollResult "a" soloOver.CurrentDice (soloOver.RollsLeft - 1))])) ∧
      (∃ p, findPlayer soloOver.Players "a" = some p ∧ ∀ (cat : String) (s : Int),
        ((p.Scores.lookup cat).isSome = true →
          handleCategoryChosen "a" cat s soloOver = some soloOver) ∧
        (p.Scores.lookup cat = none →
          ∃ r1 nxt, handleCategoryChosen "a" cat s soloOver = some r1 ∧
            r1.Players = modifyPlayer soloOver.Players "a" (recordScore cat s) ∧
            r1.Events = soloOver.Events ++
              [GameEvent.mk ((soloOver.Events.length : Int) + 1) "SCORE_UPDATE"
                (Payload.scoreUpdate "a" cat s),
               GameEvent.mk ((soloOver.Events.length : Int) + 2) "TURN_CHANGED"
                (Payload.turnChanged nxt 3)] ++
              (if allFilled r1.Players then
                [GameEvent.mk ((soloOver.Events.length : Int) + 3) "GAME_END"
                  (gameEndPayload r1.Players)]
               else [])))) ∧
    (∀ r1, Step soloOver r1 → ∃ e ∈ r1.Events, e.EvType = "GAME_END") :=
  C25_after_game_end soloOver soloOver_reachable
    ⟨GameEvent.mk 26 "GAME_END" (gameEndPayload soloOver.Players), by decide, rfl⟩ "a"

set_option maxRecDepth 100000 in
/-- C25 as stated fails at the finished solo game. The host `a` played alone and filled
the twelve categories; the last event of the log is `GAME_END`. Afterwards a roll of
`a` is accepted and appends `ROLL_RESULT`; an end-turn of `a` is accepted and appends
`TURN_CHANGED`; and a score of 30 in the category `chance` is recorded, raising the
total of `a` from 36 to 66, and appends `SCORE_UPDATE`, `TURN_CHANGED` and a second
`GAME_END`. In the finished game of `a` and `b`, whose log ends with `GAME_END` too, an
end-turn of the current player `a` moves the current index from 0 to 1. -/
theorem C25_counterexample :
    Reachable soloOver ∧
    soloOver.Events.getLast?.map (fun e => e.EvType) = some "GAME_END" ∧
    indexOrder soloOver.PlayerOrder soloOver.CurrentPlayerIdx = some "a" ∧
    (findPlayer soloOver.Players "a").map (fun p => p.TotalScore) = some 36 ∧
    outcomeOf "a" soloOver (handleRequestRoll "a" [] (fun _ => 0) soloOver)
      = some (["ROLL_RESULT"], some 36, 0) ∧
    outcomeOf "a" soloOver (handleEndTurn "a" soloOver)
      = some (["TURN_CHANGED"], some 36, 0) ∧
    outcomeOf "a" soloOver (handleCategoryChosen "a" "chance" 30 soloOver)
      = some (["SCORE_UPDATE", "TURN_CHANGED", "GAME_END"], some 66, 0) ∧
    Reachable gameOver ∧
    gameOver.Events.getLast?.map (fun e => e.EvType) = some "GAME_END" ∧
    gameOver.CurrentPlayerIdx = 0 ∧
    outcomeOf "a" gameOver (handleEndTurn "a" gameOver) = some (["TURN_CHANGED"], some 13, 1) :=
  ⟨soloOver_reachable, by decide, by decide, by decide, by decide, by decide, by decide,
    gameOver_reachable, by decide, by decide, by decide⟩

/-! ### C23 and C24: who is a viewer -/

theorem quiet_step {r r1 : Room} (h : Quiet r r1) : Step r r1 := by
  cases h with
  | connect playerID token conn _ _ hc => exact Step.connect _ _ _ _ _ hc
  | ready playerID flag event => exact Step.ready _ _ _ _
  | chat event => exact Step.chat _ _
  | start shuffle playerID _ hperm => exact Step.start _ _ _ hperm
  | roll playerID held rnd _ _ hr => exact Step.roll _ _ _ _ _ hr
  | score playerID category score _ _ hsc => exact Step.score _ _ _ _ _ hsc
  | endTurn playerID _ _ he => exact Step.endTurn _ _ _ he
  | disconnect playerID _ out hd => exact Step.disconnect _ _ _ hd

/-- An operation is a join request or a quiet one. -/
theorem step_cases {r r1 : Room} (h : Step r r1) :
    (∃ req playerID token resp, freshID r playerID ∧ token ≠ "" ∧
      JoinRoom req playerID token r = Except.ok (r1, resp)) ∨ Quiet r r1 := by
  cases h with
  | join req playerID token _ _ resp hfresh htok hj =>
    exact Or.inl ⟨req, playerID, token, resp, hfresh, htok, hj⟩
  | connect playerID token conn _ _ hc => exact Or.inr (Quiet.connect _ _ _ _ _ hc)
  | ready playerID flag event => exact Or.inr (Quiet.ready _ _ _ _)
  | chat event => exact Or.inr (Quiet.chat _ _)
  | start shuffle playerID _ hperm => exact Or.inr (Quiet.start _ _ _ hperm)
  | roll playerID held rnd _ _ hr => exact Or.inr (Quiet.roll _ _ _ _ _ hr)
  | score playerID category score _ _ hsc => exact Or.inr (Quiet.score _ _ _ _ _ hsc)
  | endTurn playerID _ _ he => exact Or.inr (Quiet.endTurn _ _ _ he)
  | disconnect playerID _ out hd => exact Or.inr (Quiet.disconnect _ _ _ hd)

theorem history_reachable {r : Room} {late : List String} (h : History r late) :
    Reachable r := by
  induction h with
  | create playerName roomCode playerID token hid htok =>
    exact Reachable.create _ _ _ _ hid htok
  | join req playerID token r r1 resp late _ hfresh htok hj ih =>
    exact Reachable.step _ _ ih (Step.join req playerID token r r1 resp hfresh htok hj)
  | quiet r r1 late _ hq ih => exact Reachable.step _ _ ih (quiet_step hq)

/-- Every reachable room has a history. -/
theorem reachable_history {r : Room} (h : Reachable r) : ∃ late, History r late := by
  induction h with
  | create playerName roomCode playerID token hid htok =>
    exact ⟨[], History.create _ _ _ _ hid htok⟩
  | step r r1 _ hs ih =>
    obtain ⟨late, hl⟩ := ih
    rcases step_cases hs with ⟨req, playerID, token, resp, hfresh, htok, hj⟩ | hq
    · exact ⟨_, History.join req playerID token r r1 resp late hl hfresh htok hj⟩
    · exact ⟨late, History.quiet r r1 late hl hq⟩

theorem sameFlags_refl (ps : List Player) : SameFlags ps ps :=
  fun q hq => ⟨q, hq, rfl, rfl⟩

theorem sameFlags_trans {ps ps1 ps2 : List Player} (h1 : SameFlags ps ps1)
    (h2 : SameFlags ps1 ps2) : SameFlags ps ps2 := by
  intro q hq
  obtain ⟨p1, hp1, e1, e2⟩ := h2 q hq
  obtain ⟨p, hp, e3, e4⟩ := h1 p1 hp1
  exact ⟨p, hp, e1.trans e3, e2.trans e4⟩

theorem sameFlags_of_eq {ps ps1 : List Player} (h : ps1 = ps) : SameFlags ps ps1 := by
  rw [h]; exact sameFlags_refl _

theorem sameFlags_modifyPlayer (ps : List Player) (id : String) (f : Player → Player)
    (hid : ∀ p, (f p).ID = p.ID) (hv : ∀ p, (f p).IsViewer = p.IsViewer) :
    SameFlags ps (modifyPlayer ps id f) := by
  intro q hq
  obtain ⟨p, hp, hcase⟩ := mem_modifyPlayer hq
  rcases hcase with rfl | ⟨_, rfl⟩
  · exact ⟨q, hp, rfl, rfl⟩
  · exact ⟨p, hp, hid p, hv p⟩

theorem sameFlags_map (ps : List Player) (f : Player → Player)
    (hid : ∀ p, (f p).ID = p.ID) (hv : ∀ p, (f p).IsViewer = p.IsViewer) :
    SameFlags ps (ps.map f) := by
  intro q hq
  rw [List.mem_map] at hq
  obtain ⟨p, hp, rfl⟩ := hq
  exact ⟨p, hp, hid p, hv p⟩

theorem sameFlags_deletePlayer (ps : List Player) (id : String) :
    SameFlags ps (deletePlayer ps id) :=
  fun q hq => ⟨q, List.mem_of_mem_filter hq, rfl, rfl⟩

theorem sameFlags_score {pid cat : String} {s : Int} {r r1 : Room}
    (h : handleCategoryChosen pid cat s r = some r1) : SameFlags r.Players r1.Players := by
  unfold handleCategoryChosen at h
  split at h
  · cases h
  · cases h; exact sameFlags_refl _
  · split at h
    · cases h; exact sameFlags_refl _
    · split at h
      · cases h; exact sameFlags_refl _
      · simp only at h
        split at h
        · cases h
        · rename_i r3 ha
          cases h
          obtain ⟨fp, _⟩ := advanceTurn_frame ha
          obtain ⟨cp, _⟩ := checkGameEnd_frame r3
          rw [cp, fp]
          exact sameFlags_modifyPlayer _ _ _ (fun _ => rfl) (fun _ => rfl)

/-- A disconnect changes no viewer flag: every roster entry after it has the id and the
flag of an entry of before. -/
theorem sameFlags_disconnect {pid : String} {r : Room} {out : DisconnectOutcome}
    (h : disconnect pid r = some out) : SameFlags r.Players out.room.Players := by
  obtain ⟨wc, r2, _, ha, rfl⟩ := disconnect_some h
  obtain ⟨ap, _⟩ := announceTurn_frame ha
  have h0 : SameFlags r.Players
      (modifyPlayer r.Players pid (fun p => { p with Conn := none })) :=
    sameFlags_modifyPlayer _ _ _ (fun _ => rfl) (fun _ => rfl)
  have h1 : SameFlags (modifyPlayer r.Players pid (fun p => { p with Conn := none }))
      (leaveTurnOrder pid wc
        { r with Players := modifyPlayer r.Players pid (fun p => { p with Conn := none }) }).Players := by
    unfold leaveTurnOrder
    cases r.GameStarted with
    | false => exact sameFlags_deletePlayer _ _
    | true => exact sameFlags_modifyPlayer _ _ _ (fun _ => rfl) (fun _ => rfl)
  have h2 : SameFlags r.Players r2.Players := by
    rw [ap]
    exact sameFlags_trans h0 h1
  intro q hq
  obtain ⟨p, hp, hcase⟩ := teardown_players _ _ _ _ q hq
  obtain ⟨p0, hp0, e1, e2⟩ := h2 p hp
  rcases hcase with rfl | rfl
  · exact ⟨p0, hp0, e1, e2⟩
  · exact ⟨p0, hp0, e1, e2⟩

/-- No operation other than a join request changes a viewer flag. -/
theorem quiet_sameFlags {r r1 : Room} (h : Quiet r r1) : SameFlags r.Players r1.Players := by
  cases h with
  | connect playerID token conn _ _ hc =>
    unfold connect at hc
    split at hc
    · split at hc
      · cases hc
      · cases hc
        exact sameFlags_modifyPlayer _ _ _ (fun _ => rfl) (fun _ => rfl)
    · cases hc
  | ready playerID flag event =>
    exact sameFlags_modifyPlayer _ _ _ (fun _ => rfl) (fun _ => rfl)
  | chat event => exact sameFlags_refl _
  | start shuffle playerID _ hperm =>
    unfold handleGameStart
    split
    · exact sameFlags_refl _
    · split
      · exact sameFlags_refl _
      · exact sameFlags_map _ _ (fun _ => rfl) (fun _ => rfl)
  | roll playerID held rnd _ _ hr => exact sameFlags_of_eq (handleRequestRoll_frame hr).1
  | score playerID category score _ _ hsc => exact sameFlags_score hsc
  | endTurn playerID _ _ he => exact sameFlags_of_eq (handleEndTurn_frame he).1
  | disconnect playerID _ out hd => exact sameFlags_disconnect hd

theorem mem_modifyPlayer_cases {ps : List Player} {id : String} {f : Player → Player}
    {q : Player} (h : q ∈ modifyPlayer ps id f) :
    ∃ p ∈ ps, (p.ID ≠ id ∧ q = p) ∨ (p.ID = id ∧ q = f p) := by
  unfold modifyPlayer at h
  rw [List.mem_map] at h
  obtain ⟨p, hp, rfl⟩ := h
  refine ⟨p, hp, ?_⟩
  split
  · rename_i hid
    exact Or.inr ⟨by simpa using hid, rfl⟩
  · rename_i hid
    exact Or.inl ⟨by simpa using hid, rfl⟩

/-- The viewer flags of a room with a history: before the start no join request has
been recorded, and a roster member is a viewer exactly when a join request of theirs
was handled after the start. -/
theorem history_viewer {r : Room} {late : List String} (h : History r late) :
    (r.GameStarted = false → late = []) ∧
    ∀ p ∈ r.Players, (p.IsViewer = true ↔ p.ID ∈ late) := by
  induction h with
  | create playerName roomCode playerID token hid htok =>
    refine ⟨fun _ => rfl, ?_⟩
    intro p hp
    simp only [CreateRoom, List.mem_singleton] at hp
    subst hp
    simp
  | join req playerID token r r1 resp late hh hfresh htok hj ih =>
    have hi1 : Inv r1 :=
      inv_step (reachable_inv (history_reachable hh))
        (Step.join req playerID token r r1 resp hfresh htok hj)
    have hgs : r1.GameStarted = r.GameStarted := by
      rcases JoinRoom_ok hj with ⟨_, _, rfl, _⟩ | ⟨_, _, rfl, _⟩ | ⟨_, _, _, rfl, _⟩ <;> rfl
    cases hg : r.GameStarted with
    | false =>
      have hlate := ih.1 hg
      simp only [Bool.false_eq_true, if_false]
      refine ⟨fun _ => hlate, ?_⟩
      intro p hp
      have hv := hi1.lobby_active (by rw [hgs, hg]) p hp
      rw [hv, hlate]
      simp
    | true =>
      simp only [if_true]
      refine ⟨fun hf => absurd (hgs.symm.trans hf) (by rw [hg]; decide), ?_⟩
      rcases JoinRoom_ok hj with ⟨_, _, rfl, rfl⟩ | ⟨_, _, rfl, rfl⟩ | ⟨_, hng, _⟩
      · intro q hq
        obtain ⟨p, hp, hcase⟩ := mem_modifyPlayer_cases hq
        rcases hcase with ⟨hne, rfl⟩ | ⟨heq, rfl⟩
        · rw [ih.2 q hp, List.mem_cons]
          constructor
          · exact fun hm => Or.inr hm
          · rintro (he | hm)
            · exact absurd he hne
            · exact hm
        · simp only [hg, Bool.true_or, true_iff]
          rw [heq]
          exact List.mem_cons_self _ _
      · intro q hq
        simp only at hq
        rw [setPlayer_fresh _ _ hfresh.2.1, List.mem_append, List.mem_singleton] at hq
        rcases hq with hq | rfl
        · have hne : q.ID ≠ playerID := by
            intro he
            apply hfresh.2.1
            unfold rosterIds
            rw [List.mem_map]
            exact ⟨q, hq, he⟩
          rw [ih.2 q hq, List.mem_cons]
          constructor
          · exact fun hm => Or.inr hm
          · rintro (he | hm)
            · exact absurd he hne
            · exact hm
        · simp
      · rw [hg] at hng
        cases hng
  | quiet r r1 late hh hq ih =>
    refine ⟨?_, ?_⟩
    · intro hf
      apply ih.1
      cases hg : r.GameStarted with
      | false => rfl
      | true =>
        have := (step_started (quiet_step hq) hg).1
        rw [this] at hf
        cases hf
    · intro q hq1
      obtain ⟨p, hp, e1, e2⟩ := quiet_sameFlags hq q hq1
      rw [e1, e2]
      exact ih.2 p hp

theorem applyOp_history {op : Op} {r r1 : Room} {late : List String} (hh : History r late)
    (h : applyOp op r = some r1) : History r1 (lateOp op r late) := by
  cases op with
  | join req playerID token =>
    simp only [applyOp] at h
    split at h
    · rename_i hf
      simp only [Bool.and_eq_true, bne_iff_ne, ne_eq] at hf
      split at h
      · rename_i r2 resp hj
        cases h
        have := History.join req playerID token r _ resp late hh (isFreshID_sound hf.1) hf.2 hj
        simp only [lateOp, hj]
        exact this
      · cases h
    · cases h
  | connect playerID token conn => exact History.quiet _ _ _ hh (Quiet.connect _ _ _ _ _ h)
  | ready playerID flag event =>
    simp only [applyOp, Option.some.injEq] at h
    subst h
    exact History.quiet _ _ _ hh (Quiet.ready _ _ _ _)
  | chat event =>
    simp only [applyOp, Option.some.injEq] at h
    subst h
    exact History.quiet _ _ _ hh (Quiet.chat _ _)
  | start reversed playerID =>
    simp only [applyOp, Option.some.injEq] at h
    subst h
    apply History.quiet _ _ _ hh
    apply Quiet.start
    intro l
    cases reversed with
    | true => exact List.reverse_perm l
    | false => exact List.Perm.refl l
  | roll playerID held faces => exact History.quiet _ _ _ hh (Quiet.roll _ _ _ _ _ h)
  | score playerID category score => exact History.quiet _ _ _ hh (Quiet.score _ _ _ _ _ h)
  | endTurn playerID => exact History.quiet _ _ _ hh (Quiet.endTurn _ _ _ h)
  | disconnect playerID =>
    simp only [applyOp, Option.map_eq_some'] at h
    obtain ⟨out, hd, rfl⟩ := h
    exact History.quiet _ _ _ hh (Quiet.disconnect _ _ _ hd)

/-- A scenario run from a room with a history gives a room with a history. -/
theorem run_history {ops : List Op} {r r1 : Room} {late : List String} (hh : History r late)
    (h : run ops r = some r1) : History r1 (runLate ops r late) := by
  induction ops generalizing r late with
  | nil =>
    simp only [run, Option.some.injEq] at h
    subst h
    exact hh
  | cons op ops ih =>
    simp only [run] at h
    split at h
    · cases h
    · rename_i r2 ha
      simp only [runLate, ha]
      exact ih (applyOp_history hh ha) h

theorem leftB_history : History leftB [] :=
  (show runLate leaveOps lobby1 [] = [] by decide) ▸
    run_history (History.create "Ann" "ROOM42" "a" "ta" (by decide) (by decide))
      (show run leaveOps lobby1 = some leftB by decide)

theorem backB_history : History backB ["b"] :=
  (show runLate (leaveOps ++ [Op.join rejoinB "y" "ty"]) lobby1 [] = ["b"] by decide) ▸
    run_history (History.create "Ann" "ROOM42" "a" "ta" (by decide) (by decide))
      (show run (leaveOps ++ [Op.join rejoinB "y" "ty"]) lobby1 = some backB by decide)

/-- C23, amended. In a reachable room, with `late` the ids for which a join request (a
fresh join or a rejoin with id and token) was handled after the start of the game: a
viewer flag is set only in a started game; a roster member whose id is not in `late`
is not a viewer; a roster member who is not in the turn sequence is a viewer exactly
when its id is in `late`; and a disconnect changes no viewer flag and records no id,
so a player it removes from the turn sequence is a viewer only from its rejoin on. -/
theorem C23_viewer_flag (r : Room) (late : List String) (h : History r late) :
    (∀ p ∈ r.Players, p.IsViewer = true → r.GameStarted = true) ∧
    (∀ p ∈ r.Players, p.ID ∉ late → p.IsViewer = false) ∧
    (∀ p ∈ r.Players, p.ID ∉ r.PlayerOrder → (p.IsViewer = true ↔ p.ID ∈ late)) ∧
    (∀ (pid : String) (out : DisconnectOutcome), disconnect pid r = some out →
      SameFlags r.Players out.room.Players ∧ History out.room late) := by
  have hiff := (history_viewer h).2
  have hi := reachable_inv (history_reachable h)
  refine ⟨?_, ?_, fun p hp _ => hiff p hp, ?_⟩
  · intro p hp hv
    cases hg : r.GameStarted with
    | true => rfl
    | false =>
      rw [hi.lobby_active hg p hp] at hv
      cases hv
  · intro p hp hn
    cases hv : p.IsViewer with
    | false => rfl
    | true => exact absurd ((hiff p hp).mp hv) hn
  · intro pid out hd
    exact ⟨sameFlags_disconnect hd, History.quiet _ _ _ h (Quiet.disconnect _ _ _ hd)⟩

/-- C23 at the game in which `b` left and came back with its id and token. -/
theorem C23_viewer_flag_witness :
    (∀ p ∈ backB.Players, p.IsViewer = true → backB.GameStarted = true) ∧
    (∀ p ∈ backB.Players, p.ID ∉ ["b"] → p.IsViewer = false) ∧
    (∀ p ∈ backB.Players, p.ID ∉ backB.PlayerOrder → (p.IsViewer = true ↔ p.ID ∈ ["b"])) ∧
    (∀ (pid : String) (out : DisconnectOutcome), disconnect pid backB = some out →
      SameFlags backB.Players out.room.Players ∧ History out.room ["b"]) :=
  C23_viewer_flag backB ["b"] backB_history

set_option maxRecDepth 100000 in
/-- C23 as stated fails at the game `gameLive` of `a`, `b`, `c`, all connected. The
session of `b` closes: `b` is removed from the turn sequence, so `b` has left the turn
sequence, yet the roster entry of `b` is kept with its viewer flag still false. No
join request was handled after the start. -/
theorem C23_counterexample :
    History leftB [] ∧ gameLive.GameStarted = true ∧
    "b" ∈ gameLive.PlayerOrder ∧
    disconnect "b" gameLive = some { room := leftB, roomEnded := none } ∧
    "b" ∉ leftB.PlayerOrder ∧
    findPlayer leftB.Players "b" = some goneB ∧
    goneB.IsViewer = false :=
  ⟨leftB_history, by decide, by decide, by decide, by decide, by decide, by decide⟩

theorem viewerTurn_reachable : Reachable viewerTurn :=
  run_reachable gameLive_reachable
    (show run [Op.join rejoinC "x" "tx"] gameLive = some viewerTurn by decide)

set_option maxRecDepth 100000 in
/-- C24 fails in the code. In the game `gameLive` the current player `c`, connected
and in the turn sequence, sends a join request with its id and token. The request
succeeds with `is_viewer = true`: `c` is now a viewer, still in the turn sequence and
still the current-turn player. A roll, a score or an end-turn from the session of `c`
is dropped, and an end-turn from the session of `b` is rejected, so the turn of `c`
does not end. The ids of the turn sequence are roster keys all the same. -/
theorem C24_viewer_in_turn_sequence :
    Reachable gameLive ∧ Reachable viewerTurn ∧
    indexOrder gameLive.PlayerOrder gameLive.CurrentPlayerIdx = some "c" ∧
    (findPlayer gameLive.Players "c").map (fun p => (p.IsViewer, p.Conn))
      = some (false, some 3) ∧
    JoinRoom rejoinC "x" "tx" gameLive = Except.ok (viewerTurn,
      { room_code := "ROOM42", player_id := "c", token := "tc", is_viewer := true,
        last_event_id := 1 }) ∧
    viewerTurn.PlayerOrder = ["c", "b", "a"] ∧
    indexOrder viewerTurn.PlayerOrder viewerTurn.CurrentPlayerIdx = some "c" ∧
    findPlayer viewerTurn.Players "c" = some sessionC ∧
    sessionC.IsViewer = true ∧
    handleMessage id (fun _ => 0) sessionC rollPlain viewerTurn = some viewerTurn ∧
    handleMessage id (fun _ => 0) sessionC scorePlain viewerTurn = some viewerTurn ∧
    handleMessage id (fun _ => 0) sessionC endTurnPlain viewerTurn = some viewerTurn ∧
    findPlayer viewerTurn.Players "b" = some sessionB ∧
    handleMessage id (fun _ => 0) sessionB endTurnPlain viewerTurn = some viewerTurn ∧
    (∀ pid ∈ viewerTurn.PlayerOrder, pid ∈ rosterIds viewerTurn.Players) :=
  ⟨gameLive_reachable, viewerTurn_reachable, by decide, by decide, by rfl, by decide,
    by decide, by decide, by decide, by decide, by decide, by decide, by decide, by decide,
    by decide⟩

/-! ### C2, C3 and C7: scores that leave the range of `int` -/

theorem halfway_reachable : Reachable halfway :=
  run_reachable lobby1_reachable
    (show run [Op.start false "a", Op.score "a" "ones" hugeScore] lobby1 = some halfway
      by decide)

theorem overflowed_reachable : Reachable overflowed :=
  run_reachable halfway_reachable
    (show run [Op.score "a" "twos" hugeScore] halfway = some overflowed by decide)

theorem overflowOver_reachable : Reachable overflowOver :=
  run_reachable overflowed_reachable
    (show run ((Categories.drop 2).map (fun c => Op.score "a" c 0)) overflowed
      = some overflowOver by decide)

theorem brimOver_reachable : Reachable brimOver :=
  run_reachable lobby1_reachable
    (show run (Op.start false "a" :: Op.score "a" "ones" hugeScore ::
        Op.score "a" "twos" (hugeScore - 1024) :: Op.score "a" "threes" 1023 ::
        (Categories.drop 3).map (fun c => Op.score "a" c 0)) lobby1 = some brimOver by decide)

set_option maxRecDepth 100000 in
/-- C2 as stated fails when the scores leave the range of `int`. The host `a` plays
alone and scores 2^62 in `ones` and 2^62 in `twos`: the sum of the mapping is 2^63, the
stored total is the least `int`, -2^63. Hence the running total is not the sum in
every reachable room. -/
theorem C2_counterexample :
    Reachable overflowed ∧
    overflowA ∈ overflowed.Players ∧
    overflowA.TotalScore = -9223372036854775808 ∧
    sumScores overflowA.Scores = 9223372036854775808 ∧
    ¬ (∀ r, Reachable r → ∀ p ∈ r.Players, p.TotalScore = sumScores p.Scores) := by
  have hmem : overflowA ∈ overflowed.Players := by decide
  refine ⟨overflowed_reachable, hmem, by decide, by decide, ?_⟩
  intro hall
  have := hall overflowed overflowed_reachable overflowA hmem
  revert this
  decide

set_option maxRecDepth 100000 in
/-- C3 as stated fails when the total leaves the range of `int`. In the solo game of
`a`, who holds 2^62 in `ones` and is the current player, `CATEGORY_CHOSEN` for `twos`
with score 2^62 is accepted and recorded, and the total of `a` goes from 2^62 to -2^63:
it does not increase by the score. -/
theorem C3_counterexample :
    Reachable halfway ∧
    indexOrder halfway.PlayerOrder halfway.CurrentPlayerIdx = some "a" ∧
    findPlayer halfway.Players "a" = some halfA ∧
    halfA.TotalScore = 4611686018427387904 ∧
    halfA.Scores.lookup "twos" = none ∧
    handleCategoryChosen "a" "twos" 4611686018427387904 halfway = some overflowed ∧
    findPlayer overflowed.Players "a" = some overflowA ∧
    overflowA.Scores.lookup "twos" = some 4611686018427387904 ∧
    overflowA.TotalScore = -9223372036854775808 ∧
    overflowA.TotalScore ≠ halfA.TotalScore + 4611686018427387904 :=
  ⟨halfway_reachable, by decide, by decide, by decide, by decide, by decide, by decide,
    by decide, by decide, by decide⟩

set_option maxRecDepth 100000 in
/-- C7 as stated fails when the sums leave the range of `int`. In the finished solo
game `overflowOver` the player `a` holds 2^62 in `ones` and in `twos`: the sum of the
upper categories is 2^63, which is at least 63, yet the `GAME_END` event carries
`upper_bonus` 0. In the finished solo game `brimOver` the total of `a` is the greatest
`int` and the bonus is 35: `final_score` is not `base_score + upper_bonus`. -/
theorem C7_counterexample :
    Reachable overflowOver ∧
    (findPlayer overflowOver.Players "a").map (fun p => (p.IsViewer, upperSum p.Scores))
      = some (false, 9223372036854775808) ∧
    overflowOver.Events.getLast?.map (fun e => (e.EvType, finalScoreOf e "a"))
      = some ("GAME_END",
          some (FinalScore.mk "Ann" (-9223372036854775808) 0 (-9223372036854775808))) ∧
    Reachable brimOver ∧
    (findPlayer brimOver.Players "a").map (fun p => (p.IsViewer, upperSum p.Scores))
      = some (false, 9223372036854775807) ∧
    brimOver.Events.getLast?.map (fun e => (e.EvType, finalScoreOf e "a"))
      = some ("GAME_END",
          some (FinalScore.mk "Ann" 9223372036854775807 35 (-9223372036854775774))) ∧
    (9223372036854775807 : Int) + 35 ≠ -9223372036854775774 :=
  ⟨overflowOver_reachable, by decide, by decide, brimOver_reachable, by decide, by decide,
    by decide⟩

end Yahtzee
